import Mathlib

/-! Process and kernel-thread table of `kernel/proc.c`.

A shallow embedding of the process table (`struct proc proc[NPROC]`, each slot
holding an inline array `kthread[NKT]` of kernel-thread slots) and of the
lifecycle operations of `kernel/proc.c`: `allocproc`, `freeproc`, `fork`,
`reparent`, `exit`, `kthread_exit`, `wait`, `kthread_join`, `wakeup`, `kill`,
`kthread_kill`, `kthread_create`.

Conventions of the embedding.

* The table is a list of slots; `NPROC` is the length of the list and `NKT` the
  length of a slot's `kthread` list, so every statement holds for every table
  size.
* A `struct proc *` is the index of the slot it points to (`none` is the null
  pointer); a `struct kthread *` is a pair (process index, thread index).
* `myproc()` and `mykthread()` are the arguments `pi` and `ki` of an operation:
  the calling thread is thread `ki` of process `pi`.
* An operation is followed up to the point where it returns, enters `sched()`,
  calls `panic`, or reads memory outside the table; what other threads do while
  the caller is off the CPU is not part of the embedding.  Spinlock
  `acquire`/`release` pairs protect the data against other CPUs and have no
  effect on the data themselves; they are not represented.
* Results of the external collaborators (`kalloc`, `proc_pagetable`, `uvmcopy`,
  `copyout`) are arguments of the operation that calls them.
* A C `int` is an integer; the counters `nextpid` and `nexttid`, the only values
  the code does arithmetic on, wrap as 32-bit two's complement (`int32`).
-/

namespace Proc

/-! ## Data model -/

/-- Modelled from the spec: the states of a process slot (`p->state`), declared
in `kernel/proc.h`, which is not among the sources.  Section 3: `state` is one
of UNUSED, USED, ZOMBIE. -/
inductive procstate
  | UNUSED
  | USED
  | ZOMBIE
  deriving DecidableEq, Repr, Inhabited

/-- Modelled from the spec: the states of a kernel-thread slot (`kt->state`),
declared in a header that is not among the sources.  Section 3: `state` is one
of UNUSED, USED, RUNNABLE, RUNNING, SLEEPING, ZOMBIE. -/
inductive kstate
  | UNUSED
  | USED
  | SLEEPING
  | RUNNABLE
  | RUNNING
  | ZOMBIE
  deriving DecidableEq, Repr, Inhabited

/-- Addresses used as sleep channels (`void *chan`): the null pointer, the
address of a process slot, the address of a thread slot, or any other kernel
address.  Equality of addresses is the only operation on them. -/
inductive Chan
  | null
  | proc (i : Nat)
  | kthread (i j : Nat)
  | other (a : Nat)
  deriving DecidableEq, Repr, Inhabited

/-- Modelled from the spec: `struct trapframe` is declared in a header that is
not among the sources.  The saved user registers of a thread: the program
counter `epc`, the stack pointer `sp`, the return-value register `a0`, and the
remaining registers. -/
structure trapframe where
  epc : Nat
  sp : Nat
  a0 : Nat
  regs : List Nat
  deriving DecidableEq, Repr, Inhabited

/-- Modelled from the spec: `struct kthread` is declared in a header that is not
among the sources.  Section 3 lists its fields; `lock`, `context`, `kstack` and
`my_pcb` are not represented (the owning process is the slot the thread array
lies in).  The field `trapframe` holds the contents of the trapframe the slot's
pointer designates, the slot's entry of the page `base_trapframes`. -/
structure kthread where
  state : kstate
  chan : Chan
  killed : Int
  xstate : Int
  tid : Int
  trapframe : trapframe
  deriving DecidableEq, Repr, Inhabited

/-- Modelled from the spec: `struct proc` is declared in `kernel/proc.h`, which
is not among the sources.  Section 3 lists its fields; `lock` is not
represented.  `pagetable`, `base_trapframes`, `cwd` and the entries of `ofile`
are handles owned by external collaborators, `0` being the null pointer;
`name` is the string held in the buffer `name[16]`. -/
structure proc where
  state : procstate
  killed : Int
  xstate : Int
  pid : Int
  parent : Option Nat
  sz : Nat
  pagetable : Nat
  base_trapframes : Nat
  ofile : List Nat
  cwd : Nat
  name : List Nat
  nexttid : Int
  kthread : List kthread
  deriving DecidableEq, Repr, Inhabited

/-- The global state: the table `proc[]`, `initproc`, `nextpid`, and the user
memory written by `copyout`, kept as an association list from (page table,
user address) to the stored word, most recent first. -/
structure Kernel where
  proc : List proc
  initproc : Option Nat
  nextpid : Int
  umem : List (Nat × Nat × Int)
  deriving DecidableEq, Repr, Inhabited

/-- How an operation leaves the CPU. -/
inductive Outcome
  | ret (v : Int) (k : Kernel)
  | sched (k : Kernel)
  | sleeping (k : Kernel)
  | panic (k : Kernel)
  | fault (k : Kernel)
  deriving DecidableEq, Repr

/-- The table state at the point the operation leaves the CPU. -/
def Outcome.kernel : Outcome → Kernel
  | .ret _ k => k
  | .sched k => k
  | .sleeping k => k
  | .panic k => k
  | .fault k => k

/-! ## Table access -/

/-- Apply `f` to the element at position `n`. -/
def modifyAt {α : Type} (f : α → α) : List α → Nat → List α
  | [], _ => []
  | x :: xs, 0 => f x :: xs
  | x :: xs, n + 1 => x :: modifyAt f xs n

/-- Map with the position of each element, counting from `n`. -/
def mapIdxFrom {α : Type} (f : Nat → α → α) : Nat → List α → List α
  | _, [] => []
  | n, x :: xs => f n x :: mapIdxFrom f (n + 1) xs

/-- Position of the first element satisfying `q`, counting from `n`: the slot
at which a scan `for (p = tab; p < &tab[N]; p++) if (q(p)) break;` stops. -/
def firstIdxFrom {α : Type} (q : α → Bool) : Nat → List α → Option Nat
  | _, [] => none
  | n, x :: xs => if q x then some n else firstIdxFrom q (n + 1) xs

/-- Position of the first element satisfying `q`. -/
def firstIdx {α : Type} (q : α → Bool) (xs : List α) : Option Nat :=
  firstIdxFrom q 0 xs

/-- The slot `proc[i]`. -/
def procAt (k : Kernel) (i : Nat) : proc :=
  k.proc.getD i default

/-- The slot `proc[i].kthread[j]`. -/
def ktAt (k : Kernel) (i j : Nat) : kthread :=
  (procAt k i).kthread.getD j default

/-- Assign fields of `proc[i]`. -/
def setProc (k : Kernel) (i : Nat) (f : proc → proc) : Kernel :=
  { k with proc := modifyAt f k.proc i }

/-- Assign fields of `proc[i].kthread[j]`. -/
def setKt (k : Kernel) (i j : Nat) (f : kthread → kthread) : Kernel :=
  setProc k i (fun p => { p with kthread := modifyAt f p.kthread j })

/-- The address of a process slot as a sleep channel. -/
def procChan : Option Nat → Chan
  | none => .null
  | some i => .proc i

/-- The effect of `copyout(pagetable, addr, &v, sizeof(int))` when it succeeds. -/
def copyout (k : Kernel) (pagetable addr : Nat) (v : Int) : Kernel :=
  { k with umem := (pagetable, addr, v) :: k.umem }

/-- The word of user memory at `addr` under `pagetable`, when one was stored. -/
def uread (k : Kernel) (pagetable addr : Nat) : Option Int :=
  (k.umem.find? (fun e => e.1 = pagetable && e.2.1 = addr)).map (fun e => e.2.2)

/-- Two's-complement value of a C `int`. -/
def int32 (n : Int) : Int :=
  (n + 2147483648) % 4294967296 - 2147483648

/-! ## Sleep and wakeup -/

/-- The body of `sleep(chan, lk)` up to its call of `sched()`:
`kt->chan = chan; kt->state = SLEEPING;` for the calling thread. -/
def sleep (k : Kernel) (pi ki : Nat) (chan : Chan) : Kernel :=
  setKt k pi ki (fun kt => { kt with chan := chan, state := .SLEEPING })

/-- The body of the inner loop of `wakeup` for one thread slot. -/
def wakeup_kt (me : Option (Nat × Nat)) (chan : Chan) (i j : Nat) (kt : kthread) : kthread :=
  if me ≠ some (i, j) then
    if kt.state = .SLEEPING ∧ kt.chan = chan then { kt with state := .RUNNABLE } else kt
  else kt

/-- The body of the outer loop of `wakeup` for one process slot. -/
def wakeup_proc (me : Option (Nat × Nat)) (chan : Chan) (i : Nat) (p : proc) : proc :=
  { p with kthread := mapIdxFrom (wakeup_kt me chan i) 0 p.kthread }

/-- The function `wakeup(chan)`: every thread of every process other than
`mykthread()` that is SLEEPING on `chan` becomes RUNNABLE.  `me` is
`mykthread()`, `none` when no thread runs on the CPU. -/
def wakeup (k : Kernel) (me : Option (Nat × Nat)) (chan : Chan) : Kernel :=
  { k with proc := mapIdxFrom (wakeup_proc me chan) 0 k.proc }

/-! ## Kill -/

/-- The body of the thread loop of `kill` and of the matching branch of
`kthread_kill`: `kt->killed = 1; if (kt->state == SLEEPING) kt->state = RUNNABLE;`. -/
def kill_kt (kt : kthread) : kthread :=
  { kt with killed := 1, state := if kt.state = .SLEEPING then .RUNNABLE else kt.state }

/-- The function `kill(pid)`: the scan stops at the first slot with `p->pid == pid`. -/
def kill (k : Kernel) (pid : Int) : Int × Kernel :=
  match firstIdx (fun p => decide (p.pid = pid)) k.proc with
  | some i =>
    (0, setProc k i (fun p => { p with killed := 1, kthread := p.kthread.map kill_kt }))
  | none => (-1, k)

/-- The loop of `kthread_kill` over the thread slots, carrying `ret`. -/
def kthread_kill_loop (ktid : Int) : List kthread → Int → Int × List kthread
  | [], ret => (ret, [])
  | kt :: kts, ret =>
    if kt.tid = ktid then
      let r := kthread_kill_loop ktid kts 0
      (r.1, kill_kt kt :: r.2)
    else
      let r := kthread_kill_loop ktid kts ret
      (r.1, kt :: r.2)

/-- The function `kthread_kill(ktid)` called by a thread of process `pi`. -/
def kthread_kill (k : Kernel) (pi : Nat) (ktid : Int) : Int × Kernel :=
  let r := kthread_kill_loop ktid (procAt k pi).kthread (-1)
  (r.1, setProc k pi (fun p => { p with kthread := r.2 }))

/-! ## Allocation and release of slots -/

/-- Modelled from the spec: `free_kthread` is defined in `kernel/kthread.c`,
which is not among the sources.  Section 4.D: it "zeroes identity, clears
`chan`, sets state UNUSED, releases lock". -/
def free_kthread (kt : kthread) : kthread :=
  { kt with tid := 0, chan := .null, state := .UNUSED }

/-- Modelled from the spec: `alloc_kthread` is defined in `kernel/kthread.c`,
which is not among the sources.  Sections 4.B and 4.D: it "scans
`p->kthread[]`, returns the first UNUSED slot transitioned to USED, assigning a
fresh `tid`" issued as `nexttid++`.  The result is the index of the slot, or
`none` for the null pointer. -/
def alloc_kthread (p : proc) : Option Nat × proc :=
  match firstIdx (fun kt => decide (kt.state = .UNUSED)) p.kthread with
  | none => (none, p)
  | some j =>
    (some j, { p with
      nexttid := int32 (p.nexttid + 1),
      kthread := modifyAt (fun kt => { kt with tid := p.nexttid, state := .USED }) p.kthread j })

/-- The function `freeproc(p)`: the trapframe page and the page table are handed
back, the identity fields are zeroed, and every thread slot is freed. -/
def freeproc (p : proc) : proc :=
  { p with
    base_trapframes := 0,
    pagetable := 0,
    sz := 0,
    pid := 0,
    parent := none,
    name := [],
    killed := 0,
    xstate := 0,
    state := .UNUSED,
    kthread := p.kthread.map free_kthread }

/-- The function `allocproc()`.  `page` is the result of `kalloc()` and `pt` the
result of `proc_pagetable(p)`, `0` for a failed allocation.  The result is the
index of the slot returned, or `none` for the null pointer. -/
def allocproc (k : Kernel) (page pt : Nat) : Option Nat × Kernel :=
  match firstIdx (fun p => decide (p.state = .UNUSED)) k.proc with
  | none => (none, k)
  | some i =>
    let k1 := setProc { k with nextpid := int32 (k.nextpid + 1) } i
      (fun p => { p with pid := k.nextpid })
    let k2 := setProc k1 i (fun p => { p with state := .USED })
    let k3 := setProc k2 i (fun p => { p with nexttid := 1 })
    let k4 := setProc k3 i (fun p => { p with base_trapframes := page })
    if page = 0 then (none, setProc k4 i freeproc)
    else
      let k5 := setProc k4 i (fun p => { p with pagetable := pt })
      if pt = 0 then (none, setProc k5 i freeproc)
      else (some i, setProc k5 i (fun p => (alloc_kthread p).2))

/-! ## Thread creation -/

/-- The function `kthread_create(start_func, stack, stack_size)` called by a
thread of process `pi`.  The pointer `kt` that `alloc_kthread` returns is used
without a test: when it is null, the first statement reads `kt->trapframe`
through the null pointer.  The sum `(uint64)stack + stack_size` is taken in
64-bit unsigned arithmetic. -/
def kthread_create (k : Kernel) (pi : Nat) (start_func stack stack_size : Nat) : Outcome :=
  let k0 := setProc k pi (fun p => (alloc_kthread p).2)
  match (alloc_kthread (procAt k pi)).1 with
  | none => .fault k0
  | some j =>
    let k1 := setKt k0 pi j
      (fun kt => { kt with trapframe := { kt.trapframe with epc := start_func } })
    let k2 := setKt k1 pi j
      (fun kt => { kt with
        trapframe := { kt.trapframe with sp := (stack + stack_size) % 18446744073709551616 } })
    let k3 := setKt k2 pi j (fun kt => { kt with state := .RUNNABLE })
    .ret (ktAt k3 pi j).tid k3

/-! ## Fork -/

/-- Modelled from the spec: `safestrcpy` is defined in `kernel/string.c`, which
is not among the sources.  It copies the string `src` into a buffer of `n`
bytes, keeping at most `n - 1` characters before the terminator. -/
def safestrcpy (src : List Nat) (n : Nat) : List Nat :=
  src.take (n - 1)

/-- The loop of `fork` over the open files:
`if (p->ofile[i]) np->ofile[i] = filedup(p->ofile[i]);`. -/
def dupfiles : List Nat → List Nat → List Nat
  | f :: fs, g :: gs => (if f ≠ 0 then f else g) :: dupfiles fs gs
  | _, gs => gs

/-- The function `fork()` called by thread `ki` of process `pi`.  `page` and `pt`
are the results of `kalloc()` and `proc_pagetable` inside `allocproc`, and
`uvmcopy_ok` tells whether `uvmcopy` returned 0.  On the failure of `uvmcopy`
the data path is followed (`freeproc(np)`, then -1); that `freeproc` takes the
lock of every thread slot while `fork` still holds the one `alloc_kthread`
returned is a matter of the locks, which are not represented. -/
def fork (k : Kernel) (pi ki : Nat) (page pt : Nat) (uvmcopy_ok : Bool) : Outcome :=
  match allocproc k page pt with
  | (none, k1) => .ret (-1) k1
  | (some np, k1) =>
    if uvmcopy_ok = false then .ret (-1) (setProc k1 np freeproc)
    else
      let k2 := setProc k1 np (fun q => { q with state := .USED })
      let k3 := setProc k2 np (fun q => { q with sz := (procAt k2 pi).sz })
      let k4 := setKt k3 np 0 (fun t => { t with trapframe := (ktAt k3 pi ki).trapframe })
      let k5 := setKt k4 np 0 (fun t => { t with trapframe := { t.trapframe with a0 := 0 } })
      let k6 := setProc k5 np (fun q => { q with ofile := dupfiles (procAt k5 pi).ofile q.ofile })
      let k7 := setProc k6 np (fun q => { q with cwd := (procAt k6 pi).cwd })
      let k8 := setProc k7 np (fun q => { q with name := safestrcpy (procAt k7 pi).name 16 })
      let pid := (procAt k8 np).pid
      let k9 := setProc k8 np (fun q => { q with parent := some pi })
      let k10 := setKt k9 np 0 (fun t => { t with state := .RUNNABLE })
      .ret pid k10

/-! ## Reparenting -/

/-- The loop of `reparent(p)` from slot `i` on, `n` slots remaining:
`if (pp->parent == p) { pp->parent = initproc; wakeup(initproc); }`. -/
def reparent_loop (me : Option (Nat × Nat)) (p : Nat) : Nat → Nat → Kernel → Kernel
  | 0, _, k => k
  | n + 1, i, k =>
    if (procAt k i).parent = some p then
      let k1 := setProc k i (fun pp => { pp with parent := k.initproc })
      reparent_loop me p n (i + 1) (wakeup k1 me (procChan k1.initproc))
    else reparent_loop me p n (i + 1) k

/-- The function `reparent(p)`, run by the thread `me`. -/
def reparent (k : Kernel) (me : Option (Nat × Nat)) (p : Nat) : Kernel :=
  reparent_loop me p k.proc.length 0 k

/-! ## Join -/

/-- The value of `kt` when the lookup loop of `kthread_join` is left: a pointer
to the first slot with `kt->tid == ktid`, or, when the loop runs to its end,
the pointer `&p->kthread[NKT]` one past the array.  It is never the null
pointer `none`. -/
def kthread_join_scan (kts : List kthread) (ktid : Int) : Option Nat :=
  some ((firstIdx (fun kt => decide (kt.tid = ktid)) kts).getD kts.length)

/-- The function `kthread_join(ktid, status)` called by thread `ki` of process
`pi`, up to its first `sleep`.  `copyok` tells whether `copyout` returns 0 when
it is called.  Reading `kt->state` through the pointer one past the array is
the outcome `fault`. -/
def kthread_join (k : Kernel) (pi ki : Nat) (ktid : Int) (status : Nat) (copyok : Bool) :
    Outcome :=
  let p := procAt k pi
  match kthread_join_scan p.kthread ktid with
  | none => .ret (-1) k
  | some j =>
    match p.kthread[j]? with
    | none => .fault k
    | some kt =>
      if kt.state = .ZOMBIE then
        if status ≠ 0 ∧ copyok = false then .ret (-1) k
        else
          let k1 := if status ≠ 0 then copyout k p.pagetable status kt.xstate else k
          .ret 0 (setKt k1 pi j free_kthread)
      else if kt.killed ≠ 0 then .ret (-1) k
      else .sleeping (sleep k pi ki (Chan.kthread pi j))

/-! ## Exit -/

/-- The loop of `exit` over the thread slots of the caller's process, from slot
`j` on, `n` slots remaining.  The outcome `ret` stands for the loop running to
its end; when `kthread_join` does not return, neither does the loop. -/
def exit_loop (pi ki : Nat) (status : Int) : Nat → Nat → Kernel → Outcome
  | 0, _, k => .ret 0 k
  | n + 1, j, k =>
    if j ≠ ki ∧ (ktAt k pi j).state ≠ .UNUSED then
      let k1 := setKt k pi j (fun kt => { kt with xstate := status })
      let k2 := setKt k1 pi j (fun kt => { kt with state := .ZOMBIE })
      match kthread_join k2 pi ki (ktAt k2 pi j).tid 0 false with
      | .ret _ k3 => exit_loop pi ki status n (j + 1) k3
      | o => o
    else exit_loop pi ki status n (j + 1) k

/-- The function `exit(status)` called by thread `ki` of process `pi`, up to its
call of `sched()`. -/
def exit (k : Kernel) (pi ki : Nat) (status : Int) : Outcome :=
  if k.initproc = some pi then .panic k
  else
    let k1 := setProc k pi (fun p => { p with ofile := p.ofile.map (fun _ => 0) })
    let k2 := setProc k1 pi (fun p => { p with cwd := 0 })
    let k3 := reparent k2 (some (pi, ki)) pi
    let k4 := wakeup k3 (some (pi, ki)) (procChan (procAt k3 pi).parent)
    let k5 := setProc k4 pi (fun p => { p with xstate := status })
    let k6 := setProc k5 pi (fun p => { p with state := .ZOMBIE })
    match exit_loop pi ki status (procAt k6 pi).kthread.length 0 k6 with
    | .ret _ k7 =>
      let k8 := setKt k7 pi ki (fun kt => { kt with xstate := status })
      .sched (setKt k8 pi ki (fun kt => { kt with state := .ZOMBIE }))
    | o => o

/-- The test of the counting loop of `kthread_exit`. -/
def live (kt : kthread) : Bool :=
  decide (kt.state = .RUNNABLE) || decide (kt.state = .RUNNING)
    || decide (kt.state = .SLEEPING) || decide (kt.state = .USED)

/-- The function `kthread_exit(status)` called by thread `ki` of process `pi`,
up to its call of `sched()`. -/
def kthread_exit (k : Kernel) (pi ki : Nat) (status : Int) : Outcome :=
  let counter := (procAt k pi).kthread.countP live
  if counter = 1 then
    let k1 := setKt k pi ki (fun kt => { kt with xstate := status })
    let k2 := setKt k1 pi ki (fun kt => { kt with state := .ZOMBIE })
    exit k2 pi ki status
  else
    let k1 := setKt k pi ki (fun kt => { kt with xstate := status })
    let k2 := setKt k1 pi ki (fun kt => { kt with state := .ZOMBIE })
    .sched (wakeup k2 (some (pi, ki)) (Chan.kthread pi ki))

/-! ## Wait -/

/-- The scan of `wait` over the table from slot `i` on, carrying `havekids`: it
stops at the first child of `pi` found ZOMBIE. -/
def wait_scan (pi : Nat) : List proc → Nat → Bool → Option Nat × Bool
  | [], _, havekids => (none, havekids)
  | pp :: pps, i, havekids =>
    if pp.parent = some pi then
      if pp.state = .ZOMBIE then (some i, true) else wait_scan pi pps (i + 1) true
    else wait_scan pi pps (i + 1) havekids

/-- The function `wait(addr)` called by thread `ki` of process `pi`, up to its
first `sleep`.  `copyok` tells whether `copyout` returns 0 when it is called. -/
def wait (k : Kernel) (pi ki : Nat) (addr : Nat) (copyok : Bool) : Outcome :=
  match wait_scan pi k.proc 0 false with
  | (some i, _) =>
    let pp := procAt k i
    if addr ≠ 0 ∧ copyok = false then .ret (-1) k
    else
      let k1 := if addr ≠ 0 then copyout k (procAt k pi).pagetable addr pp.xstate else k
      .ret pp.pid (setProc k1 i freeproc)
  | (none, havekids) =>
    if havekids = false ∨ (procAt k pi).killed ≠ 0 then .ret (-1) k
    else .sleeping (sleep k pi ki (Chan.proc pi))

/-- The slot taken by `allocproc` as it stands when `alloc_kthread` is called on
it: `pid`, `state`, `nexttid`, `base_trapframes` and `pagetable` are set. -/
def allocproc_slot (p : proc) (pid : Int) (page pt : Nat) : proc :=
  { p with pid := pid, state := .USED, nexttid := 1, base_trapframes := page, pagetable := pt }

/-- The child slot once `fork` has run its assignments on the slot `q` that
`allocproc` returned, the caller being thread `ki` of process `pi` in `k`. -/
def fork_child (k : Kernel) (pi ki : Nat) (q : proc) : proc :=
  { q with
    state := .USED,
    sz := (procAt k pi).sz,
    ofile := dupfiles (procAt k pi).ofile q.ofile,
    cwd := (procAt k pi).cwd,
    name := safestrcpy (procAt k pi).name 16,
    parent := some pi,
    kthread := modifyAt
      (fun t => { t with trapframe := { (ktAt k pi ki).trapframe with a0 := 0 },
                         state := .RUNNABLE })
      q.kthread 0 }

/-- The assignment of the loop of `reparent(p)` to one slot: `pp->parent`
becomes `initproc` when it was `p`. -/
def reparent_proc (initproc : Option Nat) (p : Nat) (pp : proc) : proc :=
  if pp.parent = some p then { pp with parent := initproc } else pp

/-- The table `k2` differs from `k1` at most in the contents of thread slots:
same globals, same size, and every process slot equal up to its thread array,
which keeps its length. -/
def SameButThreads (k1 k2 : Kernel) : Prop :=
  k2.initproc = k1.initproc ∧ k2.nextpid = k1.nextpid ∧ k2.umem = k1.umem ∧
  k2.proc.length = k1.proc.length ∧
  ∀ m, procAt k2 m = { procAt k1 m with kthread := (procAt k2 m).kthread } ∧
    (procAt k2 m).kthread.length = (procAt k1 m).kthread.length

/-- The table as `exit` has it when it enters its loop over the thread slots:
files closed, children reparented, the parent woken, `xstate` and ZOMBIE
recorded in the process slot. -/
def exit_pre (k : Kernel) (pi ki : Nat) (status : Int) : Kernel :=
  let k1 := setProc k pi (fun p => { p with ofile := p.ofile.map (fun _ => 0) })
  let k2 := setProc k1 pi (fun p => { p with cwd := 0 })
  let k3 := reparent k2 (some (pi, ki)) pi
  let k4 := wakeup k3 (some (pi, ki)) (procChan (procAt k3 pi).parent)
  let k5 := setProc k4 pi (fun p => { p with xstate := status })
  setProc k5 pi (fun p => { p with state := .ZOMBIE })

/-- What one pass of the loop of `exit` does to thread slot `j` when the
`kthread_join` it calls finds that very slot: a slot other than the caller's
that is not UNUSED is marked ZOMBIE with the exit status and freed. -/
def exit_kt (ki : Nat) (status : Int) (j : Nat) (kt : kthread) : kthread :=
  if j ≠ ki ∧ kt.state ≠ .UNUSED then
    free_kthread { kt with xstate := status, state := .ZOMBIE }
  else kt

/-- The thread array of the caller's process after the passes of the loop of
`exit` over the slots `lo ≤ j < hi`. -/
def exit_threads (ki : Nat) (status : Int) (lo hi : Nat) (kts : List kthread) : List kthread :=
  mapIdxFrom (fun j kt => if lo ≤ j ∧ j < hi then exit_kt ki status j kt else kt) 0 kts

/-- The data-model invariant on thread identifiers, for the threads of process
`pi`: a slot that is not UNUSED has a nonzero tid that no other such slot of
the process has, and an UNUSED slot has tid 0. -/
def tids_wf (k : Kernel) (pi : Nat) : Prop :=
  ∀ j, j < (procAt k pi).kthread.length →
    ((ktAt k pi j).state = .UNUSED → (ktAt k pi j).tid = 0) ∧
    ((ktAt k pi j).state ≠ .UNUSED →
      (ktAt k pi j).tid ≠ 0 ∧
      ∀ l, l < (procAt k pi).kthread.length → (l ≠ j ∧ (ktAt k pi l).state ≠ .UNUSED) →
        (ktAt k pi l).tid ≠ (ktAt k pi j).tid)

instance (k : Kernel) (pi : Nat) : Decidable (tids_wf k pi) := by
  unfold tids_wf
  exact inferInstance

/-- The table `k2` comes from `k1` by waking threads: same globals and sizes,
and every thread slot equal up to its state, which is either unchanged or went
from SLEEPING to RUNNABLE. -/
def Woken (k1 k2 : Kernel) : Prop :=
  k2.initproc = k1.initproc ∧ k2.nextpid = k1.nextpid ∧ k2.umem = k1.umem ∧
  k2.proc.length = k1.proc.length ∧
  ∀ i, (procAt k2 i).kthread.length = (procAt k1 i).kthread.length ∧
    ∀ j, ktAt k2 i j = { ktAt k1 i j with state := (ktAt k2 i j).state } ∧
      ((ktAt k2 i j).state = (ktAt k1 i j).state ∨
        ((ktAt k1 i j).state = .SLEEPING ∧ (ktAt k2 i j).state = .RUNNABLE))

/-- The invariant on the process table: every process slot in state ZOMBIE has
each of its thread slots in state UNUSED or ZOMBIE. -/
def zombie_inv (k : Kernel) : Prop :=
  ∀ i, i < k.proc.length → (procAt k i).state = .ZOMBIE →
    ∀ j, j < (procAt k i).kthread.length →
      (ktAt k i j).state = .UNUSED ∨ (ktAt k i j).state = .ZOMBIE

instance (k : Kernel) : Decidable (zombie_inv k) := by
  unfold zombie_inv
  exact inferInstance

/-- The body of the loop of `kthread_kill` for one thread slot. -/
def kthread_kill_kt (ktid : Int) (kt : kthread) : kthread :=
  if kt.tid = ktid then kill_kt kt else kt

/-! ## Example tables

Small tables (three or four process slots of two thread slots each) in states
the kernel reaches, on which the statements below are evaluated. -/

/-- A trapframe with every register zero. -/
def ex_tf : trapframe :=
  { epc := 0, sp := 0, a0 := 0, regs := [0, 0, 0] }

/-- A free thread slot. -/
def ex_kt_free : kthread :=
  { state := .UNUSED, chan := .null, killed := 0, xstate := 0, tid := 0, trapframe := ex_tf }

/-- A free process slot. -/
def ex_free : proc :=
  { state := .UNUSED, killed := 0, xstate := 0, pid := 0, parent := none, sz := 0,
    pagetable := 0, base_trapframes := 0, ofile := [0, 0], cwd := 0, name := [],
    nexttid := 0, kthread := [ex_kt_free, ex_kt_free] }

/-- The first process, pid 1, its only thread asleep in `wait` on its own slot. -/
def ex_init : proc :=
  { ex_free with
    state := .USED, pid := 1, sz := 4096, pagetable := 100, base_trapframes := 200,
    cwd := 7, name := [105, 110, 105, 116], nexttid := 2,
    kthread := [{ ex_kt_free with state := .SLEEPING, chan := .proc 0, tid := 1 }, ex_kt_free] }

/-- A child of the first process, pid 2, with a running thread (tid 1) and a
second thread (tid 2) asleep on some kernel address. -/
def ex_child : proc :=
  { ex_free with
    state := .USED, pid := 2, parent := some 0, sz := 8192, pagetable := 101,
    base_trapframes := 201, ofile := [5, 0], cwd := 7, name := [115, 104], nexttid := 3,
    kthread :=
      [{ ex_kt_free with
          state := .RUNNING, tid := 1,
          trapframe := { epc := 64, sp := 4000, a0 := 9, regs := [1, 2, 3] } },
       { ex_kt_free with state := .SLEEPING, chan := .other 5, tid := 2 }] }

/-- A table with the first process, its child and two free slots. -/
def ex_table : Kernel :=
  { proc := [ex_init, ex_child, ex_free, ex_free], initproc := some 0, nextpid := 3, umem := [] }

/-- A table of two slots, both in use. -/
def ex_full : Kernel :=
  { proc := [ex_init, ex_child], initproc := some 0, nextpid := 3, umem := [] }

/-- The example table with two threads in process 1: thread 0 (tid 1) asleep in
`kthread_join` on thread 1, and thread 1 (tid 2) running. -/
def ex_join : Kernel :=
  { ex_table with
    proc :=
      [ex_init,
       { ex_child with
          kthread :=
            [{ ex_kt_free with state := .SLEEPING, chan := .kthread 1 1, tid := 1 },
             { ex_kt_free with state := .RUNNING, tid := 2 }] },
       ex_free, ex_free] }

/-- A table whose only process has three thread slots: a running thread (tid 1)
and two free slots. -/
def ex_wide : Kernel :=
  { proc := [{ ex_init with
                kthread := [{ ex_kt_free with state := .RUNNING, tid := 1 }, ex_kt_free, ex_kt_free] }],
    initproc := some 0, nextpid := 2, umem := [] }

/-! ## Lemmas on table access -/

theorem length_modifyAt {α : Type} (f : α → α) (xs : List α) (n : Nat) :
    (modifyAt f xs n).length = xs.length := by
  induction xs generalizing n with
  | nil => rfl
  | cons x xs ih =>
    cases n with
    | zero => rfl
    | succ n => simp [modifyAt, ih]

theorem getElem?_modifyAt {α : Type} (f : α → α) (xs : List α) (n m : Nat) :
    (modifyAt f xs n)[m]? = if n = m then (xs[m]?).map f else xs[m]? := by
  induction xs generalizing n m with
  | nil => simp [modifyAt]
  | cons x xs ih =>
    cases n with
    | zero =>
      cases m with
      | zero => simp [modifyAt]
      | succ m => simp [modifyAt]
    | succ n =>
      cases m with
      | zero => simp [modifyAt]
      | succ m => simp [modifyAt, ih]

theorem length_mapIdxFrom {α : Type} (f : Nat → α → α) (n : Nat) (xs : List α) :
    (mapIdxFrom f n xs).length = xs.length := by
  induction xs generalizing n with
  | nil => rfl
  | cons x xs ih => simp [mapIdxFrom, ih]

theorem getElem?_mapIdxFrom {α : Type} (f : Nat → α → α) (n : Nat) (xs : List α) (m : Nat) :
    (mapIdxFrom f n xs)[m]? = (xs[m]?).map (f (n + m)) := by
  induction xs generalizing n m with
  | nil => simp [mapIdxFrom]
  | cons x xs ih =>
    cases m with
    | zero => simp [mapIdxFrom]
    | succ m =>
      have h : n + 1 + m = n + (m + 1) := by omega
      simp only [mapIdxFrom, List.getElem?_cons_succ, ih, h]

theorem firstIdxFrom_eq_none {α : Type} (q : α → Bool) (n : Nat) (xs : List α) :
    firstIdxFrom q n xs = none ↔ ∀ x, x ∈ xs → q x = false := by
  induction xs generalizing n with
  | nil => simp [firstIdxFrom]
  | cons x xs ih =>
    by_cases hq : q x = true
    · simp [firstIdxFrom, hq]
    · simp [firstIdxFrom, hq, ih]

theorem firstIdxFrom_eq_some {α : Type} (q : α → Bool) (n : Nat) (xs : List α) (i : Nat) :
    firstIdxFrom q n xs = some i ↔
      ∃ m x, i = n + m ∧ xs[m]? = some x ∧ q x = true ∧
        ∀ j y, j < m → xs[j]? = some y → q y = false := by
  induction xs generalizing n with
  | nil => simp [firstIdxFrom]
  | cons x xs ih =>
    cases hq : q x with
    | true =>
      have h0 : firstIdxFrom q n (x :: xs) = some n := by simp [firstIdxFrom, hq]
      rw [h0]
      constructor
      · intro h
        have hn : n = i := by simpa using h
        exact ⟨0, x, by omega, by simp, hq, by intro j y hj; omega⟩
      · rintro ⟨m, y, hi, hm, hy, hfirst⟩
        cases m with
        | zero => simp [hi]
        | succ m =>
          have := hfirst 0 x (by omega) (by simp)
          simp [hq] at this
    | false =>
      have h0 : firstIdxFrom q n (x :: xs) = firstIdxFrom q (n + 1) xs := by
        simp [firstIdxFrom, hq]
      rw [h0, ih]
      constructor
      · rintro ⟨m, y, hi, hm, hy, hfirst⟩
        refine ⟨m + 1, y, by omega, by simpa using hm, hy, ?_⟩
        intro j z hj hz
        cases j with
        | zero =>
          simp at hz
          subst hz
          exact hq
        | succ j =>
          exact hfirst j z (by omega) (by simpa using hz)
      · rintro ⟨m, y, hi, hm, hy, hfirst⟩
        cases m with
        | zero =>
          simp at hm
          subst hm
          simp [hq] at hy
        | succ m =>
          refine ⟨m, y, by omega, by simpa using hm, hy, ?_⟩
          intro j z hj hz
          exact hfirst (j + 1) z (by omega) (by simpa using hz)

theorem firstIdx_eq_some {α : Type} (q : α → Bool) (xs : List α) (i : Nat) :
    firstIdx q xs = some i ↔
      ∃ x, xs[i]? = some x ∧ q x = true ∧ ∀ j y, j < i → xs[j]? = some y → q y = false := by
  unfold firstIdx
  rw [firstIdxFrom_eq_some]
  constructor
  · rintro ⟨m, x, hi, h⟩
    have : i = m := by omega
    subst this
    exact ⟨x, h⟩
  · rintro ⟨x, h⟩
    exact ⟨i, x, by omega, h⟩

theorem firstIdx_eq_none {α : Type} (q : α → Bool) (xs : List α) :
    firstIdx q xs = none ↔ ∀ x, x ∈ xs → q x = false :=
  firstIdxFrom_eq_none q 0 xs

theorem procAt_of_getElem? {k : Kernel} {i : Nat} {p : proc} (h : k.proc[i]? = some p) :
    procAt k i = p := by
  simp [procAt, h]

theorem getElem?_procAt {k : Kernel} {i : Nat} (h : i < k.proc.length) :
    k.proc[i]? = some (procAt k i) := by
  simp [procAt, List.getElem?_eq_getElem h]

theorem ktAt_of_getElem? {k : Kernel} {i j : Nat} {p : proc} {kt : kthread}
    (hp : k.proc[i]? = some p) (hk : p.kthread[j]? = some kt) : ktAt k i j = kt := by
  simp [ktAt, procAt_of_getElem? hp, hk]

theorem getElem?_ktAt {k : Kernel} {i j : Nat} (h : j < (procAt k i).kthread.length) :
    (procAt k i).kthread[j]? = some (ktAt k i j) := by
  simp [ktAt, List.getElem?_eq_getElem h]

theorem getElem?_setProc (k : Kernel) (i : Nat) (f : proc → proc) (j : Nat) :
    (setProc k i f).proc[j]? = if i = j then (k.proc[j]?).map f else k.proc[j]? :=
  getElem?_modifyAt f k.proc i j

theorem length_setProc (k : Kernel) (i : Nat) (f : proc → proc) :
    (setProc k i f).proc.length = k.proc.length :=
  length_modifyAt f k.proc i

theorem procAt_setProc_ne (k : Kernel) {i j : Nat} (f : proc → proc) (h : i ≠ j) :
    procAt (setProc k i f) j = procAt k j := by
  simp [procAt, getElem?_setProc, h]

theorem procAt_setProc_eq (k : Kernel) {i : Nat} (f : proc → proc) (h : i < k.proc.length) :
    procAt (setProc k i f) i = f (procAt k i) := by
  simp [procAt, getElem?_setProc, List.getElem?_eq_getElem h]

theorem getElem?_wakeup (k : Kernel) (me : Option (Nat × Nat)) (chan : Chan) (i : Nat) :
    (wakeup k me chan).proc[i]? = (k.proc[i]?).map (wakeup_proc me chan i) := by
  simp [wakeup, getElem?_mapIdxFrom]

theorem getElem?_wakeup_proc (me : Option (Nat × Nat)) (chan : Chan) (i : Nat) (p : proc)
    (j : Nat) :
    (wakeup_proc me chan i p).kthread[j]? = (p.kthread[j]?).map (wakeup_kt me chan i j) := by
  simp [wakeup_proc, getElem?_mapIdxFrom]

theorem length_wakeup (k : Kernel) (me : Option (Nat × Nat)) (chan : Chan) :
    (wakeup k me chan).proc.length = k.proc.length := by
  simp [wakeup, length_mapIdxFrom]

theorem procAt_wakeup (k : Kernel) (me : Option (Nat × Nat)) (chan : Chan) {i : Nat}
    (h : i < k.proc.length) :
    procAt (wakeup k me chan) i = wakeup_proc me chan i (procAt k i) := by
  simp [procAt, getElem?_wakeup, List.getElem?_eq_getElem h]

theorem ktAt_wakeup (k : Kernel) (me : Option (Nat × Nat)) (chan : Chan) {i j : Nat}
    (hi : i < k.proc.length) (hj : j < (procAt k i).kthread.length) :
    ktAt (wakeup k me chan) i j = wakeup_kt me chan i j (ktAt k i j) := by
  simp [ktAt, procAt_wakeup k me chan hi, getElem?_wakeup_proc, List.getElem?_eq_getElem hj]

/-- C3. After `wakeup(chan)` every thread other than the caller's own thread that
was SLEEPING with `chan` equal to the argument is RUNNABLE, every other thread
keeps its state, and no field other than the state of a thread is modified in
any slot: the table keeps its size, `initproc`, `nextpid` and user memory are
untouched, every process slot differs from its old value at most in its thread
array, and every thread slot at most in its state. -/
theorem wakeup_wakes_exactly_the_sleepers (k : Kernel) (me : Option (Nat × Nat))
    (chan : Chan) :
    (wakeup k me chan).initproc = k.initproc ∧
    (wakeup k me chan).nextpid = k.nextpid ∧
    (wakeup k me chan).umem = k.umem ∧
    (wakeup k me chan).proc.length = k.proc.length ∧
    ∀ i, i < k.proc.length →
      procAt (wakeup k me chan) i
        = { procAt k i with kthread := (procAt (wakeup k me chan) i).kthread } ∧
      (procAt (wakeup k me chan) i).kthread.length = (procAt k i).kthread.length ∧
      ∀ j, j < (procAt k i).kthread.length →
        ktAt (wakeup k me chan) i j
          = { ktAt k i j with state := (ktAt (wakeup k me chan) i j).state } ∧
        (ktAt (wakeup k me chan) i j).state =
          if me ≠ some (i, j) ∧ (ktAt k i j).state = .SLEEPING ∧ (ktAt k i j).chan = chan
          then .RUNNABLE else (ktAt k i j).state := by
  refine ⟨rfl, rfl, rfl, length_wakeup k me chan, ?_⟩
  intro i hi
  refine ⟨?_, ?_, ?_⟩
  · rw [procAt_wakeup k me chan hi]
    rfl
  · rw [procAt_wakeup k me chan hi]
    simp [wakeup_proc, length_mapIdxFrom]
  · intro j hj
    rw [ktAt_wakeup k me chan hi hj]
    unfold wakeup_kt
    by_cases h1 : me = some (i, j)
    · simp [h1]
    · by_cases h2 : (ktAt k i j).state = .SLEEPING ∧ (ktAt k i j).chan = chan
      · simp [h1, h2]
      · simp only [ne_eq, h1, not_false_eq_true, if_true, h2, if_false, true_and, and_self]

theorem kill_found (k : Kernel) (pid : Int) (i : Nat)
    (h : firstIdx (fun p => decide (p.pid = pid)) k.proc = some i) :
    kill k pid
      = (0, setProc k i (fun p => { p with killed := 1, kthread := p.kthread.map kill_kt })) := by
  simp [kill, h]

theorem kill_not_found (k : Kernel) (pid : Int)
    (h : firstIdx (fun p => decide (p.pid = pid)) k.proc = none) :
    kill k pid = (-1, k) := by
  simp [kill, h]

theorem firstIdx_proc_of_procAt (k : Kernel) (q : proc → Bool) (i : Nat)
    (hi : i < k.proc.length) (hq : q (procAt k i) = true)
    (hfirst : ∀ j, j < i → q (procAt k j) = false) :
    firstIdx q k.proc = some i := by
  rw [firstIdx_eq_some]
  refine ⟨procAt k i, getElem?_procAt hi, hq, ?_⟩
  intro j y hj hy
  rw [← procAt_of_getElem? hy]
  exact hfirst j hj

theorem firstIdx_proc_none_of_procAt (k : Kernel) (q : proc → Bool)
    (h : ∀ i, i < k.proc.length → q (procAt k i) = false) :
    firstIdx q k.proc = none := by
  rw [firstIdx_eq_none]
  intro x hx
  obtain ⟨i, hi, rfl⟩ := List.getElem_of_mem hx
  have := h i hi
  rwa [procAt_of_getElem? (List.getElem?_eq_getElem hi)] at this

/-- C2, counterexample. In a table whose only live process has pid 1 and whose
other two slots are free (state UNUSED, pid 0), no slot in a state other than
UNUSED has pid 0; yet `kill(0)` returns 0, not -1, and sets the killed flag of
the first free slot and of its threads, leaving the second free slot as it
was. -/
theorem kill_zero_marks_free_slot :
    (∀ i, i < 4 → (procAt ex_table i).state ≠ .UNUSED → (procAt ex_table i).pid ≠ 0) ∧
    (kill ex_table 0).1 = 0 ∧
    (procAt (kill ex_table 0).2 2).state = .UNUSED ∧
    (procAt (kill ex_table 0).2 2).killed = 1 ∧
    (ktAt (kill ex_table 0).2 2 0).killed = 1 ∧
    procAt (kill ex_table 0).2 3 = procAt ex_table 3 ∧
    kill ex_table 0 ≠ (-1, ex_table) := by
  decide

/-- C2, amended. If some process slot has the given pid, whatever its state,
`kill(pid)` returns 0 and acts on the first such slot in table order: it sets
the killed flag of that slot and of every one of its thread slots to 1, turns
each of its SLEEPING threads into RUNNABLE, leaves the state of its other
threads and every other field unchanged, and leaves every other process slot
unchanged.  If no process slot has that pid, `kill` returns -1 and changes
nothing. -/
theorem kill_acts_on_first_slot_with_pid (k : Kernel) (pid : Int) :
    (∀ i, i < k.proc.length → (procAt k i).pid = pid →
      (∀ j, j < i → (procAt k j).pid ≠ pid) →
        (kill k pid).1 = 0 ∧
        (kill k pid).2.proc.length = k.proc.length ∧
        (kill k pid).2.initproc = k.initproc ∧
        (kill k pid).2.nextpid = k.nextpid ∧
        (kill k pid).2.umem = k.umem ∧
        procAt (kill k pid).2 i
          = { procAt k i with killed := 1, kthread := (procAt (kill k pid).2 i).kthread } ∧
        (procAt (kill k pid).2 i).kthread.length = (procAt k i).kthread.length ∧
        (∀ j, j < (procAt k i).kthread.length →
          ktAt (kill k pid).2 i j
            = { ktAt k i j with killed := 1, state := (ktAt (kill k pid).2 i j).state } ∧
          (ktAt (kill k pid).2 i j).state
            = if (ktAt k i j).state = .SLEEPING then .RUNNABLE else (ktAt k i j).state) ∧
        ∀ m, m ≠ i → procAt (kill k pid).2 m = procAt k m) ∧
    ((∀ i, i < k.proc.length → (procAt k i).pid ≠ pid) → kill k pid = (-1, k)) := by
  constructor
  · intro i hi hpid hfirst
    have hfound : firstIdx (fun p => decide (p.pid = pid)) k.proc = some i :=
      firstIdx_proc_of_procAt k _ i hi (by simpa using hpid)
        (fun j hj => by simpa using hfirst j hj)
    rw [kill_found k pid i hfound]
    refine ⟨rfl, length_setProc _ _ _, rfl, rfl, rfl, ?_, ?_, ?_, ?_⟩
    · rw [procAt_setProc_eq k _ hi]
    · rw [procAt_setProc_eq k _ hi]
      simp
    · intro j hj
      have : ktAt (setProc k i
          (fun p => { p with killed := 1, kthread := p.kthread.map kill_kt })) i j
          = kill_kt (ktAt k i j) := by
        simp [ktAt, procAt_setProc_eq k _ hi, List.getElem?_eq_getElem hj]
      rw [this]
      exact ⟨rfl, rfl⟩
    · intro m hm
      exact procAt_setProc_ne k _ (Ne.symm hm)
  · intro hnone
    exact kill_not_found k pid
      (firstIdx_proc_none_of_procAt k _ (fun i hi => by simpa using hnone i hi))

/-- C2, amended, on the example table: `kill(2)` marks the child and wakes its
sleeping thread; `kill(9)` finds no slot. -/
theorem kill_acts_on_first_slot_with_pid_witness :
    (kill ex_table 2).1 = 0 ∧
    (procAt (kill ex_table 2).2 1).killed = 1 ∧
    (ktAt (kill ex_table 2).2 1 1).state = .RUNNABLE ∧
    kill ex_table 9 = (-1, ex_table) := by
  have h := kill_acts_on_first_slot_with_pid ex_table 2
  have h1 := h.1 1 (by decide) (by decide) (by decide)
  have h9 := (kill_acts_on_first_slot_with_pid ex_table 9).2 (by decide)
  refine ⟨h1.1, ?_, ?_, h9⟩
  · rw [h1.2.2.2.2.2.1]
  · rw [(h1.2.2.2.2.2.2.2.1 1 (by decide)).2]
    decide

theorem modifyAt_modifyAt {α : Type} (f g : α → α) (xs : List α) (n : Nat) :
    modifyAt g (modifyAt f xs n) n = modifyAt (fun x => g (f x)) xs n := by
  induction xs generalizing n with
  | nil => rfl
  | cons x xs ih =>
    cases n with
    | zero => rfl
    | succ n => simp [modifyAt, ih]

theorem setProc_setProc (k : Kernel) (i : Nat) (f g : proc → proc) :
    setProc (setProc k i f) i g = setProc k i (fun p => g (f p)) := by
  simp [setProc, modifyAt_modifyAt]

theorem allocproc_none (k : Kernel) (page pt : Nat)
    (h : firstIdx (fun p => decide (p.state = .UNUSED)) k.proc = none) :
    allocproc k page pt = (none, k) := by
  simp [allocproc, h]

theorem allocproc_found (k : Kernel) (page pt : Nat) (i : Nat)
    (h : firstIdx (fun p => decide (p.state = .UNUSED)) k.proc = some i) :
    allocproc k page pt =
      if page = 0 then
        (none, setProc { k with nextpid := int32 (k.nextpid + 1) } i (fun p =>
          freeproc { p with pid := k.nextpid, state := .USED, nexttid := 1,
                            base_trapframes := page }))
      else if pt = 0 then
        (none, setProc { k with nextpid := int32 (k.nextpid + 1) } i (fun p =>
          freeproc { p with pid := k.nextpid, state := .USED, nexttid := 1,
                            base_trapframes := page, pagetable := pt }))
      else
        (some i, setProc { k with nextpid := int32 (k.nextpid + 1) } i (fun p =>
          (alloc_kthread (allocproc_slot p k.nextpid page pt)).2)) := by
  simp only [allocproc, h, setProc_setProc, allocproc_slot]

theorem alloc_kthread_fields (p : proc) :
    (alloc_kthread p).2 = { p with nexttid := (alloc_kthread p).2.nexttid,
                                   kthread := (alloc_kthread p).2.kthread } ∧
    (alloc_kthread p).2.kthread.length = p.kthread.length ∧
    (alloc_kthread p).2.nexttid =
      if (alloc_kthread p).1 = none then p.nexttid else int32 (p.nexttid + 1) := by
  unfold alloc_kthread
  split
  · simp
  · simp [length_modifyAt]

theorem int32_of_range (n : Int) (h1 : -2147483648 ≤ n) (h2 : n ≤ 2147483647) :
    int32 n = n := by
  unfold int32
  omega

theorem firstIdx_kt_of_ktAt (kts : List kthread) (q : kthread → Bool) (j : Nat)
    (hj : j < kts.length) (hq : q (kts.getD j default) = true)
    (hfirst : ∀ l, l < j → q (kts.getD l default) = false) :
    firstIdx q kts = some j := by
  rw [firstIdx_eq_some]
  refine ⟨kts.getD j default, by simp [List.getElem?_eq_getElem hj], hq, ?_⟩
  intro l y hl hy
  have := hfirst l hl
  simpa [hy] using this

theorem firstIdx_kt_none_of_ktAt (kts : List kthread) (q : kthread → Bool)
    (h : ∀ j, j < kts.length → q (kts.getD j default) = false) :
    firstIdx q kts = none := by
  rw [firstIdx_eq_none]
  intro x hx
  obtain ⟨i, hi, rfl⟩ := List.getElem_of_mem hx
  have := h i hi
  simpa [List.getElem?_eq_getElem hi] using this

/-- C9, counterexample. The example table has a free slot (slot 2 is the
lowest).  When `kalloc` fails, `allocproc` returns null and slot 2 is UNUSED
with pid 0, not USED with the previous `nextpid`.  When both allocations
succeed, the slot comes back with `nexttid` 2, not 1, thread 0 having been
given tid 1.  With `nextpid` at the largest `int`, the counter afterwards is
not the previous value plus one. -/
theorem allocproc_not_always_used :
    (procAt ex_table 2).state = .UNUSED ∧
    (∀ j, j < 2 → (procAt ex_table j).state ≠ .UNUSED) ∧
    (allocproc ex_table 0 400).1 = none ∧
    (procAt (allocproc ex_table 0 400).2 2).state = .UNUSED ∧
    (procAt (allocproc ex_table 0 400).2 2).pid = 0 ∧
    (allocproc ex_table 300 400).1 = some 2 ∧
    (procAt (allocproc ex_table 300 400).2 2).nexttid = 2 ∧
    (ktAt (allocproc ex_table 300 400).2 2 0).tid = 1 ∧
    (allocproc { ex_table with nextpid := 2147483647 } 300 400).2.nextpid = -2147483648 := by
  decide

/-- C9, amended. In a table with no UNUSED slot, `allocproc` returns null,
`fork` returns -1, and the whole state (every field of every process and
thread slot, `nextpid`, `initproc`, user memory) is what it was.  When some
slot is UNUSED, `allocproc` takes the lowest-indexed one and leaves every other
slot alone; `nextpid` becomes the previous value plus one as a 32-bit `int`
(exactly plus one below the largest `int`).  If the trapframe page and the page
table are both allocated, that slot is returned, USED, with pid equal to the
previous `nextpid`; `nexttid` is reset to 1 before thread allocation, so that
the first free thread slot becomes USED with tid 1 and `nexttid` ends at 2 (it
stays 1 when the slot has no free thread slot).  If either allocation fails,
null is returned and the slot is freed again: UNUSED with pid 0. -/
theorem allocproc_takes_lowest_unused (k : Kernel) (page pt : Nat) :
    ((∀ i, i < k.proc.length → (procAt k i).state ≠ .UNUSED) →
      allocproc k page pt = (none, k) ∧
      ∀ pi ki ok, fork k pi ki page pt ok = .ret (-1) k) ∧
    (∀ i, i < k.proc.length → (procAt k i).state = .UNUSED →
      (∀ j, j < i → (procAt k j).state ≠ .UNUSED) →
        (allocproc k page pt).2.nextpid = int32 (k.nextpid + 1) ∧
        (-2147483648 ≤ k.nextpid → k.nextpid < 2147483647 →
          (allocproc k page pt).2.nextpid = k.nextpid + 1) ∧
        (allocproc k page pt).2.proc.length = k.proc.length ∧
        (allocproc k page pt).2.initproc = k.initproc ∧
        (allocproc k page pt).2.umem = k.umem ∧
        (∀ m, m ≠ i → procAt (allocproc k page pt).2 m = procAt k m) ∧
        (page ≠ 0 → pt ≠ 0 →
          (allocproc k page pt).1 = some i ∧
          (procAt (allocproc k page pt).2 i).state = .USED ∧
          (procAt (allocproc k page pt).2 i).pid = k.nextpid ∧
          (procAt (allocproc k page pt).2 i).base_trapframes = page ∧
          (procAt (allocproc k page pt).2 i).pagetable = pt ∧
          (procAt (allocproc k page pt).2 i).kthread.length = (procAt k i).kthread.length ∧
          (∀ j, j < (procAt k i).kthread.length → (ktAt k i j).state = .UNUSED →
            (∀ l, l < j → (ktAt k i l).state ≠ .UNUSED) →
              (procAt (allocproc k page pt).2 i).nexttid = 2 ∧
              (ktAt (allocproc k page pt).2 i j).state = .USED ∧
              (ktAt (allocproc k page pt).2 i j).tid = 1) ∧
          ((∀ j, j < (procAt k i).kthread.length → (ktAt k i j).state ≠ .UNUSED) →
            (procAt (allocproc k page pt).2 i).nexttid = 1)) ∧
        ((page = 0 ∨ pt = 0) →
          (allocproc k page pt).1 = none ∧
          (procAt (allocproc k page pt).2 i).state = .UNUSED ∧
          (procAt (allocproc k page pt).2 i).pid = 0)) := by
  constructor
  · intro hfull
    have hnone : firstIdx (fun p => decide (p.state = .UNUSED)) k.proc = none :=
      firstIdx_proc_none_of_procAt k _ (fun i hi => by simpa using hfull i hi)
    have ha := allocproc_none k page pt hnone
    refine ⟨ha, ?_⟩
    intro pi ki ok
    simp [fork, ha]
  · intro i hi hunused hfirst
    have hfound : firstIdx (fun p => decide (p.state = .UNUSED)) k.proc = some i :=
      firstIdx_proc_of_procAt k _ i hi (by simpa using hunused)
        (fun j hj => by simpa using hfirst j hj)
    have ha := allocproc_found k page pt i hfound
    have hi' : i < ({ k with nextpid := int32 (k.nextpid + 1) } : Kernel).proc.length := hi
    have hnext : (allocproc k page pt).2.nextpid = int32 (k.nextpid + 1) := by
      rw [ha]; split
      · rfl
      · split <;> rfl
    refine ⟨hnext, ?_, ?_, ?_, ?_, ?_, ?_, ?_⟩
    · intro h1 h2
      rw [hnext, int32_of_range _ (by omega) (by omega)]
    · rw [ha]; split
      · exact length_setProc _ _ _
      · split <;> exact length_setProc _ _ _
    · rw [ha]; split
      · rfl
      · split <;> rfl
    · rw [ha]; split
      · rfl
      · split <;> rfl
    · intro m hm
      rw [ha]; split
      · exact procAt_setProc_ne _ _ (Ne.symm hm)
      · split <;> exact procAt_setProc_ne _ _ (Ne.symm hm)
    · intro hpage hpt
      have hres : allocproc k page pt = (some i,
          setProc { k with nextpid := int32 (k.nextpid + 1) } i (fun p =>
            (alloc_kthread (allocproc_slot p k.nextpid page pt)).2)) := by
        rw [ha]
        simp only [hpage, hpt, if_false]
      generalize hq : allocproc_slot (procAt k i) k.nextpid page pt = q
      have hP : procAt (allocproc k page pt).2 i = (alloc_kthread q).2 := by
        rw [hres]
        show procAt (setProc _ i _) i = _
        rw [procAt_setProc_eq _ _ hi', ← hq]
        rfl
      have hqk : q.kthread = (procAt k i).kthread := by rw [← hq]; rfl
      have hqn : q.nexttid = 1 := by rw [← hq]; rfl
      have hqs : q.state = .USED := by rw [← hq]; rfl
      have hqp : q.pid = k.nextpid := by rw [← hq]; rfl
      have hqb : q.base_trapframes = page := by rw [← hq]; rfl
      have hqt : q.pagetable = pt := by rw [← hq]; rfl
      obtain ⟨hf1, hf2, hf3⟩ := alloc_kthread_fields q
      refine ⟨by rw [hres], ?_, ?_, ?_, ?_, ?_, ?_, ?_⟩
      · rw [hP, hf1]; exact hqs
      · rw [hP, hf1]; exact hqp
      · rw [hP, hf1]; exact hqb
      · rw [hP, hf1]; exact hqt
      · rw [hP, hf2, hqk]
      · intro j hj hju hjfirst
        have hjf : firstIdx (fun kt => decide (kt.state = .UNUSED)) q.kthread = some j := by
          rw [hqk]
          exact firstIdx_kt_of_ktAt _ _ j hj (by simpa [ktAt] using hju)
            (fun l hl => by simpa [ktAt] using hjfirst l hl)
        have hak : alloc_kthread q = (some j, { q with
            nexttid := int32 (q.nexttid + 1),
            kthread := modifyAt (fun kt => { kt with tid := q.nexttid, state := .USED })
              q.kthread j }) := by
          simp [alloc_kthread, hjf]
        have hj' : j < q.kthread.length := by rw [hqk]; exact hj
        unfold ktAt
        rw [hP, hak]
        refine ⟨?_, ?_, ?_⟩
        · simp only [hqn]; decide
        · simp [getElem?_modifyAt, List.getElem?_eq_getElem hj']
        · simp [getElem?_modifyAt, List.getElem?_eq_getElem hj', hqn]
      · intro hnofree
        have hjf : firstIdx (fun kt => decide (kt.state = .UNUSED)) q.kthread = none := by
          rw [hqk]
          exact firstIdx_kt_none_of_ktAt _ _ (fun j hj => by simpa [ktAt] using hnofree j hj)
        have hak : alloc_kthread q = (none, q) := by simp [alloc_kthread, hjf]
        rw [hP, hak]
        exact hqn
    · intro hfail
      rw [ha]
      by_cases hpage : page = 0
      · simp only [hpage, if_true]
        rw [procAt_setProc_eq _ _ hi']
        exact ⟨trivial, rfl, rfl⟩
      · have hpt : pt = 0 := by
          rcases hfail with h | h
          · exact absurd h hpage
          · exact h
        simp only [hpage, hpt, if_true, if_false]
        rw [procAt_setProc_eq _ _ hi']
        exact ⟨trivial, rfl, rfl⟩

/-- C9, amended, on the example tables: the full table is left as it was, and
in the table with free slots the lowest one, slot 2, is taken with pid 3. -/
theorem allocproc_takes_lowest_unused_witness :
    allocproc ex_full 300 400 = (none, ex_full) ∧
    fork ex_full 1 0 300 400 true = .ret (-1) ex_full ∧
    (allocproc ex_table 300 400).1 = some 2 ∧
    (procAt (allocproc ex_table 300 400).2 2).pid = 3 ∧
    (allocproc ex_table 300 400).2.nextpid = 4 := by
  have hfull := (allocproc_takes_lowest_unused ex_full 300 400).1 (by decide)
  have hfree := (allocproc_takes_lowest_unused ex_table 300 400).2 2 (by decide) (by decide)
    (by decide)
  have hok := hfree.2.2.2.2.2.2.1 (by decide) (by decide)
  exact ⟨hfull.1, hfull.2 1 0 true, hok.1, hok.2.2.1, hfree.2.1 (by decide) (by decide)⟩

theorem allocproc_some (k : Kernel) (page pt np : Nat)
    (h : (allocproc k page pt).1 = some np) :
    firstIdx (fun p => decide (p.state = .UNUSED)) k.proc = some np ∧ page ≠ 0 ∧ pt ≠ 0 := by
  cases hf : firstIdx (fun p => decide (p.state = .UNUSED)) k.proc with
  | none => simp [allocproc_none k page pt hf] at h
  | some i =>
    rw [allocproc_found k page pt i hf] at h
    by_cases hpage : page = 0
    · simp [hpage] at h
    · by_cases hpt : pt = 0
      · simp [hpage, hpt] at h
      · simp only [hpage, hpt, if_false, Option.some.injEq] at h
        exact ⟨by rw [h], hpage, hpt⟩

theorem procAt_nextpid (k : Kernel) (n : Int) (i : Nat) :
    procAt { k with nextpid := n } i = procAt k i := rfl

theorem alloc_kthread_pid (p : proc) : (alloc_kthread p).2.pid = p.pid := by
  rw [(alloc_kthread_fields p).1]

theorem fork_body (k : Kernel) (pi ki page pt np : Nat)
    (hf : firstIdx (fun p => decide (p.state = .UNUSED)) k.proc = some np)
    (hpage : page ≠ 0) (hpt : pt ≠ 0) (hne : np ≠ pi) :
    fork k pi ki page pt true =
      .ret k.nextpid (setProc { k with nextpid := int32 (k.nextpid + 1) } np (fun p =>
        fork_child k pi ki (alloc_kthread (allocproc_slot p k.nextpid page pt)).2)) := by
  have ha := allocproc_found k page pt np hf
  simp only [hpage, hpt, if_false] at ha
  have hnp : np < k.proc.length := by
    obtain ⟨x, hx, _⟩ := (firstIdx_eq_some _ _ _).1 hf
    exact (List.getElem?_eq_some.1 hx).1
  have hnp' : np < ({ k with nextpid := int32 (k.nextpid + 1) } : Kernel).proc.length := hnp
  simp only [fork, ha, setKt, setProc_setProc, procAt_setProc_ne _ _ hne, procAt_nextpid,
    modifyAt_modifyAt, Bool.true_eq_false, if_false]
  have hkt : ∀ f, ktAt (setProc { k with nextpid := int32 (k.nextpid + 1) } np f) pi ki
      = ktAt k pi ki := by
    intro f
    simp only [ktAt, procAt_setProc_ne _ _ hne, procAt_nextpid]
  simp only [hkt]
  congr 1
  rw [procAt_setProc_eq _ _ hnp']
  simp only [alloc_kthread_pid]
  rfl

/-- C4. When `allocproc` and the copy of user memory both succeed, `fork`
returns the child's pid (the previous `nextpid`), and the child slot has state
USED, `sz` and `name` equal to the caller's, `parent` equal to the caller's
slot, thread 0 RUNNABLE with a trapframe equal to the calling thread's in every
register except `a0`, which is 0.  The caller's own slot, and every slot other
than the child's, is unchanged.  The caller is a thread of a process in use
whose name fits the 16-byte buffer, and thread 0 of the slot taken is free, as
it is in every process slot left by `procinit` or `freeproc`, so that it is the
thread slot `alloc_kthread` hands out (with tid 1). -/
theorem fork_creates_child (k : Kernel) (pi ki page pt np : Nat)
    (hlive : (procAt k pi).state ≠ .UNUSED)
    (hname : (procAt k pi).name.length < 16)
    (halloc : (allocproc k page pt).1 = some np)
    (hthread : 0 < (procAt k np).kthread.length)
    (hfree : (ktAt k np 0).state = .UNUSED) :
    fork k pi ki page pt true = .ret k.nextpid (fork k pi ki page pt true).kernel ∧
    (procAt (fork k pi ki page pt true).kernel np).pid = k.nextpid ∧
    (procAt (fork k pi ki page pt true).kernel np).state = .USED ∧
    (procAt (fork k pi ki page pt true).kernel np).sz = (procAt k pi).sz ∧
    (procAt (fork k pi ki page pt true).kernel np).parent = some pi ∧
    (procAt (fork k pi ki page pt true).kernel np).name = (procAt k pi).name ∧
    (ktAt (fork k pi ki page pt true).kernel np 0).state = .RUNNABLE ∧
    (ktAt (fork k pi ki page pt true).kernel np 0).trapframe
      = { (ktAt k pi ki).trapframe with a0 := 0 } ∧
    (ktAt (fork k pi ki page pt true).kernel np 0).tid = 1 ∧
    procAt (fork k pi ki page pt true).kernel pi = procAt k pi ∧
    (∀ m, m ≠ np → procAt (fork k pi ki page pt true).kernel m = procAt k m) ∧
    (fork k pi ki page pt true).kernel.proc.length = k.proc.length := by
  obtain ⟨hf, hpage, hpt⟩ := allocproc_some k page pt np halloc
  obtain ⟨x, hx, hxu, _⟩ := (firstIdx_eq_some _ _ _).1 hf
  have hnp : np < k.proc.length := (List.getElem?_eq_some.1 hx).1
  have hnpu : (procAt k np).state = .UNUSED := by
    rw [procAt_of_getElem? hx]; simpa using hxu
  have hne : np ≠ pi := by
    intro h; rw [h] at hnpu; exact hlive hnpu
  have hnp' : np < ({ k with nextpid := int32 (k.nextpid + 1) } : Kernel).proc.length := hnp
  rw [fork_body k pi ki page pt np hf hpage hpt hne]
  simp only [Outcome.kernel]
  obtain ⟨q, hq⟩ : ∃ q, (alloc_kthread (allocproc_slot (procAt k np) k.nextpid page pt)).2 = q :=
    ⟨_, rfl⟩
  have hP : procAt (setProc { k with nextpid := int32 (k.nextpid + 1) } np
      (fun p => fork_child k pi ki (alloc_kthread (allocproc_slot p k.nextpid page pt)).2)) np
      = fork_child k pi ki q := by
    rw [procAt_setProc_eq _ _ hnp', ← hq]
    rfl
  have hqpid : q.pid = k.nextpid := by rw [← hq, alloc_kthread_pid]; rfl
  have hqlen : 0 < q.kthread.length := by
    rw [← hq, (alloc_kthread_fields _).2.1]; exact hthread
  have hscan : firstIdx (fun kt => decide (kt.state = .UNUSED))
      (allocproc_slot (procAt k np) k.nextpid page pt).kthread = some 0 := by
    apply firstIdx_kt_of_ktAt _ _ 0 hthread
    · simpa [ktAt] using hfree
    · intro l hl; omega
  have hq0 : (q.kthread.getD 0 default).tid = 1 := by
    rw [← hq]
    simp only [alloc_kthread, hscan]
    have h0 : 0 < (procAt k np).kthread.length := hthread
    simp [allocproc_slot, getElem?_modifyAt, List.getElem?_eq_getElem h0]
  have hK0 : ktAt (setProc { k with nextpid := int32 (k.nextpid + 1) } np
      (fun p => fork_child k pi ki (alloc_kthread (allocproc_slot p k.nextpid page pt)).2)) np 0
      = { q.kthread.getD 0 default with
          trapframe := { (ktAt k pi ki).trapframe with a0 := 0 }, state := .RUNNABLE } := by
    unfold ktAt
    rw [hP]
    simp [fork_child, getElem?_modifyAt, List.getElem?_eq_getElem hqlen, ktAt]
  refine ⟨trivial, ?_, ?_, ?_, ?_, ?_, ?_, ?_, ?_, ?_, ?_, ?_⟩
  · rw [hP]; exact hqpid
  · rw [hP]; rfl
  · rw [hP]; rfl
  · rw [hP]; rfl
  · rw [hP]
    show safestrcpy (procAt k pi).name 16 = _
    unfold safestrcpy
    exact List.take_of_length_le (by omega)
  · rw [hK0]
  · rw [hK0]
  · rw [hK0]; exact hq0
  · exact procAt_setProc_ne _ _ hne
  · intro m hm
    exact procAt_setProc_ne _ _ (Ne.symm hm)
  · exact length_setProc _ _ _

/-- C4 on the example table: the running thread of the child (slot 1) forks into
slot 2. -/
theorem fork_creates_child_witness :
    fork ex_table 1 0 300 400 true = .ret 3 (fork ex_table 1 0 300 400 true).kernel ∧
    (procAt (fork ex_table 1 0 300 400 true).kernel 2).parent = some 1 ∧
    (ktAt (fork ex_table 1 0 300 400 true).kernel 2 0).trapframe
      = { epc := 64, sp := 4000, a0 := 0, regs := [1, 2, 3] } := by
  have h := fork_creates_child ex_table 1 0 300 400 2 (by decide) (by decide) (by decide)
    (by decide) (by decide)
  exact ⟨h.1, h.2.2.2.2.1, h.2.2.2.2.2.2.2.1⟩

theorem length_setKt (k : Kernel) (i j : Nat) (f : kthread → kthread) :
    (setKt k i j f).proc.length = k.proc.length :=
  length_setProc _ _ _

theorem procAt_setKt_ne (k : Kernel) {i m : Nat} (j : Nat) (f : kthread → kthread)
    (h : i ≠ m) : procAt (setKt k i j f) m = procAt k m :=
  procAt_setProc_ne _ _ h

theorem procAt_setKt_eq (k : Kernel) {i : Nat} (j : Nat) (f : kthread → kthread)
    (h : i < k.proc.length) :
    procAt (setKt k i j f) i
      = { procAt k i with kthread := modifyAt f (procAt k i).kthread j } :=
  procAt_setProc_eq _ _ h

theorem procAt_setKt (k : Kernel) (i j : Nat) (f : kthread → kthread) (m : Nat) :
    procAt (setKt k i j f) m
      = { procAt k m with kthread := (procAt (setKt k i j f) m).kthread } := by
  by_cases h : i = m
  · subst h
    by_cases hi : i < k.proc.length
    · rw [procAt_setKt_eq k j f hi]
    · have h1 : procAt (setKt k i j f) i = default := by
        simp [procAt, setKt, getElem?_setProc,
          List.getElem?_eq_none (Nat.le_of_not_lt hi)]
      have h2 : procAt k i = default := by
        simp [procAt, List.getElem?_eq_none (Nat.le_of_not_lt hi)]
      rw [h1, h2]
  · rw [procAt_setKt_ne k j f h]

theorem length_kthread_setKt (k : Kernel) (i j : Nat) (f : kthread → kthread) (m : Nat) :
    (procAt (setKt k i j f) m).kthread.length = (procAt k m).kthread.length := by
  by_cases h : i = m
  · subst h
    by_cases hi : i < k.proc.length
    · rw [procAt_setKt_eq k j f hi]
      exact length_modifyAt _ _ _
    · have h1 : procAt (setKt k i j f) i = default := by
        simp [procAt, setKt, getElem?_setProc,
          List.getElem?_eq_none (Nat.le_of_not_lt hi)]
      have h2 : procAt k i = default := by
        simp [procAt, List.getElem?_eq_none (Nat.le_of_not_lt hi)]
      rw [h1, h2]
  · rw [procAt_setKt_ne k j f h]

theorem ktAt_setKt_eq (k : Kernel) {i j : Nat} (f : kthread → kthread)
    (hi : i < k.proc.length) (hj : j < (procAt k i).kthread.length) :
    ktAt (setKt k i j f) i j = f (ktAt k i j) := by
  simp [ktAt, procAt_setKt_eq k j f hi, getElem?_modifyAt, List.getElem?_eq_getElem hj]

theorem ktAt_setKt_ne (k : Kernel) {i j m l : Nat} (f : kthread → kthread)
    (h : i ≠ m ∨ j ≠ l) : ktAt (setKt k i j f) m l = ktAt k m l := by
  by_cases him : i = m
  · subst him
    have hjl : j ≠ l := by
      rcases h with h | h
      · exact absurd rfl h
      · exact h
    by_cases hi : i < k.proc.length
    · simp [ktAt, procAt_setKt_eq k j f hi, getElem?_modifyAt, hjl]
    · have h1 : procAt (setKt k i j f) i = default := by
        simp [procAt, setKt, getElem?_setProc,
          List.getElem?_eq_none (Nat.le_of_not_lt hi)]
      have h2 : procAt k i = default := by
        simp [procAt, List.getElem?_eq_none (Nat.le_of_not_lt hi)]
      simp [ktAt, h1, h2]
  · simp [ktAt, procAt_setKt_ne k j f him]

theorem length_kthread_wakeup (k : Kernel) (me : Option (Nat × Nat)) (chan : Chan) (i : Nat) :
    (procAt (wakeup k me chan) i).kthread.length = (procAt k i).kthread.length := by
  by_cases hi : i < k.proc.length
  · rw [procAt_wakeup k me chan hi]
    simp [wakeup_proc, length_mapIdxFrom]
  · have h1 : procAt (wakeup k me chan) i = default := by
      simp [procAt, getElem?_wakeup, List.getElem?_eq_none (Nat.le_of_not_lt hi)]
    have h2 : procAt k i = default := by
      simp [procAt, List.getElem?_eq_none (Nat.le_of_not_lt hi)]
    rw [h1, h2]

/-- Whatever `wakeup` does to a thread slot, only its state can differ. -/
theorem wakeup_kt_fields (me : Option (Nat × Nat)) (chan : Chan) (i j : Nat) (kt : kthread) :
    wakeup_kt me chan i j kt = { kt with state := (wakeup_kt me chan i j kt).state } := by
  unfold wakeup_kt
  split
  · split <;> rfl
  · rfl

theorem wakeup_kt_me (chan : Chan) (i j : Nat) (kt : kthread) :
    wakeup_kt (some (i, j)) chan i j kt = kt := by
  simp [wakeup_kt]

theorem kthread_join_zombie (k : Kernel) (pi ki : Nat) (t : Int) (out : Nat) (copyok : Bool)
    (j : Nat)
    (hscan : firstIdx (fun kt => decide (kt.tid = t)) (procAt k pi).kthread = some j)
    (hz : (ktAt k pi j).state = .ZOMBIE) :
    kthread_join k pi ki t out copyok =
      if out ≠ 0 ∧ copyok = false then .ret (-1) k
      else .ret 0 (setKt
        (if out ≠ 0 then copyout k (procAt k pi).pagetable out (ktAt k pi j).xstate else k)
        pi j free_kthread) := by
  obtain ⟨x, hx, _, _⟩ := (firstIdx_eq_some _ _ _).1 hscan
  have hkt : ktAt k pi j = x := by simp [ktAt, hx]
  rw [hkt] at hz
  simp only [kthread_join, kthread_join_scan, hscan, Option.getD_some, hx, hz, if_true, hkt]

theorem kthread_join_not_found (k : Kernel) (pi ki : Nat) (t : Int) (out : Nat)
    (copyok : Bool)
    (hscan : firstIdx (fun kt => decide (kt.tid = t)) (procAt k pi).kthread = none) :
    kthread_join k pi ki t out copyok = .fault k := by
  simp [kthread_join, kthread_join_scan, hscan]

/-- C10, the code at the failing input. In the example table no thread slot of
process 1 has tid 9.  The lookup loop of `kthread_join(9, 0)` runs to its end
and leaves `kt` at index 2, one past the two-slot array; `kt` is not null, so
the test `kt == 0` does not return -1, and `kt->state` is read outside the
array. -/
theorem kthread_join_unknown_tid_reads_past_array :
    (∀ j, j < (procAt ex_table 1).kthread.length → (ktAt ex_table 1 j).tid ≠ 9) ∧
    (procAt ex_table 1).kthread.length = 2 ∧
    kthread_join_scan (procAt ex_table 1).kthread 9 = some 2 ∧
    kthread_join ex_table 1 0 9 0 true = .fault ex_table ∧
    kthread_join ex_table 1 0 9 0 true ≠ .ret (-1) ex_table := by
  decide

theorem ktAt_getD (k : Kernel) (i j : Nat) :
    (procAt k i).kthread.getD j default = ktAt k i j := rfl

theorem uread_copyout (k : Kernel) (pagetable addr : Nat) (v : Int) :
    uread (copyout k pagetable addr v) pagetable addr = some v := by
  simp [uread, copyout]

theorem uread_setKt (k : Kernel) (i j : Nat) (f : kthread → kthread) (pagetable addr : Nat) :
    uread (setKt k i j f) pagetable addr = uread k pagetable addr := rfl

theorem procAt_copyout (k : Kernel) (pagetable addr : Nat) (v : Int) (i : Nat) :
    procAt (copyout k pagetable addr v) i = procAt k i := rfl

theorem ktAt_copyout (k : Kernel) (pagetable addr : Nat) (v : Int) (i j : Nat) :
    ktAt (copyout k pagetable addr v) i j = ktAt k i j := rfl

/-- C8. Round trip of `kthread_exit` and `kthread_join`. Thread `kj` of a
process with at least two live threads calls `kthread_exit(s)`; its tid `t` is
the tid of no other thread slot of the process.  Then `kthread_exit` enters
`sched` with the slot ZOMBIE, `xstate = s`, and every other thread that slept
on the slot RUNNABLE.  A following `kthread_join(t, out)` by another thread `ki`
of the process returns 0, stores `s` at `out` when `out` is non-null, and leaves
the joined slot UNUSED, provided the copy-out succeeds or `out` is null; if
the copy-out fails it returns -1, the table is as it was and the slot stays
ZOMBIE. -/
theorem kthread_exit_then_join (k k1 : Kernel) (pi kj ki : Nat) (s : Int) (out : Nat)
    (copyok : Bool)
    (hpi : pi < k.proc.length) (hkj : kj < (procAt k pi).kthread.length)
    (hki : ki ≠ kj)
    (hlive : 2 ≤ (procAt k pi).kthread.countP live)
    (htid : ∀ l, l < (procAt k pi).kthread.length → l ≠ kj →
      (ktAt k pi l).tid ≠ (ktAt k pi kj).tid)
    (hk1 : k1 = (kthread_exit k pi kj s).kernel) :
    kthread_exit k pi kj s = .sched k1 ∧
    (ktAt k1 pi kj).state = .ZOMBIE ∧
    (ktAt k1 pi kj).xstate = s ∧
    (∀ i j, i < k.proc.length → j < (procAt k i).kthread.length → (i, j) ≠ (pi, kj) →
      (ktAt k i j).state = .SLEEPING → (ktAt k i j).chan = .kthread pi kj →
        (ktAt k1 i j).state = .RUNNABLE) ∧
    ((out = 0 ∨ copyok = true) →
      kthread_join k1 pi ki (ktAt k pi kj).tid out copyok
        = .ret 0 (kthread_join k1 pi ki (ktAt k pi kj).tid out copyok).kernel ∧
      (out ≠ 0 →
        uread (kthread_join k1 pi ki (ktAt k pi kj).tid out copyok).kernel
          (procAt k pi).pagetable out = some s) ∧
      (ktAt (kthread_join k1 pi ki (ktAt k pi kj).tid out copyok).kernel pi kj).state
        = .UNUSED) ∧
    ((out ≠ 0 ∧ copyok = false) →
      kthread_join k1 pi ki (ktAt k pi kj).tid out copyok = .ret (-1) k1 ∧
      (ktAt k1 pi kj).state = .ZOMBIE) := by
  have hcount : (procAt k pi).kthread.countP live ≠ 1 := by omega
  have hexit : kthread_exit k pi kj s = .sched (wakeup
      (setKt (setKt k pi kj (fun kt => { kt with xstate := s })) pi kj
        (fun kt => { kt with state := .ZOMBIE }))
      (some (pi, kj)) (Chan.kthread pi kj)) := by
    simp [kthread_exit, hcount]
  rw [hexit] at hk1
  simp only [Outcome.kernel] at hk1
  -- the table after the two assignments to the caller's slot
  obtain ⟨k0, hk0⟩ : ∃ k0, k0 = setKt (setKt k pi kj (fun kt => { kt with xstate := s })) pi kj
      (fun kt => { kt with state := .ZOMBIE }) := ⟨_, rfl⟩
  rw [← hk0] at hk1 hexit
  have hlen0 : k0.proc.length = k.proc.length := by
    rw [hk0, length_setKt, length_setKt]
  have hklen0 : ∀ m, (procAt k0 m).kthread.length = (procAt k m).kthread.length := by
    intro m; rw [hk0, length_kthread_setKt, length_kthread_setKt]
  have hme0 : ktAt k0 pi kj = { ktAt k pi kj with xstate := s, state := .ZOMBIE } := by
    rw [hk0, ktAt_setKt_eq _ _ (by rw [length_setKt]; exact hpi)
      (by rw [length_kthread_setKt]; exact hkj), ktAt_setKt_eq _ _ hpi hkj]
  have hoth0 : ∀ i j, (i, j) ≠ (pi, kj) → ktAt k0 i j = ktAt k i j := by
    intro i j hij
    have h' : pi ≠ i ∨ kj ≠ j := by
      by_cases h : pi = i
      · right; intro h2; exact hij (by rw [h, h2])
      · left; exact h
    rw [hk0, ktAt_setKt_ne _ _ h', ktAt_setKt_ne _ _ h']
  have hpt0 : (procAt k0 pi).pagetable = (procAt k pi).pagetable := by
    rw [hk0, procAt_setKt, procAt_setKt]
  -- the table after the wakeup
  have hlen1 : k1.proc.length = k.proc.length := by rw [hk1, length_wakeup, hlen0]
  have hklen1 : ∀ m, (procAt k1 m).kthread.length = (procAt k m).kthread.length := by
    intro m; rw [hk1, length_kthread_wakeup, hklen0]
  have hkt1 : ∀ i j, i < k.proc.length → j < (procAt k i).kthread.length →
      ktAt k1 i j = wakeup_kt (some (pi, kj)) (Chan.kthread pi kj) i j (ktAt k0 i j) := by
    intro i j hi hj
    rw [hk1, ktAt_wakeup _ _ _ (by rw [hlen0]; exact hi) (by rw [hklen0]; exact hj)]
  have hme1 : ktAt k1 pi kj = { ktAt k pi kj with xstate := s, state := .ZOMBIE } := by
    rw [hkt1 pi kj hpi hkj, wakeup_kt_me, hme0]
  have hpt1 : (procAt k1 pi).pagetable = (procAt k pi).pagetable := by
    rw [hk1, procAt_wakeup _ _ _ (by rw [hlen0]; exact hpi)]
    exact hpt0
  have htid1 : ∀ l, l < (procAt k pi).kthread.length → (ktAt k1 pi l).tid = (ktAt k pi l).tid := by
    intro l hl
    rw [hkt1 pi l hpi hl, wakeup_kt_fields]
    by_cases h : l = kj
    · subst h; rw [hme0]
    · rw [hoth0 pi l (by intro h2; exact h (Prod.mk.inj h2).2)]
  have hscan : firstIdx (fun kt => decide (kt.tid = (ktAt k pi kj).tid)) (procAt k1 pi).kthread
      = some kj := by
    apply firstIdx_kt_of_ktAt _ _ kj (by rw [hklen1]; exact hkj)
    · rw [ktAt_getD, htid1 kj hkj]; simp
    · intro l hl
      rw [ktAt_getD, htid1 l (by omega)]
      simpa using htid l (by omega) (by omega)
  have hz1 : (ktAt k1 pi kj).state = .ZOMBIE := by rw [hme1]
  have hjoin := kthread_join_zombie k1 pi ki (ktAt k pi kj).tid out copyok kj hscan hz1
  refine ⟨hexit.trans (by rw [hk1]), hz1, by rw [hme1], ?_, ?_, ?_⟩
  · intro i j hi hj hij hs hc
    rw [hkt1 i j hi hj, hoth0 i j hij]
    have hne : some (pi, kj) ≠ some (i, j) := by
      intro h; exact hij (Option.some.inj h).symm
    simp [wakeup_kt, hne, hs, hc]
  · intro hok
    have hcond : ¬ (out ≠ 0 ∧ copyok = false) := by
      rintro ⟨h1, h2⟩
      rcases hok with h | h
      · exact h1 h
      · rw [h] at h2; exact Bool.noConfusion h2
    rw [hjoin]
    simp only [hcond, if_false, Outcome.kernel]
    refine ⟨trivial, ?_, ?_⟩
    · intro hout
      simp only [hout, ne_eq, not_false_eq_true, if_true]
      rw [uread_setKt, hpt1, uread_copyout, hme1]
    · have hfree : ∀ kk : Kernel, kk.proc.length = k.proc.length →
          (procAt kk pi).kthread.length = (procAt k pi).kthread.length →
          (ktAt (setKt kk pi kj free_kthread) pi kj).state = .UNUSED := by
        intro kk h1 h2
        rw [ktAt_setKt_eq _ _ (by rw [h1]; exact hpi) (by rw [h2]; exact hkj)]
        rfl
      split
      · exact hfree _ hlen1 (hklen1 pi)
      · exact hfree _ hlen1 (hklen1 pi)
  · intro hfail
    rw [hjoin]
    simp only [hfail, and_self, if_true, ne_eq, not_false_eq_true]
    exact ⟨trivial, hz1⟩

theorem procAt_default_of_le (k : Kernel) {i : Nat} (h : k.proc.length ≤ i) :
    procAt k i = default := by
  simp [procAt, List.getElem?_eq_none h]

theorem wakeup_kt_idem (me : Option (Nat × Nat)) (chan : Chan) (i j : Nat) (kt : kthread) :
    wakeup_kt me chan i j (wakeup_kt me chan i j kt) = wakeup_kt me chan i j kt := by
  unfold wakeup_kt
  by_cases h1 : me = some (i, j)
  · simp [h1]
  · by_cases h2 : kt.state = .SLEEPING ∧ kt.chan = chan
    · simp [h1, h2]
    · simp only [ne_eq, h1, not_false_eq_true, if_true, h2, if_false]

theorem mapIdxFrom_mapIdxFrom {α : Type} (f g : Nat → α → α) (n : Nat) (xs : List α) :
    mapIdxFrom f n (mapIdxFrom g n xs) = mapIdxFrom (fun i x => f i (g i x)) n xs := by
  induction xs generalizing n with
  | nil => rfl
  | cons x xs ih => simp [mapIdxFrom, ih]

theorem wakeup_proc_idem (me : Option (Nat × Nat)) (chan : Chan) (i : Nat) (p : proc) :
    wakeup_proc me chan i (wakeup_proc me chan i p) = wakeup_proc me chan i p := by
  simp only [wakeup_proc, mapIdxFrom_mapIdxFrom, wakeup_kt_idem]

theorem wakeup_proc_parent (me : Option (Nat × Nat)) (chan : Chan) (i : Nat) (p : proc) :
    (wakeup_proc me chan i p).parent = p.parent := rfl

theorem wakeup_proc_reparent_proc (me : Option (Nat × Nat)) (chan : Chan) (i : Nat)
    (init : Option Nat) (q : Nat) (p : proc) :
    reparent_proc init q (wakeup_proc me chan i p)
      = wakeup_proc me chan i (reparent_proc init q p) := by
  unfold reparent_proc
  rw [wakeup_proc_parent]
  split <;> rfl

theorem reparent_loop_globals (me : Option (Nat × Nat)) (p : Nat) (n i : Nat) (k : Kernel) :
    (reparent_loop me p n i k).initproc = k.initproc ∧
    (reparent_loop me p n i k).nextpid = k.nextpid ∧
    (reparent_loop me p n i k).umem = k.umem ∧
    (reparent_loop me p n i k).proc.length = k.proc.length := by
  induction n generalizing i k with
  | zero => exact ⟨rfl, rfl, rfl, rfl⟩
  | succ n ih =>
    unfold reparent_loop
    split
    · obtain ⟨h1, h2, h3, h4⟩ := ih (i + 1)
        (wakeup (setProc k i (fun pp => { pp with parent := k.initproc })) me
          (procChan (setProc k i (fun pp => { pp with parent := k.initproc })).initproc))
      refine ⟨h1, h2, h3, ?_⟩
      rw [h4, length_wakeup, length_setProc]
    · exact ih (i + 1) k

theorem reparent_loop_procAt (me : Option (Nat × Nat)) (p : Nat) (n i : Nat) (k : Kernel)
    (m : Nat) (hm : m < k.proc.length) :
    procAt (reparent_loop me p n i k) m =
      if (∃ l, l < i + n ∧ i ≤ l ∧ (procAt k l).parent = some p) then
        wakeup_proc me (procChan k.initproc) m
          (if i ≤ m ∧ m < i + n then reparent_proc k.initproc p (procAt k m) else procAt k m)
      else procAt k m := by
  induction n generalizing i k with
  | zero =>
    have : ¬ ∃ l, l < i + 0 ∧ i ≤ l ∧ (procAt k l).parent = some p := by
      rintro ⟨l, h1, h2, _⟩; omega
    simp only [this, if_false]
    rfl
  | succ n ih =>
    unfold reparent_loop
    by_cases hc : (procAt k i).parent = some p
    · simp only [hc, if_true]
      have hany : ∃ l, l < i + (n + 1) ∧ i ≤ l ∧ (procAt k l).parent = some p :=
        ⟨i, by omega, Nat.le_refl i, hc⟩
      simp only [hany, if_true]
      obtain ⟨k1, hk1⟩ : ∃ k1, k1 = wakeup (setProc k i (fun pp => { pp with parent := k.initproc }))
          me (procChan k.initproc) := ⟨_, rfl⟩
      have hk1' : wakeup (setProc k i (fun pp => { pp with parent := k.initproc })) me
          (procChan (setProc k i (fun pp => { pp with parent := k.initproc })).initproc) = k1 := by
        rw [hk1]; rfl
      rw [hk1']
      have hlen1 : k1.proc.length = k.proc.length := by
        rw [hk1, length_wakeup, length_setProc]
      have hinit1 : k1.initproc = k.initproc := by rw [hk1]; rfl
      have hi : i < k.proc.length := by
        by_contra hcon
        rw [procAt_default_of_le k (Nat.le_of_not_lt hcon)] at hc
        exact Option.noConfusion hc
      have hP1 : ∀ l, l < k.proc.length → procAt k1 l = wakeup_proc me (procChan k.initproc) l
          (if l = i then reparent_proc k.initproc p (procAt k l) else procAt k l) := by
        intro l hl
        rw [hk1, procAt_wakeup _ _ _ (by rw [length_setProc]; exact hl)]
        by_cases hli : l = i
        · subst hli
          rw [procAt_setProc_eq _ _ hl]
          simp [reparent_proc, hc]
        · rw [procAt_setProc_ne _ _ (Ne.symm hli)]
          simp [hli]
      have hpar1 : ∀ l, l ≠ i → (procAt k1 l).parent = (procAt k l).parent := by
        intro l hli
        by_cases hl : l < k.proc.length
        · rw [hP1 l hl, wakeup_proc_parent]; simp [hli]
        · rw [procAt_default_of_le k1 (by rw [hlen1]; exact Nat.le_of_not_lt hl),
            procAt_default_of_le k (Nat.le_of_not_lt hl)]
      rw [ih (i + 1) k1 (by rw [hlen1]; exact hm), hinit1, hP1 m hm]
      by_cases hmi : m = i
      · subst hmi
        have hr1 : ¬ (m + 1 ≤ m ∧ m < m + 1 + n) := by omega
        have hr2 : m ≤ m ∧ m < m + (n + 1) := by omega
        simp only [hr1, hr2, if_false, if_true, and_self, wakeup_proc_idem, ite_self]
      · have hrange : (i + 1 ≤ m ∧ m < i + 1 + n) ↔ (i ≤ m ∧ m < i + (n + 1)) := by omega
        simp only [hmi, if_false, hrange, wakeup_proc_reparent_proc]
        by_cases hr : i ≤ m ∧ m < i + (n + 1)
        · simp only [hr, and_self, if_true, wakeup_proc_idem]
          by_cases hany1 : ∃ l, l < i + 1 + n ∧ i + 1 ≤ l ∧ (procAt k1 l).parent = some p
          · simp only [hany1, if_true]
          · simp only [hany1, if_false]
            have hnc : (procAt k m).parent ≠ some p := by
              intro h
              apply hany1
              exact ⟨m, by omega, by omega, by rw [hpar1 m hmi]; exact h⟩
            simp [reparent_proc, hnc]
        · simp only [hr, if_false, wakeup_proc_idem, ite_self]
    · simp only [hc, if_false]
      rw [ih (i + 1) k hm]
      have hany : (∃ l, l < i + 1 + n ∧ i + 1 ≤ l ∧ (procAt k l).parent = some p) ↔
          (∃ l, l < i + (n + 1) ∧ i ≤ l ∧ (procAt k l).parent = some p) := by
        constructor
        · rintro ⟨l, h1, h2, h3⟩
          exact ⟨l, by omega, by omega, h3⟩
        · rintro ⟨l, h1, h2, h3⟩
          have : l ≠ i := by
            intro h; rw [h] at h3; exact hc h3
          exact ⟨l, by omega, by omega, h3⟩
      simp only [hany]
      by_cases hmi : m = i
      · subst hmi
        have hr1 : ¬ (m + 1 ≤ m ∧ m < m + 1 + n) := by omega
        have hr2 : m ≤ m ∧ m < m + (n + 1) := by omega
        simp [hr1, hr2, reparent_proc, hc]
      · have hrange : (i + 1 ≤ m ∧ m < i + 1 + n) ↔ (i ≤ m ∧ m < i + (n + 1)) := by omega
        simp only [hrange]

theorem same_refl (k : Kernel) : SameButThreads k k :=
  ⟨rfl, rfl, rfl, rfl, fun _ => ⟨rfl, rfl⟩⟩

theorem same_trans {k1 k2 k3 : Kernel} (h12 : SameButThreads k1 k2)
    (h23 : SameButThreads k2 k3) : SameButThreads k1 k3 := by
  obtain ⟨a1, a2, a3, a4, a5⟩ := h12
  obtain ⟨b1, b2, b3, b4, b5⟩ := h23
  refine ⟨b1.trans a1, b2.trans a2, b3.trans a3, b4.trans a4, fun m => ⟨?_, ?_⟩⟩
  · rw [(b5 m).1, (a5 m).1]
  · rw [(b5 m).2, (a5 m).2]

theorem same_setKt (k : Kernel) (i j : Nat) (f : kthread → kthread) :
    SameButThreads k (setKt k i j f) :=
  ⟨rfl, rfl, rfl, length_setKt k i j f,
    fun m => ⟨procAt_setKt k i j f m, length_kthread_setKt k i j f m⟩⟩

theorem kthread_join_frame (k : Kernel) (pi ki : Nat) (t : Int) (copyok : Bool) :
    SameButThreads k (kthread_join k pi ki t 0 copyok).kernel := by
  unfold kthread_join kthread_join_scan
  simp only [ne_eq, not_true_eq_false, false_and, if_false]
  repeat' split
  all_goals first
    | exact same_refl k
    | exact same_setKt _ _ _ _

theorem exit_loop_frame (pi ki : Nat) (s : Int) (n j : Nat) (k : Kernel) :
    SameButThreads k (exit_loop pi ki s n j k).kernel := by
  induction n generalizing j k with
  | zero => exact same_refl k
  | succ n ih =>
    unfold exit_loop
    split
    · simp only
      obtain ⟨k2, hk2⟩ : ∃ k2, k2 = setKt (setKt k pi j (fun kt => { kt with xstate := s })) pi j
          (fun kt => { kt with state := .ZOMBIE }) := ⟨_, rfl⟩
      rw [← hk2]
      have h02 : SameButThreads k k2 := by
        rw [hk2]
        exact same_trans (same_setKt _ _ _ _) (same_setKt _ _ _ _)
      have hj := kthread_join_frame k2 pi ki (ktAt k2 pi j).tid false
      split
      · rename_i v k3 heq
        rw [heq] at hj
        exact same_trans (same_trans h02 hj) (ih (j + 1) k3)
      · rename_i o hne
        exact same_trans h02 hj
    · exact ih (j + 1) k

theorem exit_eq (k : Kernel) (pi ki : Nat) (s : Int) :
    exit k pi ki s =
      if k.initproc = some pi then .panic k
      else
        match exit_loop pi ki s (procAt (exit_pre k pi ki s) pi).kthread.length 0
            (exit_pre k pi ki s) with
        | .ret _ k7 =>
          .sched (setKt (setKt k7 pi ki (fun kt => { kt with xstate := s })) pi ki
            (fun kt => { kt with state := .ZOMBIE }))
        | o => o := rfl

theorem exit_frame (k : Kernel) (pi ki : Nat) (s : Int) (hinit : k.initproc ≠ some pi) :
    SameButThreads (exit_pre k pi ki s) (exit k pi ki s).kernel := by
  rw [exit_eq]
  simp only [hinit, if_false]
  have h := exit_loop_frame pi ki s (procAt (exit_pre k pi ki s) pi).kthread.length 0
    (exit_pre k pi ki s)
  split
  · rename_i v k7 heq
    rw [heq] at h
    exact same_trans (same_trans h (same_setKt _ _ _ _)) (same_setKt _ _ _ _)
  · exact h

theorem reparent_procAt (k : Kernel) (me : Option (Nat × Nat)) (p : Nat) (m : Nat)
    (hm : m < k.proc.length) :
    procAt (reparent k me p) m =
      if (∃ l, l < k.proc.length ∧ (procAt k l).parent = some p) then
        wakeup_proc me (procChan k.initproc) m (reparent_proc k.initproc p (procAt k m))
      else procAt k m := by
  unfold reparent
  rw [reparent_loop_procAt me p k.proc.length 0 k m hm]
  have hr : 0 ≤ m ∧ m < 0 + k.proc.length := by omega
  have hany : (∃ l, l < 0 + k.proc.length ∧ 0 ≤ l ∧ (procAt k l).parent = some p) ↔
      (∃ l, l < k.proc.length ∧ (procAt k l).parent = some p) := by
    constructor
    · rintro ⟨l, h1, _, h3⟩; exact ⟨l, by omega, h3⟩
    · rintro ⟨l, h1, h3⟩; exact ⟨l, by omega, Nat.zero_le l, h3⟩
  simp only [hr, and_self, if_true, hany]

theorem reparent_parent (k : Kernel) (me : Option (Nat × Nat)) (p : Nat) (m : Nat)
    (hm : m < k.proc.length) :
    (procAt (reparent k me p) m).parent
      = if (procAt k m).parent = some p then k.initproc else (procAt k m).parent := by
  rw [reparent_procAt k me p m hm]
  by_cases hc : (procAt k m).parent = some p
  · have hany : ∃ l, l < k.proc.length ∧ (procAt k l).parent = some p := ⟨m, hm, hc⟩
    simp [hany, wakeup_proc_parent, reparent_proc, hc]
  · by_cases hany : ∃ l, l < k.proc.length ∧ (procAt k l).parent = some p
    · simp [hany, wakeup_proc_parent, reparent_proc, hc]
    · simp [hany, hc]

theorem reparent_globals (k : Kernel) (me : Option (Nat × Nat)) (p : Nat) :
    (reparent k me p).initproc = k.initproc ∧
    (reparent k me p).nextpid = k.nextpid ∧
    (reparent k me p).umem = k.umem ∧
    (reparent k me p).proc.length = k.proc.length :=
  reparent_loop_globals me p k.proc.length 0 k

theorem exit_pre_parent (k : Kernel) (pi ki : Nat) (s : Int) (m : Nat)
    (hm : m < k.proc.length) :
    (procAt (exit_pre k pi ki s) m).parent
      = if (procAt k m).parent = some pi then k.initproc else (procAt k m).parent := by
  obtain ⟨k2, hk2⟩ : ∃ k2, k2 = setProc (setProc k pi
      (fun p => { p with ofile := p.ofile.map (fun _ => 0) })) pi (fun p => { p with cwd := 0 }) :=
    ⟨_, rfl⟩
  have hlen2 : k2.proc.length = k.proc.length := by
    rw [hk2, length_setProc, length_setProc]
  have hpar2 : ∀ l, (procAt k2 l).parent = (procAt k l).parent := by
    intro l
    rw [hk2, setProc_setProc]
    by_cases hl : pi = l
    · subst hl
      by_cases hlt : pi < k.proc.length
      · rw [procAt_setProc_eq _ _ hlt]
      · rw [procAt_default_of_le _ (by rw [length_setProc]; exact Nat.le_of_not_lt hlt),
          procAt_default_of_le _ (Nat.le_of_not_lt hlt)]
    · rw [procAt_setProc_ne _ _ hl]
  have hinit2 : k2.initproc = k.initproc := by rw [hk2]; rfl
  have hlen3 : (reparent k2 (some (pi, ki)) pi).proc.length = k.proc.length := by
    rw [(reparent_globals _ _ _).2.2.2, hlen2]
  have hstep : ∀ (kk : Kernel) (f : proc → proc), (∀ q, (f q).parent = q.parent) →
      ∀ l, (procAt (setProc kk pi f) l).parent = (procAt kk l).parent := by
    intro kk f hf l
    by_cases hl : pi = l
    · subst hl
      by_cases hlt : pi < kk.proc.length
      · rw [procAt_setProc_eq _ _ hlt, hf]
      · rw [procAt_default_of_le _ (by rw [length_setProc]; exact Nat.le_of_not_lt hlt),
          procAt_default_of_le _ (Nat.le_of_not_lt hlt)]
    · rw [procAt_setProc_ne _ _ hl]
  have : exit_pre k pi ki s = setProc (setProc (wakeup (reparent k2 (some (pi, ki)) pi)
      (some (pi, ki)) (procChan (procAt (reparent k2 (some (pi, ki)) pi) pi).parent)) pi
      (fun p => { p with xstate := s })) pi (fun p => { p with state := .ZOMBIE }) := by
    rw [hk2]; rfl
  have h5 : (procAt (exit_pre k pi ki s) m).parent
      = (procAt (wakeup (reparent k2 (some (pi, ki)) pi) (some (pi, ki))
          (procChan (procAt (reparent k2 (some (pi, ki)) pi) pi).parent)) m).parent := by
    rw [this]
    refine (hstep _ _ ?_ m).trans (hstep _ _ ?_ m)
    · intro q; rfl
    · intro q; rfl
  rw [h5, procAt_wakeup _ _ _ (by rw [hlen3]; exact hm), wakeup_proc_parent,
    reparent_parent k2 _ _ m (by rw [hlen2]; exact hm), hpar2, hinit2]

theorem ktAt_wakeup_proc (me : Option (Nat × Nat)) (chan : Chan) (i j : Nat) (p : proc)
    (hj : j < p.kthread.length) :
    (wakeup_proc me chan i p).kthread.getD j default
      = wakeup_kt me chan i j (p.kthread.getD j default) := by
  simp [getElem?_wakeup_proc, List.getElem?_eq_getElem hj]

theorem reparent_proc_kthread (init : Option Nat) (p : Nat) (q : proc) :
    (reparent_proc init p q).kthread = q.kthread := by
  unfold reparent_proc
  split <;> rfl

theorem reparent_proc_fields (init : Option Nat) (p : Nat) (q : proc) :
    reparent_proc init p q = { q with parent := (reparent_proc init p q).parent } := by
  unfold reparent_proc
  split <;> rfl

/-- C6. For a process `p` other than `initproc`, after `reparent(p)` every slot
whose parent was `p` has parent `initproc`, no slot has parent `p`, and the
parent of every other slot is unchanged.  Nothing else changes in the table,
except that, when at least one slot had parent `p`, every thread SLEEPING on
the channel `initproc` is RUNNABLE.  The parents are the same after `exit` by a
thread of `p`.  The thread running `reparent` is not itself SLEEPING. -/
theorem reparent_gives_children_to_initproc (k : Kernel) (p : Nat)
    (me : Option (Nat × Nat))
    (hinit : k.initproc ≠ some p)
    (hme : ∀ a b, me = some (a, b) → (ktAt k a b).state ≠ .SLEEPING) :
    (reparent k me p).initproc = k.initproc ∧
    (reparent k me p).nextpid = k.nextpid ∧
    (reparent k me p).umem = k.umem ∧
    (reparent k me p).proc.length = k.proc.length ∧
    ∀ i, i < k.proc.length →
      ((procAt k i).parent = some p → (procAt (reparent k me p) i).parent = k.initproc) ∧
      (procAt (reparent k me p) i).parent ≠ some p ∧
      ((procAt k i).parent ≠ some p →
        (procAt (reparent k me p) i).parent = (procAt k i).parent) ∧
      procAt (reparent k me p) i
        = { procAt k i with parent := (procAt (reparent k me p) i).parent,
                            kthread := (procAt (reparent k me p) i).kthread } ∧
      (procAt (reparent k me p) i).kthread.length = (procAt k i).kthread.length ∧
      (∀ j, j < (procAt k i).kthread.length →
        ktAt (reparent k me p) i j
          = { ktAt k i j with state := (ktAt (reparent k me p) i j).state } ∧
        (ktAt (reparent k me p) i j).state =
          if (∃ l, l < k.proc.length ∧ (procAt k l).parent = some p) ∧
              (ktAt k i j).state = .SLEEPING ∧ (ktAt k i j).chan = procChan k.initproc
          then .RUNNABLE else (ktAt k i j).state) ∧
      (∀ ki s, (procAt (exit k p ki s).kernel i).parent
        = (procAt (reparent k me p) i).parent) := by
  obtain ⟨g1, g2, g3, g4⟩ := reparent_globals k me p
  refine ⟨g1, g2, g3, g4, ?_⟩
  intro i hi
  have hpar := reparent_parent k me p i hi
  have hP := reparent_procAt k me p i hi
  refine ⟨?_, ?_, ?_, ?_, ?_, ?_, ?_⟩
  · intro hc
    rw [hpar]; simp [hc]
  · rw [hpar]
    by_cases hc : (procAt k i).parent = some p
    · simp only [hc, if_true]; exact hinit
    · simp only [hc, if_false]; exact hc
  · intro hc
    rw [hpar]; simp [hc]
  · by_cases hany : ∃ l, l < k.proc.length ∧ (procAt k l).parent = some p
    · simp only [hany, if_true] at hP
      rw [hP]
      unfold reparent_proc
      split <;> rfl
    · simp only [hany, if_false] at hP
      rw [hP]
  · by_cases hany : ∃ l, l < k.proc.length ∧ (procAt k l).parent = some p
    · simp only [hany, if_true] at hP
      rw [hP]
      simp [wakeup_proc, length_mapIdxFrom, reparent_proc_kthread]
    · simp only [hany, if_false] at hP
      rw [hP]
  · intro j hj
    by_cases hany : ∃ l, l < k.proc.length ∧ (procAt k l).parent = some p
    · simp only [hany, if_true] at hP
      have hkt : ktAt (reparent k me p) i j
          = wakeup_kt me (procChan k.initproc) i j (ktAt k i j) := by
        unfold ktAt
        rw [hP, ktAt_wakeup_proc _ _ _ _ _ (by rw [reparent_proc_kthread]; exact hj),
          reparent_proc_kthread]
      rw [hkt]
      refine ⟨wakeup_kt_fields _ _ _ _ _, ?_⟩
      unfold wakeup_kt
      by_cases h1 : me = some (i, j)
      · have hns := hme i j h1
        simp [h1, hns]
      · by_cases h2 : (ktAt k i j).state = .SLEEPING ∧ (ktAt k i j).chan = procChan k.initproc
        · simp [h1, h2, hany]
        · simp only [ne_eq, h1, not_false_eq_true, if_true, h2, if_false, and_false]
    · simp only [hany, if_false] at hP
      have hkt : ktAt (reparent k me p) i j = ktAt k i j := by
        unfold ktAt
        rw [hP]
      rw [hkt]
      simp [hany]
  · intro ki s
    have hf := exit_frame k p ki s hinit
    rw [(hf.2.2.2.2 i).1, hpar]
    exact exit_pre_parent k p ki s i hi

/-- C6 on the example table: process 1 exits while it is the parent of a forked
child in slot 2; the child's parent becomes slot 0, the first process, whose
thread asleep in `wait` becomes RUNNABLE. -/
theorem reparent_gives_children_to_initproc_witness :
    (procAt (reparent (fork ex_table 1 0 300 400 true).kernel (some (1, 0)) 1) 2).parent
      = some 0 ∧
    (ktAt (reparent (fork ex_table 1 0 300 400 true).kernel (some (1, 0)) 1) 0 0).state
      = .RUNNABLE ∧
    (procAt (exit (fork ex_table 1 0 300 400 true).kernel 1 0 0).kernel 2).parent = some 0 := by
  have h := reparent_gives_children_to_initproc (fork ex_table 1 0 300 400 true).kernel 1
    (some (1, 0)) (by decide) (by intro a b hab; cases hab; decide)
  have h2 := h.2.2.2.2 2 (by decide)
  have h0 := h.2.2.2.2 0 (by decide)
  refine ⟨h2.1 (by decide), ?_, ?_⟩
  · rw [(h0.2.2.2.2.2.1 0 (by decide)).2]
    decide
  · rw [h2.2.2.2.2.2.2 0 0]
    exact h2.1 (by decide)

/-- C8 on the example table: thread 1 of process 1 calls `kthread_exit(7)`, which
wakes thread 0; thread 0 then joins tid 2 with a user address 88 and reads 7
there. -/
theorem kthread_exit_then_join_witness :
    kthread_exit ex_join 1 1 7 = .sched (kthread_exit ex_join 1 1 7).kernel ∧
    (ktAt (kthread_exit ex_join 1 1 7).kernel 1 0).state = .RUNNABLE ∧
    kthread_join (kthread_exit ex_join 1 1 7).kernel 1 0 2 88 true
      = .ret 0 (kthread_join (kthread_exit ex_join 1 1 7).kernel 1 0 2 88 true).kernel ∧
    uread (kthread_join (kthread_exit ex_join 1 1 7).kernel 1 0 2 88 true).kernel 101 88
      = some 7 ∧
    (ktAt (kthread_join (kthread_exit ex_join 1 1 7).kernel 1 0 2 88 true).kernel 1 1).state
      = .UNUSED := by
  have h := kthread_exit_then_join ex_join (kthread_exit ex_join 1 1 7).kernel 1 1 0 7 88 true
    (by decide) (by decide) (by decide) (by decide) (by decide) rfl
  have hj := h.2.2.2.2.1 (Or.inr rfl)
  exact ⟨h.1, h.2.2.2.1 1 0 (by decide) (by decide) (by decide) (by decide) (by decide),
    hj.1, hj.2.1 (by decide), hj.2.2⟩

theorem setProc_congr (k : Kernel) (i : Nat) (f g : proc → proc)
    (h : f (procAt k i) = g (procAt k i)) : setProc k i f = setProc k i g := by
  unfold setProc
  congr 1
  apply List.ext_getElem?
  intro m
  rw [getElem?_modifyAt, getElem?_modifyAt]
  by_cases him : i = m
  · subst him
    simp only [if_true]
    cases hx : k.proc[i]? with
    | none => rfl
    | some x =>
      rw [procAt_of_getElem? hx] at h
      simp [h]
  · simp [him]

theorem setProc_self (k : Kernel) (i : Nat) (f : proc → proc)
    (h : f (procAt k i) = procAt k i) : setProc k i f = k := by
  have h1 : setProc k i f = setProc k i (fun p => p) := setProc_congr k i f _ h
  rw [h1]
  unfold setProc
  have : modifyAt (fun p => p) k.proc i = k.proc := by
    apply List.ext_getElem?
    intro m
    rw [getElem?_modifyAt]
    split <;> simp
  rw [this]

theorem setKt_setKt (k : Kernel) (i j : Nat) (f g : kthread → kthread) :
    setKt (setKt k i j f) i j g = setKt k i j (fun kt => g (f kt)) := by
  simp [setKt, setProc_setProc, modifyAt_modifyAt]

theorem setKt_eq_setProc (k : Kernel) (i j : Nat) (f : kthread → kthread) :
    setKt k i j f = setProc k i (fun p => { p with kthread := modifyAt f p.kthread j }) := rfl

theorem exit_threads_empty (ki : Nat) (s : Int) (j : Nat) (kts : List kthread) :
    exit_threads ki s j (j + 0) kts = kts := by
  unfold exit_threads
  apply List.ext_getElem?
  intro m
  rw [getElem?_mapIdxFrom]
  have : ¬ (j ≤ 0 + m ∧ 0 + m < j + 0) := by omega
  simp only [this, if_false]
  cases kts[m]? <;> rfl

theorem exit_threads_step (ki : Nat) (s : Int) (j n : Nat) (kts : List kthread) :
    exit_threads ki s (j + 1) (j + 1 + n) (modifyAt (exit_kt ki s j) kts j)
      = exit_threads ki s j (j + (n + 1)) kts := by
  unfold exit_threads
  apply List.ext_getElem?
  intro m
  rw [getElem?_mapIdxFrom, getElem?_mapIdxFrom, getElem?_modifyAt]
  by_cases hm : j = m
  · subst hm
    have h1 : ¬ (j + 1 ≤ 0 + j ∧ 0 + j < j + 1 + n) := by omega
    have h2 : j ≤ 0 + j ∧ 0 + j < j + (n + 1) := by omega
    simp only [if_true, h1, h2, and_self, if_false, Nat.zero_add]
    cases kts[j]? <;> simp
  · have hr : (j + 1 ≤ 0 + m ∧ 0 + m < j + 1 + n) ↔ (j ≤ 0 + m ∧ 0 + m < j + (n + 1)) := by
      omega
    simp only [hm, if_false, hr]

theorem exit_kt_pos (ki : Nat) (s : Int) (j : Nat) (kt : kthread)
    (h : j ≠ ki ∧ kt.state ≠ .UNUSED) :
    exit_kt ki s j kt = free_kthread { kt with xstate := s, state := .ZOMBIE } := by
  unfold exit_kt
  rw [if_pos h]

theorem exit_kt_neg (ki : Nat) (s : Int) (j : Nat) (kt : kthread)
    (h : ¬ (j ≠ ki ∧ kt.state ≠ .UNUSED)) : exit_kt ki s j kt = kt := by
  unfold exit_kt
  rw [if_neg h]

theorem exit_kt_tid_of_state (ki : Nat) (s : Int) (j : Nat) (kt : kthread)
    (h : (exit_kt ki s j kt).state ≠ .UNUSED) : exit_kt ki s j kt = kt := by
  by_cases hc : j ≠ ki ∧ kt.state ≠ .UNUSED
  · rw [exit_kt_pos ki s j kt hc] at h
    exact absurd rfl h
  · exact exit_kt_neg ki s j kt hc

theorem exit_kt_unused (ki : Nat) (s : Int) (j : Nat) (kt : kthread)
    (hw : kt.state = .UNUSED → kt.tid = 0)
    (h : (exit_kt ki s j kt).state = .UNUSED) : (exit_kt ki s j kt).tid = 0 := by
  by_cases hc : j ≠ ki ∧ kt.state ≠ .UNUSED
  · rw [exit_kt_pos ki s j kt hc]
    rfl
  · rw [exit_kt_neg ki s j kt hc] at h ⊢
    exact hw h

theorem tids_wf_step (k : Kernel) (pi ki : Nat) (s : Int) (j : Nat)
    (hpi : pi < k.proc.length) (hwf : tids_wf k pi) :
    tids_wf (setKt k pi j (exit_kt ki s j)) pi := by
  have hlen := length_kthread_setKt k pi j (exit_kt ki s j) pi
  have hkt : ∀ a, a < (procAt k pi).kthread.length →
      ktAt (setKt k pi j (exit_kt ki s j)) pi a
        = if a = j then exit_kt ki s j (ktAt k pi a) else ktAt k pi a := by
    intro a ha
    by_cases haj : a = j
    · subst haj
      rw [ktAt_setKt_eq _ _ hpi ha]; simp
    · rw [ktAt_setKt_ne _ _ (Or.inr (Ne.symm haj))]; simp [haj]
  have hst : ∀ a, a < (procAt k pi).kthread.length →
      (ktAt (setKt k pi j (exit_kt ki s j)) pi a).state ≠ .UNUSED →
      ktAt (setKt k pi j (exit_kt ki s j)) pi a = ktAt k pi a := by
    intro a ha hne
    rw [hkt a ha] at hne ⊢
    by_cases haj : a = j
    · simp only [haj, if_true] at hne ⊢
      exact exit_kt_tid_of_state ki s j _ hne
    · simp [haj]
  intro a ha
  rw [hlen] at ha
  obtain ⟨hw1, hw2⟩ := hwf a ha
  constructor
  · intro hu
    rw [hkt a ha] at hu ⊢
    by_cases haj : a = j
    · simp only [haj, if_true] at hu ⊢
      rw [haj] at hw1
      exact exit_kt_unused ki s j _ hw1 hu
    · simp only [haj, if_false] at hu ⊢
      exact hw1 hu
  · intro hne
    have hsame := hst a ha hne
    rw [hsame] at hne ⊢
    obtain ⟨hz, hu⟩ := hw2 hne
    refine ⟨hz, ?_⟩
    intro l hl hla
    rw [hlen] at hl
    have hl2 := hla.2
    rw [hst l hl hla.2] at hl2 ⊢
    exact hu l hl ⟨hla.1, hl2⟩

theorem ktAt_default_of_le (k : Kernel) (i : Nat) {j : Nat}
    (h : (procAt k i).kthread.length ≤ j) : ktAt k i j = default := by
  simp [ktAt, List.getElem?_eq_none h]

/-- One pass of the loop of `exit` over a slot to be reaped, under the invariant
on tids: `kthread_join` finds the slot itself and frees it. -/
theorem exit_loop_pass (k : Kernel) (pi ki : Nat) (s : Int) (j : Nat)
    (hpi : pi < k.proc.length) (hwf : tids_wf k pi)
    (hc : j ≠ ki ∧ (ktAt k pi j).state ≠ .UNUSED) :
    kthread_join
        (setKt (setKt k pi j (fun kt => { kt with xstate := s })) pi j
          (fun kt => { kt with state := .ZOMBIE }))
        pi ki
        (ktAt (setKt (setKt k pi j (fun kt => { kt with xstate := s })) pi j
          (fun kt => { kt with state := .ZOMBIE })) pi j).tid 0 false
      = .ret 0 (setKt k pi j (exit_kt ki s j)) := by
  have hj : j < (procAt k pi).kthread.length := by
    by_contra hcon
    rw [ktAt_default_of_le k pi (Nat.le_of_not_lt hcon)] at hc
    exact hc.2 rfl
  rw [setKt_setKt]
  obtain ⟨k2, hk2⟩ : ∃ k2, k2 = setKt k pi j
      (fun kt => { { kt with xstate := s } with state := .ZOMBIE }) := ⟨_, rfl⟩
  rw [← hk2]
  have hlen2 : (procAt k2 pi).kthread.length = (procAt k pi).kthread.length := by
    rw [hk2, length_kthread_setKt]
  have hme2 : ktAt k2 pi j = { ktAt k pi j with xstate := s, state := .ZOMBIE } := by
    rw [hk2, ktAt_setKt_eq _ _ hpi hj]
  have hoth2 : ∀ l, l ≠ j → ktAt k2 pi l = ktAt k pi l := by
    intro l hl
    rw [hk2, ktAt_setKt_ne _ _ (Or.inr (Ne.symm hl))]
  obtain ⟨_, hw2⟩ := hwf j hj
  obtain ⟨hz, hu⟩ := hw2 hc.2
  have hscan : firstIdx (fun kt => decide (kt.tid = (ktAt k2 pi j).tid)) (procAt k2 pi).kthread
      = some j := by
    apply firstIdx_kt_of_ktAt _ _ j (by rw [hlen2]; exact hj)
    · rw [ktAt_getD]; simp
    · intro l hl
      rw [ktAt_getD, hoth2 l (by omega), hme2]
      have hlt : l < (procAt k pi).kthread.length := by omega
      by_cases hlu : (ktAt k pi l).state = .UNUSED
      · have := (hwf l hlt).1 hlu
        simp only [decide_eq_false_iff_not]
        rw [this]
        exact fun h => hz h.symm
      · simpa using hu l hlt ⟨by omega, hlu⟩
  have hzs : (ktAt k2 pi j).state = .ZOMBIE := by rw [hme2]
  rw [kthread_join_zombie k2 pi ki _ 0 false j hscan hzs]
  simp only [ne_eq, not_true_eq_false, false_and, if_false]
  rw [hk2, setKt_setKt]
  unfold setKt
  congr 1
  apply setProc_congr
  simp only
  congr 1
  apply List.ext_getElem?
  intro m
  rw [getElem?_modifyAt, getElem?_modifyAt]
  by_cases hm : j = m
  · subst hm
    simp only [if_true]
    rw [getElem?_ktAt hj]
    simp only [Option.map_some']
    rw [exit_kt_pos ki s j _ hc]
  · simp [hm]

theorem exit_loop_closed (pi ki : Nat) (s : Int) (n j : Nat) (k : Kernel)
    (hpi : pi < k.proc.length) (hwf : tids_wf k pi) :
    exit_loop pi ki s n j k
      = .ret 0 (setProc k pi
          (fun p => { p with kthread := exit_threads ki s j (j + n) p.kthread })) := by
  induction n generalizing j k with
  | zero =>
    unfold exit_loop
    rw [setProc_self]
    rw [exit_threads_empty]
  | succ n ih =>
    unfold exit_loop
    by_cases hc : j ≠ ki ∧ (ktAt k pi j).state ≠ .UNUSED
    · rw [if_pos hc]
      simp only
      rw [exit_loop_pass k pi ki s j hpi hwf hc]
      simp only
      rw [ih (j + 1) _ (by rw [length_setKt]; exact hpi) (tids_wf_step k pi ki s j hpi hwf)]
      rw [setKt_eq_setProc, setProc_setProc]
      congr 1
      apply setProc_congr
      simp only
      rw [exit_threads_step]
    · rw [if_neg hc]
      rw [ih (j + 1) k hpi hwf]
      have hsame : modifyAt (exit_kt ki s j) (procAt k pi).kthread j = (procAt k pi).kthread := by
        apply List.ext_getElem?
        intro m
        rw [getElem?_modifyAt]
        by_cases hm : j = m
        · subst hm
          simp only [if_true]
          by_cases hj : j < (procAt k pi).kthread.length
          · rw [getElem?_ktAt hj]
            simp only [Option.map_some']
            rw [exit_kt_neg ki s j _ hc]
          · rw [List.getElem?_eq_none (Nat.le_of_not_lt hj)]
            rfl
        · simp [hm]
      congr 1
      apply setProc_congr
      rw [← exit_threads_step ki s j n, hsame]

theorem woken_refl (k : Kernel) : Woken k k :=
  ⟨rfl, rfl, rfl, rfl, fun _ => ⟨rfl, fun _ => ⟨rfl, Or.inl rfl⟩⟩⟩

theorem woken_trans {k1 k2 k3 : Kernel} (h12 : Woken k1 k2) (h23 : Woken k2 k3) :
    Woken k1 k3 := by
  obtain ⟨a1, a2, a3, a4, a5⟩ := h12
  obtain ⟨b1, b2, b3, b4, b5⟩ := h23
  refine ⟨b1.trans a1, b2.trans a2, b3.trans a3, b4.trans a4, fun i => ⟨?_, fun j => ⟨?_, ?_⟩⟩⟩
  · rw [(b5 i).1, (a5 i).1]
  · rw [((b5 i).2 j).1, ((a5 i).2 j).1]
  · rcases ((b5 i).2 j).2 with hb | hb
    · rcases ((a5 i).2 j).2 with ha | ha
      · left; rw [hb, ha]
      · right; exact ⟨ha.1, by rw [hb, ha.2]⟩
    · rcases ((a5 i).2 j).2 with ha | ha
      · right; exact ⟨by rw [← ha]; exact hb.1, hb.2⟩
      · rw [ha.2] at hb
        exact absurd hb.1 (by decide)

theorem woken_setProc (k : Kernel) (i : Nat) (f : proc → proc)
    (hf : ∀ q, (f q).kthread = q.kthread) : Woken k (setProc k i f) := by
  refine ⟨rfl, rfl, rfl, length_setProc k i f, fun m => ?_⟩
  have hk : (procAt (setProc k i f) m).kthread = (procAt k m).kthread := by
    by_cases him : i = m
    · subst him
      by_cases hi : i < k.proc.length
      · rw [procAt_setProc_eq k f hi, hf]
      · rw [procAt_default_of_le _ (by rw [length_setProc]; exact Nat.le_of_not_lt hi),
          procAt_default_of_le _ (Nat.le_of_not_lt hi)]
    · rw [procAt_setProc_ne k f him]
  refine ⟨by rw [hk], fun j => ?_⟩
  have hkt : ktAt (setProc k i f) m j = ktAt k m j := by
    unfold ktAt; rw [hk]
  rw [hkt]
  exact ⟨rfl, Or.inl rfl⟩

theorem wakeup_kt_state (me : Option (Nat × Nat)) (chan : Chan) (i j : Nat) (kt : kthread) :
    (wakeup_kt me chan i j kt).state = kt.state ∨
      (kt.state = .SLEEPING ∧ (wakeup_kt me chan i j kt).state = .RUNNABLE) := by
  unfold wakeup_kt
  split
  · split
    · rename_i h
      right; exact ⟨h.1, rfl⟩
    · left; rfl
  · left; rfl

theorem woken_wakeup (k : Kernel) (me : Option (Nat × Nat)) (chan : Chan) :
    Woken k (wakeup k me chan) := by
  refine ⟨rfl, rfl, rfl, length_wakeup k me chan, fun i => ⟨length_kthread_wakeup k me chan i, ?_⟩⟩
  intro j
  by_cases hi : i < k.proc.length
  · by_cases hj : j < (procAt k i).kthread.length
    · rw [ktAt_wakeup k me chan hi hj]
      exact ⟨wakeup_kt_fields _ _ _ _ _, wakeup_kt_state _ _ _ _ _⟩
    · rw [ktAt_default_of_le _ _ (by rw [length_kthread_wakeup]; exact Nat.le_of_not_lt hj),
        ktAt_default_of_le _ _ (Nat.le_of_not_lt hj)]
      exact ⟨rfl, Or.inl rfl⟩
  · have h1 : ktAt (wakeup k me chan) i j = default := by
      unfold ktAt
      rw [procAt_default_of_le _ (by rw [length_wakeup]; exact Nat.le_of_not_lt hi)]
      rfl
    have h2 : ktAt k i j = default := by
      unfold ktAt
      rw [procAt_default_of_le _ (Nat.le_of_not_lt hi)]
      rfl
    rw [h1, h2]
    exact ⟨rfl, Or.inl rfl⟩

theorem woken_reparent_loop (me : Option (Nat × Nat)) (p : Nat) (n i : Nat) (k : Kernel) :
    Woken k (reparent_loop me p n i k) := by
  induction n generalizing i k with
  | zero => exact woken_refl k
  | succ n ih =>
    unfold reparent_loop
    split
    · refine woken_trans (woken_trans (woken_setProc k i _ ?_) (woken_wakeup _ _ _)) (ih _ _)
      intro q; rfl
    · exact ih _ _

theorem woken_exit_pre (k : Kernel) (pi ki : Nat) (s : Int) :
    Woken k (exit_pre k pi ki s) := by
  unfold exit_pre
  simp only
  refine woken_trans ?_ (woken_setProc _ pi _ ?_)
  swap
  · intro q; rfl
  refine woken_trans ?_ (woken_setProc _ pi _ ?_)
  swap
  · intro q; rfl
  refine woken_trans ?_ (woken_wakeup _ _ _)
  refine woken_trans ?_ (woken_reparent_loop _ _ _ _ _)
  refine woken_trans (woken_setProc _ pi _ ?_) (woken_setProc _ pi _ ?_)
  · intro q; rfl
  · intro q; rfl

theorem tids_wf_of_woken {k1 k2 : Kernel} (h : Woken k1 k2) (pi : Nat) (hwf : tids_wf k1 pi) :
    tids_wf k2 pi := by
  obtain ⟨_, _, _, _, h5⟩ := h
  have hlen := (h5 pi).1
  have htid : ∀ j, (ktAt k2 pi j).tid = (ktAt k1 pi j).tid := by
    intro j; rw [((h5 pi).2 j).1]
  have hun : ∀ j, (ktAt k2 pi j).state = .UNUSED ↔ (ktAt k1 pi j).state = .UNUSED := by
    intro j
    rcases ((h5 pi).2 j).2 with h | h
    · rw [h]
    · rw [h.1, h.2]
      constructor <;> intro hh <;> exact absurd hh (by decide)
  intro j hj
  rw [hlen] at hj
  obtain ⟨w1, w2⟩ := hwf j hj
  constructor
  · intro hu
    rw [htid]
    exact w1 ((hun j).1 hu)
  · intro hne
    have hne1 : (ktAt k1 pi j).state ≠ .UNUSED := fun h => hne ((hun j).2 h)
    obtain ⟨hz, hu⟩ := w2 hne1
    refine ⟨by rw [htid]; exact hz, ?_⟩
    intro l hl hla
    rw [hlen] at hl
    rw [htid, htid]
    exact hu l hl ⟨hla.1, fun h => hla.2 ((hun l).2 h)⟩

theorem reparent_procAt_fields (k : Kernel) (me : Option (Nat × Nat)) (p : Nat) (m : Nat)
    (hm : m < k.proc.length) :
    procAt (reparent k me p) m
      = { procAt k m with parent := (procAt (reparent k me p) m).parent,
                          kthread := (procAt (reparent k me p) m).kthread } := by
  have hP := reparent_procAt k me p m hm
  by_cases hany : ∃ l, l < k.proc.length ∧ (procAt k l).parent = some p
  · simp only [hany, if_true] at hP
    rw [hP]
    unfold reparent_proc
    split <;> rfl
  · simp only [hany, if_false] at hP
    rw [hP]

/-- Every field of a process slot other than `parent` and the thread array is,
after the first part of `exit`, what the assignments of `exit` to the caller's
slot make it. -/
theorem exit_pre_procAt (k : Kernel) (pi ki : Nat) (s : Int) (m : Nat)
    (hm : m < k.proc.length) :
    procAt (exit_pre k pi ki s) m =
      { (if m = pi then
          { procAt k m with ofile := (procAt k m).ofile.map (fun _ => 0), cwd := 0,
                            xstate := s, state := .ZOMBIE }
        else procAt k m) with
        parent := (procAt (exit_pre k pi ki s) m).parent,
        kthread := (procAt (exit_pre k pi ki s) m).kthread } := by
  obtain ⟨k2, hk2⟩ : ∃ k2, k2 = setProc (setProc k pi
      (fun p => { p with ofile := p.ofile.map (fun _ => 0) })) pi (fun p => { p with cwd := 0 }) :=
    ⟨_, rfl⟩
  obtain ⟨k3, hk3⟩ : ∃ k3, k3 = reparent k2 (some (pi, ki)) pi := ⟨_, rfl⟩
  obtain ⟨k4, hk4⟩ : ∃ k4, k4 = wakeup k3 (some (pi, ki)) (procChan (procAt k3 pi).parent) :=
    ⟨_, rfl⟩
  have hpre : exit_pre k pi ki s = setProc (setProc k4 pi (fun p => { p with xstate := s })) pi
      (fun p => { p with state := .ZOMBIE }) := by
    rw [hk4, hk3, hk2]; rfl
  have hlen2 : k2.proc.length = k.proc.length := by
    rw [hk2, length_setProc, length_setProc]
  have hlen3 : k3.proc.length = k.proc.length := by
    rw [hk3, (reparent_globals _ _ _).2.2.2, hlen2]
  have hlen4 : k4.proc.length = k.proc.length := by
    rw [hk4, length_wakeup, hlen3]
  have h2 : procAt k2 m = if m = pi then
      { procAt k m with ofile := (procAt k m).ofile.map (fun _ => 0), cwd := 0 }
      else procAt k m := by
    rw [hk2, setProc_setProc]
    by_cases hmp : m = pi
    · subst hmp
      rw [procAt_setProc_eq _ _ hm]
      simp
    · rw [procAt_setProc_ne _ _ (Ne.symm hmp)]
      simp [hmp]
  have h3 : procAt k3 m =
      { procAt k2 m with parent := (procAt k3 m).parent, kthread := (procAt k3 m).kthread } := by
    rw [hk3]
    exact reparent_procAt_fields k2 _ _ m (by rw [hlen2]; exact hm)
  have h4 : procAt k4 m = { procAt k3 m with kthread := (procAt k4 m).kthread } := by
    rw [hk4, procAt_wakeup _ _ _ (by rw [hlen3]; exact hm)]
    rfl
  have h42 : procAt k4 m =
      { procAt k2 m with parent := (procAt k4 m).parent, kthread := (procAt k4 m).kthread } := by
    conv => lhs; rw [h4, h3]
    conv => rhs; rw [h4]
  rw [hpre, setProc_setProc]
  by_cases hmp : m = pi
  · subst hmp
    rw [procAt_setProc_eq _ _ (by rw [hlen4]; exact hm)]
    simp only [if_true] at h2 ⊢
    conv => lhs; rw [h42, h2]
  · rw [procAt_setProc_ne _ _ (Ne.symm hmp)]
    simp only [hmp, if_false] at h2 ⊢
    conv => lhs; rw [h42, h2]

theorem exit_closed (k : Kernel) (pi ki : Nat) (s : Int)
    (hinit : k.initproc ≠ some pi) (hpi : pi < k.proc.length) (hwf : tids_wf k pi) :
    exit k pi ki s =
      .sched (setKt (setKt
        (setProc (exit_pre k pi ki s) pi (fun p =>
          { p with kthread := exit_threads ki s 0
                     (0 + (procAt (exit_pre k pi ki s) pi).kthread.length) p.kthread }))
        pi ki (fun kt => { kt with xstate := s })) pi ki (fun kt => { kt with state := .ZOMBIE })) := by
  have hw := woken_exit_pre k pi ki s
  rw [exit_eq, if_neg hinit,
    exit_loop_closed pi ki s _ 0 (exit_pre k pi ki s) (by rw [hw.2.2.2.1]; exact hpi)
      (tids_wf_of_woken hw pi hwf)]

/-- The invariant carries over to a table in which every ZOMBIE slot was already
ZOMBIE and its threads kept their state or went from SLEEPING to RUNNABLE. -/
theorem zombie_inv_kept (k k2 : Kernel) (hlen : k2.proc.length = k.proc.length)
    (h : ∀ i, i < k.proc.length → (procAt k2 i).state = .ZOMBIE →
      (procAt k i).state = .ZOMBIE ∧
      (procAt k2 i).kthread.length = (procAt k i).kthread.length ∧
      ∀ j, j < (procAt k i).kthread.length →
        (ktAt k2 i j).state = (ktAt k i j).state ∨
          ((ktAt k i j).state = .SLEEPING ∧ (ktAt k2 i j).state = .RUNNABLE))
    (hinv : zombie_inv k) : zombie_inv k2 := by
  intro i hi hz j hj
  rw [hlen] at hi
  obtain ⟨hz1, hl, hs⟩ := h i hi hz
  rw [hl] at hj
  have hold := hinv i hi hz1 j hj
  rcases hs j hj with h1 | h1
  · rw [h1]; exact hold
  · rcases hold with h2 | h2
    · rw [h1.1] at h2; exact absurd h2 (by decide)
    · rw [h1.1] at h2; exact absurd h2 (by decide)

/-- The invariant carries over when a single slot changes and ends up in a
state other than ZOMBIE. -/
theorem zombie_inv_one_slot (k k2 : Kernel) (i : Nat) (hlen : k2.proc.length = k.proc.length)
    (hoth : ∀ m, m ≠ i → procAt k2 m = procAt k m)
    (hi : (procAt k2 i).state ≠ .ZOMBIE)
    (hinv : zombie_inv k) : zombie_inv k2 := by
  apply zombie_inv_kept k k2 hlen _ hinv
  intro m hm hz
  have hmi : m ≠ i := by
    intro h; rw [h] at hz; exact hi hz
  have hP := hoth m hmi
  refine ⟨by rw [← hP]; exact hz, by rw [hP], ?_⟩
  intro j _
  left
  unfold ktAt
  rw [hP]

theorem zombie_inv_woken (k k2 : Kernel) (hw : Woken k k2)
    (hs : ∀ i, i < k.proc.length → (procAt k2 i).state = (procAt k i).state)
    (hinv : zombie_inv k) : zombie_inv k2 := by
  apply zombie_inv_kept k k2 hw.2.2.2.1 _ hinv
  intro i hi hz
  refine ⟨by rw [← hs i hi]; exact hz, (hw.2.2.2.2 i).1, ?_⟩
  intro j _
  exact ((hw.2.2.2.2 i).2 j).2

theorem kill_kt_state (kt : kthread) :
    (kill_kt kt).state = kt.state ∨ (kt.state = .SLEEPING ∧ (kill_kt kt).state = .RUNNABLE) := by
  unfold kill_kt
  by_cases h : kt.state = .SLEEPING
  · right; simp [h]
  · left; simp [h]

theorem zombie_inv_kill (k : Kernel) (pid : Int) (hinv : zombie_inv k) :
    zombie_inv (kill k pid).2 := by
  cases hf : firstIdx (fun p => decide (p.pid = pid)) k.proc with
  | none => rw [kill_not_found k pid hf]; exact hinv
  | some i =>
    rw [kill_found k pid i hf]
    simp only
    apply zombie_inv_kept k _ (length_setProc _ _ _) _ hinv
    intro m hm hz
    by_cases him : i = m
    · subst him
      rw [procAt_setProc_eq _ _ hm] at hz ⊢
      refine ⟨hz, by simp, ?_⟩
      intro j hj
      have : ktAt (setProc k i
          (fun p => { p with killed := 1, kthread := p.kthread.map kill_kt })) i j
          = kill_kt (ktAt k i j) := by
        simp [ktAt, procAt_setProc_eq k _ hm, List.getElem?_eq_getElem hj]
      rw [this]
      exact kill_kt_state _
    · rw [procAt_setProc_ne _ _ him] at hz ⊢
      refine ⟨hz, rfl, ?_⟩
      intro j _
      left
      unfold ktAt
      rw [procAt_setProc_ne _ _ him]

theorem kthread_kill_loop_spec (ktid : Int) (kts : List kthread) (ret : Int) :
    (kthread_kill_loop ktid kts ret).2 = kts.map (kthread_kill_kt ktid) := by
  induction kts generalizing ret with
  | nil => rfl
  | cons kt kts ih =>
    unfold kthread_kill_loop
    split
    · rename_i h
      simp [ih, h, kthread_kill_kt]
    · rename_i h
      simp [ih, h, kthread_kill_kt]

theorem zombie_inv_kthread_kill (k : Kernel) (pi : Nat) (ktid : Int) (hinv : zombie_inv k) :
    zombie_inv (kthread_kill k pi ktid).2 := by
  unfold kthread_kill
  simp only
  rw [kthread_kill_loop_spec]
  apply zombie_inv_kept k _ (length_setProc _ _ _) _ hinv
  intro m hm hz
  by_cases him : pi = m
  · subst him
    rw [procAt_setProc_eq _ _ hm] at hz ⊢
    refine ⟨hz, by simp, ?_⟩
    intro j hj
    have : ktAt (setProc k pi
          (fun p => { p with kthread := (procAt k pi).kthread.map (kthread_kill_kt ktid) })) pi j
        = kthread_kill_kt ktid (ktAt k pi j) := by
      simp [ktAt, procAt_setProc_eq k _ hm, List.getElem?_eq_getElem hj]
    rw [this]
    unfold kthread_kill_kt
    split
    · exact kill_kt_state _
    · left; rfl
  · rw [procAt_setProc_ne _ _ him] at hz ⊢
    refine ⟨hz, rfl, ?_⟩
    intro j _
    left
    unfold ktAt
    rw [procAt_setProc_ne _ _ him]

theorem zombie_inv_wakeup (k : Kernel) (me : Option (Nat × Nat)) (chan : Chan)
    (hinv : zombie_inv k) : zombie_inv (wakeup k me chan) := by
  apply zombie_inv_woken k _ (woken_wakeup k me chan) _ hinv
  intro i hi
  rw [procAt_wakeup k me chan hi]
  rfl

theorem procAt_setProc_state_ne (k : Kernel) (i : Nat) (f : proc → proc) (st : procstate)
    (hf : ∀ q, (f q).state ≠ st) (hd : (default : proc).state ≠ st) :
    (procAt (setProc k i f) i).state ≠ st := by
  by_cases hi : i < k.proc.length
  · rw [procAt_setProc_eq k f hi]
    exact hf _
  · rw [procAt_default_of_le _ (by rw [length_setProc]; exact Nat.le_of_not_lt hi)]
    exact hd

theorem zombie_inv_setProc (k : Kernel) (i : Nat) (f : proc → proc)
    (hf : ∀ q, (f q).state ≠ .ZOMBIE) (hinv : zombie_inv k) : zombie_inv (setProc k i f) :=
  zombie_inv_one_slot k _ i (length_setProc _ _ _)
    (fun _ hm => procAt_setProc_ne _ _ (Ne.symm hm))
    (procAt_setProc_state_ne k i f _ hf (by decide)) hinv

theorem zombie_inv_globals (k : Kernel) (n : Int) (u : List (Nat × Nat × Int))
    (hinv : zombie_inv k) : zombie_inv { k with nextpid := n, umem := u } := hinv

theorem zombie_inv_fork (k : Kernel) (pi ki page pt : Nat) (ok : Bool) (hinv : zombie_inv k) :
    zombie_inv (fork k pi ki page pt ok).kernel := by
  cases hf : firstIdx (fun p => decide (p.state = .UNUSED)) k.proc with
  | none =>
    have ha := allocproc_none k page pt hf
    simp only [fork, ha, Outcome.kernel]
    exact hinv
  | some i =>
    have ha := allocproc_found k page pt i hf
    have hK : zombie_inv { k with nextpid := int32 (k.nextpid + 1) } := hinv
    by_cases hpage : page = 0
    · simp only [hpage, if_true] at ha
      subst hpage
      simp only [fork, ha, Outcome.kernel]
      exact zombie_inv_setProc _ _ _ (fun _ => by simp [freeproc]) hK
    · by_cases hpt : pt = 0
      · simp only [hpage, hpt, if_true, if_false] at ha
        subst hpt
        simp only [fork, ha, Outcome.kernel]
        exact zombie_inv_setProc _ _ _ (fun _ => by simp [freeproc]) hK
      · simp only [hpage, hpt, if_false] at ha
        cases ok with
        | false =>
          simp only [fork, ha, if_true, Outcome.kernel, setProc_setProc]
          exact zombie_inv_setProc _ _ _ (fun _ => by simp [freeproc]) hK
        | true =>
          simp only [fork, ha, Bool.true_eq_false, if_false, Outcome.kernel, setKt,
            setProc_setProc]
          exact zombie_inv_setProc _ _ _ (fun _ => by simp) hK

theorem zombie_inv_wait (k : Kernel) (pi ki addr : Nat) (copyok : Bool)
    (hused : (procAt k pi).state = .USED) (hinv : zombie_inv k) :
    zombie_inv (wait k pi ki addr copyok).kernel := by
  unfold wait
  split
  · split
    · exact hinv
    · simp only [Outcome.kernel]
      split
      · exact zombie_inv_setProc (copyout k _ _ _) _ _ (fun _ => by simp [freeproc]) hinv
      · exact zombie_inv_setProc _ _ _ (fun _ => by simp [freeproc]) hinv
  · split
    · exact hinv
    · simp only [Outcome.kernel, sleep]
      apply zombie_inv_one_slot k _ pi (length_setKt _ _ _ _)
        (fun m hm => procAt_setKt_ne _ _ _ (Ne.symm hm)) _ hinv
      rw [procAt_setKt]
      simp only
      rw [hused]
      decide

theorem ktAt_setProc_kthread (k : Kernel) (i : Nat) (f : proc → proc)
    (hf : ∀ q, (f q).kthread = q.kthread) (m j : Nat) :
    ktAt (setProc k i f) m j = ktAt k m j := by
  have h := ((woken_setProc k i f hf).2.2.2.2 m).2 j
  have h1 := h.1
  rcases h.2 with h2 | h2
  · rw [h1, h2]
  · have hk : (procAt (setProc k i f) m).kthread = (procAt k m).kthread := by
      by_cases him : i = m
      · subst him
        by_cases hi : i < k.proc.length
        · rw [procAt_setProc_eq k f hi, hf]
        · rw [procAt_default_of_le _ (by rw [length_setProc]; exact Nat.le_of_not_lt hi),
            procAt_default_of_le _ (Nat.le_of_not_lt hi)]
      · rw [procAt_setProc_ne k f him]
    unfold ktAt
    rw [hk]

theorem procAt_setProc_parent (k : Kernel) (i : Nat) (f : proc → proc)
    (hf : ∀ q, (f q).parent = q.parent) (m : Nat) :
    (procAt (setProc k i f) m).parent = (procAt k m).parent := by
  by_cases him : i = m
  · subst him
    by_cases hi : i < k.proc.length
    · rw [procAt_setProc_eq k f hi, hf]
    · rw [procAt_default_of_le _ (by rw [length_setProc]; exact Nat.le_of_not_lt hi),
        procAt_default_of_le _ (Nat.le_of_not_lt hi)]
  · rw [procAt_setProc_ne k f him]

/-- The threads after the first part of `exit`: a table `k3` reached from `k` by
waking threads (the one `reparent` leaves), to which `wakeup(p->parent)` is
applied. -/
theorem exit_pre_kt (k : Kernel) (pi ki : Nat) (s : Int) :
    ∃ k3, Woken k k3 ∧
      ∀ i j, i < k.proc.length → j < (procAt k i).kthread.length →
        ktAt (exit_pre k pi ki s) i j
          = wakeup_kt (some (pi, ki)) (procChan (procAt (exit_pre k pi ki s) pi).parent) i j
              (ktAt k3 i j) := by
  obtain ⟨k2, hk2⟩ : ∃ k2, k2 = setProc (setProc k pi
      (fun p => { p with ofile := p.ofile.map (fun _ => 0) })) pi (fun p => { p with cwd := 0 }) :=
    ⟨_, rfl⟩
  obtain ⟨k3, hk3⟩ : ∃ k3, k3 = reparent k2 (some (pi, ki)) pi := ⟨_, rfl⟩
  obtain ⟨k4, hk4⟩ : ∃ k4, k4 = wakeup k3 (some (pi, ki)) (procChan (procAt k3 pi).parent) :=
    ⟨_, rfl⟩
  have hpre : exit_pre k pi ki s = setProc (setProc k4 pi (fun p => { p with xstate := s })) pi
      (fun p => { p with state := .ZOMBIE }) := by
    rw [hk4, hk3, hk2]; rfl
  have hw2 : Woken k k2 := by
    rw [hk2]
    refine woken_trans (woken_setProc _ pi _ ?_) (woken_setProc _ pi _ ?_)
    · intro q; rfl
    · intro q; rfl
  have hw3 : Woken k k3 := by
    rw [hk3]
    exact woken_trans hw2 (woken_reparent_loop _ _ _ _ _)
  refine ⟨k3, hw3, ?_⟩
  intro i j hi hj
  have hpar : (procAt (exit_pre k pi ki s) pi).parent = (procAt k3 pi).parent := by
    have h1 : (procAt (exit_pre k pi ki s) pi).parent = (procAt k4 pi).parent := by
      rw [hpre, setProc_setProc]
      apply procAt_setProc_parent
      intro q; rfl
    rw [h1, hk4]
    by_cases hpi : pi < k3.proc.length
    · rw [procAt_wakeup _ _ _ hpi]; rfl
    · rw [procAt_default_of_le _ (by rw [length_wakeup]; exact Nat.le_of_not_lt hpi),
        procAt_default_of_le _ (Nat.le_of_not_lt hpi)]
  have hkt : ktAt (exit_pre k pi ki s) i j = ktAt k4 i j := by
    rw [hpre, setProc_setProc]
    apply ktAt_setProc_kthread
    intro q; rfl
  rw [hpar, hkt, hk4]
  exact ktAt_wakeup _ _ _ (by rw [hw3.2.2.2.1]; exact hi) (by rw [(hw3.2.2.2.2 i).1]; exact hj)

theorem length_exit_threads (ki : Nat) (s : Int) (lo hi : Nat) (kts : List kthread) :
    (exit_threads ki s lo hi kts).length = kts.length :=
  length_mapIdxFrom _ _ _

theorem getD_exit_threads (ki : Nat) (s : Int) (n : Nat) (kts : List kthread) (j : Nat)
    (hj : j < kts.length) (hn : kts.length ≤ n) :
    (exit_threads ki s 0 (0 + n) kts).getD j default = exit_kt ki s j (kts.getD j default) := by
  have hr : 0 ≤ 0 + j ∧ 0 + j < 0 + n := by omega
  simp [exit_threads, getElem?_mapIdxFrom, List.getElem?_eq_getElem hj, hr]
  intro h
  omega

/-- The table in which `exit` enters `sched`, under the invariant on tids. -/
theorem exit_result (k : Kernel) (pi ki : Nat) (s : Int)
    (hinit : k.initproc ≠ some pi) (hpi : pi < k.proc.length)
    (hki : ki < (procAt k pi).kthread.length) (hwf : tids_wf k pi) :
    exit k pi ki s = .sched (exit k pi ki s).kernel ∧
    (exit k pi ki s).kernel.proc.length = k.proc.length ∧
    (procAt (exit k pi ki s).kernel pi).kthread.length = (procAt k pi).kthread.length ∧
    (procAt (exit k pi ki s).kernel pi).state = .ZOMBIE ∧
    (procAt (exit k pi ki s).kernel pi).xstate = s ∧
    ktAt (exit k pi ki s).kernel pi ki
      = { ktAt (exit_pre k pi ki s) pi ki with xstate := s, state := .ZOMBIE } ∧
    (∀ j, j < (procAt k pi).kthread.length → j ≠ ki →
      ktAt (exit k pi ki s).kernel pi j = exit_kt ki s j (ktAt (exit_pre k pi ki s) pi j) ∧
      (ktAt (exit k pi ki s).kernel pi j).state = .UNUSED) ∧
    (∀ i, i ≠ pi → procAt (exit k pi ki s).kernel i = procAt (exit_pre k pi ki s) i) := by
  have hw := woken_exit_pre k pi ki s
  have hlenE : (exit_pre k pi ki s).proc.length = k.proc.length := hw.2.2.2.1
  have hklenE : (procAt (exit_pre k pi ki s) pi).kthread.length = (procAt k pi).kthread.length :=
    (hw.2.2.2.2 pi).1
  have hpiE : pi < (exit_pre k pi ki s).proc.length := by rw [hlenE]; exact hpi
  rw [exit_closed k pi ki s hinit hpi hwf]
  simp only [Outcome.kernel]
  obtain ⟨x, hx⟩ : ∃ x, x = setProc (exit_pre k pi ki s) pi (fun p =>
      { p with kthread := exit_threads ki s 0
                 (0 + (procAt (exit_pre k pi ki s) pi).kthread.length) p.kthread }) := ⟨_, rfl⟩
  rw [← hx]
  have hlenX : x.proc.length = k.proc.length := by rw [hx, length_setProc, hlenE]
  have hPX : procAt x pi = { procAt (exit_pre k pi ki s) pi with
                             kthread := exit_threads ki s 0
                               (0 + (procAt (exit_pre k pi ki s) pi).kthread.length)
                               (procAt (exit_pre k pi ki s) pi).kthread } := by
    rw [hx, procAt_setProc_eq _ _ hpiE]
  have hklenX : (procAt x pi).kthread.length = (procAt k pi).kthread.length := by
    rw [hPX]
    simp only
    rw [length_exit_threads, hklenE]
  have hktX : ∀ j, j < (procAt k pi).kthread.length →
      ktAt x pi j = exit_kt ki s j (ktAt (exit_pre k pi ki s) pi j) := by
    intro j hj
    unfold ktAt
    rw [hPX]
    simp only
    exact getD_exit_threads ki s _ _ j (by rw [hklenE]; exact hj) (Nat.le_refl _)
  have hEpi := exit_pre_procAt k pi ki s pi hpi
  simp only [if_true] at hEpi
  refine ⟨trivial, ?_, ?_, ?_, ?_, ?_, ?_, ?_⟩
  · rw [length_setKt, length_setKt, hlenX]
  · rw [length_kthread_setKt, length_kthread_setKt, hklenX]
  · rw [procAt_setKt, procAt_setKt, hPX, hEpi]
  · rw [procAt_setKt, procAt_setKt, hPX, hEpi]
  · rw [setKt_setKt, ktAt_setKt_eq _ _ (by rw [hlenX]; exact hpi) (by rw [hklenX]; exact hki),
      hktX ki hki, exit_kt_neg ki s ki _ (by simp)]
  · intro j hj hjk
    have hne : pi ≠ pi ∨ ki ≠ j := Or.inr (Ne.symm hjk)
    rw [ktAt_setKt_ne _ _ hne, ktAt_setKt_ne _ _ hne, hktX j hj]
    refine ⟨rfl, ?_⟩
    by_cases hc : j ≠ ki ∧ (ktAt (exit_pre k pi ki s) pi j).state ≠ .UNUSED
    · rw [exit_kt_pos ki s j _ hc]; rfl
    · rw [exit_kt_neg ki s j _ hc]
      by_contra hcon
      exact hc ⟨hjk, hcon⟩
  · intro i hi
    rw [procAt_setKt_ne _ _ _ (Ne.symm hi), procAt_setKt_ne _ _ _ (Ne.symm hi), hx,
      procAt_setProc_ne _ _ (Ne.symm hi)]

theorem zombie_inv_exit (k : Kernel) (pi ki : Nat) (s : Int)
    (hinit : k.initproc ≠ some pi) (hpi : pi < k.proc.length)
    (hki : ki < (procAt k pi).kthread.length) (hwf : tids_wf k pi)
    (hinv : zombie_inv k) : zombie_inv (exit k pi ki s).kernel := by
  obtain ⟨_, hlen, hklen, _, _, hme, hoth, hprocs⟩ := exit_result k pi ki s hinit hpi hki hwf
  have hw := woken_exit_pre k pi ki s
  intro i hi hz j hj
  rw [hlen] at hi
  by_cases hip : i = pi
  · subst hip
    rw [hklen] at hj
    by_cases hjk : j = ki
    · subst hjk
      right
      rw [hme]
    · left
      exact (hoth j hj hjk).2
  · have hP := hprocs i hip
    have hE := exit_pre_procAt k pi ki s i hi
    simp only [hip, if_false] at hE
    have hst : (procAt k i).state = .ZOMBIE := by
      rw [hP, hE] at hz
      exact hz
    have hjk : j < (procAt k i).kthread.length := by
      rw [hP, (hw.2.2.2.2 i).1] at hj
      exact hj
    have hold := hinv i hi hst j hjk
    have hkt : ktAt (exit k pi ki s).kernel i j = ktAt (exit_pre k pi ki s) i j := by
      unfold ktAt
      rw [hP]
    rw [hkt]
    rcases ((hw.2.2.2.2 i).2 j).2 with h1 | h1
    · rw [h1]; exact hold
    · rcases hold with h2 | h2
      · rw [h1.1] at h2; exact absurd h2 (by decide)
      · rw [h1.1] at h2; exact absurd h2 (by decide)

/-- C5. The invariant "every process slot in state ZOMBIE has each of its thread
slots in state UNUSED or ZOMBIE".  When a thread `ki` of a process `pi` other
than `initproc` calls `exit(status)`, the call reaches `sched`, and there the
process is ZOMBIE with `xstate = status`, the calling thread is ZOMBIE with
`xstate = status`, and every other thread slot of the process is UNUSED or
ZOMBIE; the invariant holds of the whole table if it held before.  The
invariant is preserved by `kill`, `kthread_kill`, `wakeup`, `fork` and `wait`
(the caller of `wait` being a thread of a process in use).  Thread identifiers
of the exiting process obey the data model: nonzero and pairwise distinct on
the slots that are not UNUSED, zero on the UNUSED ones. -/
theorem zombie_process_has_no_live_thread (k : Kernel) (pi ki : Nat) (status : Int)
    (hinit : k.initproc ≠ some pi) (hpi : pi < k.proc.length)
    (hki : ki < (procAt k pi).kthread.length) (hwf : tids_wf k pi)
    (hinv : zombie_inv k) :
    exit k pi ki status = .sched (exit k pi ki status).kernel ∧
    (procAt (exit k pi ki status).kernel pi).state = .ZOMBIE ∧
    (procAt (exit k pi ki status).kernel pi).xstate = status ∧
    (ktAt (exit k pi ki status).kernel pi ki).state = .ZOMBIE ∧
    (ktAt (exit k pi ki status).kernel pi ki).xstate = status ∧
    (∀ j, j < (procAt (exit k pi ki status).kernel pi).kthread.length → j ≠ ki →
      (ktAt (exit k pi ki status).kernel pi j).state = .UNUSED ∨
      (ktAt (exit k pi ki status).kernel pi j).state = .ZOMBIE) ∧
    zombie_inv (exit k pi ki status).kernel ∧
    (∀ pid, zombie_inv (kill k pid).2) ∧
    (∀ qi tid, zombie_inv (kthread_kill k qi tid).2) ∧
    (∀ me chan, zombie_inv (wakeup k me chan)) ∧
    (∀ qi qj page pt ok, zombie_inv (fork k qi qj page pt ok).kernel) ∧
    (∀ qi qj addr copyok, (procAt k qi).state = .USED →
      zombie_inv (wait k qi qj addr copyok).kernel) := by
  obtain ⟨h1, _, hklen, h4, h5, hme, hoth, _⟩ := exit_result k pi ki status hinit hpi hki hwf
  refine ⟨h1, h4, h5, by rw [hme], by rw [hme], ?_, ?_, ?_, ?_, ?_, ?_, ?_⟩
  · intro j hj hjk
    rw [hklen] at hj
    exact Or.inl (hoth j hj hjk).2
  · exact zombie_inv_exit k pi ki status hinit hpi hki hwf hinv
  · intro pid
    exact zombie_inv_kill k pid hinv
  · intro qi tid
    exact zombie_inv_kthread_kill k qi tid hinv
  · intro me chan
    exact zombie_inv_wakeup k me chan hinv
  · intro qi qj page pt ok
    exact zombie_inv_fork k qi qj page pt ok hinv
  · intro qi qj addr copyok hused
    exact zombie_inv_wait k qi qj addr copyok hused hinv

/-- C5 on the example table: the running thread of process 1 calls `exit(42)`;
its sleeping second thread is reaped, and the table satisfies the invariant. -/
theorem zombie_process_has_no_live_thread_witness :
    exit ex_table 1 0 42 = .sched (exit ex_table 1 0 42).kernel ∧
    (procAt (exit ex_table 1 0 42).kernel 1).state = .ZOMBIE ∧
    (ktAt (exit ex_table 1 0 42).kernel 1 0).xstate = 42 ∧
    zombie_inv (exit ex_table 1 0 42).kernel ∧
    zombie_inv (kill ex_table 2).2 := by
  have h := zombie_process_has_no_live_thread ex_table 1 0 42 (by decide) (by decide)
    (by decide) (by decide) (by decide)
  exact ⟨h.1, h.2.1, h.2.2.2.2.1, h.2.2.2.2.2.2.1, h.2.2.2.2.2.2.2.1 2⟩

theorem wait_scan_found (pi : Nat) (xs : List proc) (n : Nat) (hk : Bool) (m : Nat) (x : proc)
    (hx : xs[m]? = some x) (hpar : x.parent = some pi) (hz : x.state = .ZOMBIE)
    (hfirst : ∀ j y, j < m → xs[j]? = some y → ¬ (y.parent = some pi ∧ y.state = .ZOMBIE)) :
    (wait_scan pi xs n hk).1 = some (n + m) := by
  induction xs generalizing n hk m with
  | nil => simp at hx
  | cons y ys ih =>
    cases m with
    | zero =>
      simp only [List.getElem?_cons_zero, Option.some.injEq] at hx
      subst hx
      simp [wait_scan, hpar, hz]
    | succ m =>
      have hy := hfirst 0 y (by omega) (by simp)
      have hrec : ∀ hk2, (wait_scan pi ys (n + 1) hk2).1 = some (n + 1 + m) := by
        intro hk2
        apply ih (n + 1) hk2 m (by simpa using hx)
        intro j z hj hz2
        exact hfirst (j + 1) z (by omega) (by simpa using hz2)
      unfold wait_scan
      by_cases hp : y.parent = some pi
      · have hnz : ¬ y.state = .ZOMBIE := fun h => hy ⟨hp, h⟩
        simp only [hp, if_true, hnz, if_false]
        rw [hrec]
        congr 1
        omega
      · simp only [hp, if_false]
        rw [hrec]
        congr 1
        omega

theorem exit_sched_fields (k0 k : Kernel) (i cj : Nat) (s : Int)
    (h : exit k0 i cj s = .sched k) (hi : i < k.proc.length) :
    (procAt k i).pid = (procAt k0 i).pid ∧ (procAt k i).xstate = s ∧
    (procAt k i).state = .ZOMBIE := by
  have hinit : k0.initproc ≠ some i := by
    intro hcon
    rw [exit_eq, if_pos hcon] at h
    exact Outcome.noConfusion h
  have hf := exit_frame k0 i cj s hinit
  rw [h] at hf
  simp only [Outcome.kernel] at hf
  have hw := woken_exit_pre k0 i cj s
  have hi0 : i < k0.proc.length := by
    rw [hf.2.2.2.1, hw.2.2.2.1] at hi
    exact hi
  have hE := exit_pre_procAt k0 i cj s i hi0
  simp only [if_true] at hE
  rw [(hf.2.2.2.2 i).1, hE]
  exact ⟨rfl, rfl, rfl⟩

/-- C1. If the caller `pi` has a child slot in state ZOMBIE, the first such slot
in table order being slot `i`, and the copy-out of the status succeeds or
`addr` is 0, then `wait(addr)` returns the pid of slot `i`, stores that slot's
`xstate` at `addr` when `addr` is not 0, and frees the slot: state UNUSED,
pid 0, parent null, killed 0, xstate 0, sz 0, every thread slot freed.  Every
other process slot is unchanged.  In particular, when the table is the one in
which that child entered `sched` from `exit(s)`, the value returned is the
child's pid and the value stored is `s`. -/
theorem wait_reaps_first_zombie_child (k : Kernel) (pi ki i addr : Nat) (copyok : Bool)
    (hi : i < k.proc.length)
    (hchild : (procAt k i).parent = some pi)
    (hzombie : (procAt k i).state = .ZOMBIE)
    (hfirst : ∀ j, j < i → ¬ ((procAt k j).parent = some pi ∧ (procAt k j).state = .ZOMBIE))
    (hcopy : addr = 0 ∨ copyok = true) :
    wait k pi ki addr copyok = .ret (procAt k i).pid (wait k pi ki addr copyok).kernel ∧
    (addr ≠ 0 →
      uread (wait k pi ki addr copyok).kernel (procAt k pi).pagetable addr
        = some (procAt k i).xstate) ∧
    (procAt (wait k pi ki addr copyok).kernel i).state = .UNUSED ∧
    (procAt (wait k pi ki addr copyok).kernel i).pid = 0 ∧
    (procAt (wait k pi ki addr copyok).kernel i).parent = none ∧
    (procAt (wait k pi ki addr copyok).kernel i).killed = 0 ∧
    (procAt (wait k pi ki addr copyok).kernel i).xstate = 0 ∧
    (procAt (wait k pi ki addr copyok).kernel i).sz = 0 ∧
    (procAt (wait k pi ki addr copyok).kernel i).kthread
      = (procAt k i).kthread.map free_kthread ∧
    (∀ j, j < (procAt k i).kthread.length →
      (ktAt (wait k pi ki addr copyok).kernel i j).state = .UNUSED) ∧
    (∀ m, m ≠ i → procAt (wait k pi ki addr copyok).kernel m = procAt k m) ∧
    (wait k pi ki addr copyok).kernel.proc.length = k.proc.length ∧
    (∀ k0 cj s, exit k0 i cj s = .sched k →
      (procAt k i).pid = (procAt k0 i).pid ∧ (procAt k i).xstate = s) := by
  have hscan : (wait_scan pi k.proc 0 false).1 = some (0 + i) := by
    apply wait_scan_found pi k.proc 0 false i (procAt k i) (getElem?_procAt hi) hchild hzombie
    intro j y hj hy
    rw [← procAt_of_getElem? hy]
    exact hfirst j hj
  rw [Nat.zero_add] at hscan
  have hcond : ¬ (addr ≠ 0 ∧ copyok = false) := by
    rintro ⟨h1, h2⟩
    rcases hcopy with h | h
    · exact h1 h
    · rw [h] at h2; exact Bool.noConfusion h2
  have hwait : wait k pi ki addr copyok = .ret (procAt k i).pid
      (setProc (if addr ≠ 0 then copyout k (procAt k pi).pagetable addr (procAt k i).xstate else k)
        i freeproc) := by
    unfold wait
    obtain ⟨a, b, hab⟩ : ∃ a b, wait_scan pi k.proc 0 false = (a, b) := ⟨_, _, rfl⟩
    rw [hab] at hscan ⊢
    simp only at hscan
    subst hscan
    simp only [hcond, if_false]
  rw [hwait]
  simp only [Outcome.kernel]
  have hP : ∀ kk : Kernel, kk.proc = k.proc → procAt (setProc kk i freeproc) i
      = freeproc (procAt k i) := by
    intro kk hkk
    have : i < kk.proc.length := by rw [hkk]; exact hi
    rw [procAt_setProc_eq _ _ this]
    unfold procAt
    rw [hkk]
  have hPi : procAt (setProc (if addr ≠ 0 then
        copyout k (procAt k pi).pagetable addr (procAt k i).xstate else k) i freeproc) i
      = freeproc (procAt k i) := by
    split
    · exact hP _ rfl
    · exact hP _ rfl
  refine ⟨trivial, ?_, ?_, ?_, ?_, ?_, ?_, ?_, ?_, ?_, ?_, ?_, ?_⟩
  · intro haddr
    simp only [haddr, ne_eq, not_false_eq_true, if_true]
    exact uread_copyout _ _ _ _
  · rw [hPi]; rfl
  · rw [hPi]; rfl
  · rw [hPi]; rfl
  · rw [hPi]; rfl
  · rw [hPi]; rfl
  · rw [hPi]; rfl
  · rw [hPi]; rfl
  · intro j hj
    unfold ktAt
    rw [hPi]
    simp [freeproc, List.getElem?_eq_getElem hj, free_kthread]
  · intro m hm
    split
    · exact procAt_setProc_ne _ _ (Ne.symm hm)
    · exact procAt_setProc_ne _ _ (Ne.symm hm)
  · split
    · exact length_setProc _ _ _
    · exact length_setProc _ _ _
  · intro k0 cj s hexit
    obtain ⟨h1, h2, _⟩ := exit_sched_fields k0 k i cj s hexit hi
    exact ⟨h1, h2⟩

/-- C1 on the example table: process 1 calls `exit(42)`; the first process then
calls `wait(77)`, which returns pid 2 and stores 42 at address 77. -/
theorem wait_reaps_first_zombie_child_witness :
    wait (exit ex_table 1 0 42).kernel 0 0 77 true
      = .ret 2 (wait (exit ex_table 1 0 42).kernel 0 0 77 true).kernel ∧
    uread (wait (exit ex_table 1 0 42).kernel 0 0 77 true).kernel 100 77 = some 42 ∧
    (procAt (wait (exit ex_table 1 0 42).kernel 0 0 77 true).kernel 1).state = .UNUSED := by
  have h := wait_reaps_first_zombie_child (exit ex_table 1 0 42).kernel 0 0 1 77 true
    (by decide) (by decide) (by decide) (by decide) (Or.inr rfl)
  have he := h.2.2.2.2.2.2.2.2.2.2.2.2 ex_table 0 42 (by decide)
  refine ⟨?_, ?_, h.2.2.1⟩
  · have h1 := h.1
    rw [he.1] at h1
    exact h1
  · have h2 := h.2.1 (by decide)
    rw [he.2] at h2
    exact h2

theorem modifyAt_comm {α : Type} (f g : α → α) (hfg : ∀ x, f (g x) = g (f x)) (xs : List α)
    (a b : Nat) : modifyAt f (modifyAt g xs a) b = modifyAt g (modifyAt f xs b) a := by
  apply List.ext_getElem?
  intro m
  simp only [getElem?_modifyAt]
  by_cases ha : a = m <;> by_cases hb : b = m <;> simp [ha, hb]
  cases xs[m]? with
  | none => rfl
  | some x => simp [hfg]

theorem setProc_setKt_comm (k : Kernel) (pi ki : Nat) (h : kthread → kthread) (i : Nat)
    (f : proc → proc) (hf : ∀ q kts, f { q with kthread := kts } = { f q with kthread := kts }) :
    setProc (setKt k pi ki h) i f = setKt (setProc k i f) pi ki h := by
  unfold setKt setProc
  simp only
  congr 1
  apply modifyAt_comm
  intro x
  have hk : (f x).kthread = x.kthread := by
    have := hf x x.kthread
    have h2 : ({ x with kthread := x.kthread } : proc) = x := rfl
    rw [h2] at this
    rw [this]
  rw [hf, hk]

theorem wakeup_setKt_comm (k : Kernel) (pi ki : Nat) (h : kthread → kthread) (chan : Chan) :
    wakeup (setKt k pi ki h) (some (pi, ki)) chan
      = setKt (wakeup k (some (pi, ki)) chan) pi ki h := by
  unfold wakeup setKt setProc
  simp only
  congr 1
  apply List.ext_getElem?
  intro m
  simp only [getElem?_mapIdxFrom, getElem?_modifyAt, Nat.zero_add]
  by_cases hm : pi = m
  · subst hm
    simp only [if_true]
    cases k.proc[pi]? with
    | none => rfl
    | some x =>
      simp only [Option.map_some', Option.some.injEq]
      unfold wakeup_proc
      simp only
      congr 1
      apply List.ext_getElem?
      intro l
      simp only [getElem?_mapIdxFrom, getElem?_modifyAt, Nat.zero_add]
      by_cases hl : ki = l
      · subst hl
        simp only [if_true]
        cases x.kthread[ki]? with
        | none => rfl
        | some kt => simp [wakeup_kt_me]
      · simp [hl]
  · simp [hm]

theorem reparent_loop_setKt_comm (pi ki : Nat) (h : kthread → kthread) (p : Nat) (n i : Nat)
    (k : Kernel) :
    reparent_loop (some (pi, ki)) p n i (setKt k pi ki h)
      = setKt (reparent_loop (some (pi, ki)) p n i k) pi ki h := by
  induction n generalizing i k with
  | zero => rfl
  | succ n ih =>
    unfold reparent_loop
    have hpar : (procAt (setKt k pi ki h) i).parent = (procAt k i).parent := by
      rw [procAt_setKt]
    rw [hpar]
    split
    · simp only
      have hinit : (setKt k pi ki h).initproc = k.initproc := rfl
      rw [hinit]
      have e1 : setProc (setKt k pi ki h) i (fun pp => { pp with parent := k.initproc })
          = setKt (setProc k i (fun pp => { pp with parent := k.initproc })) pi ki h := by
        apply setProc_setKt_comm
        intro q kts; rfl
      rw [e1]
      have hinit2 : (setKt (setProc k i (fun pp => { pp with parent := k.initproc })) pi ki h).initproc
          = (setProc k i (fun pp => { pp with parent := k.initproc })).initproc := rfl
      rw [hinit2, wakeup_setKt_comm, ih]
    · exact ih (i + 1) k

theorem exit_pre_setKt_comm (k : Kernel) (pi ki : Nat) (h : kthread → kthread) (s : Int) :
    exit_pre (setKt k pi ki h) pi ki s = setKt (exit_pre k pi ki s) pi ki h := by
  unfold exit_pre
  simp only
  have e1 : setProc (setKt k pi ki h) pi (fun p => { p with ofile := p.ofile.map (fun _ => 0) })
      = setKt (setProc k pi (fun p => { p with ofile := p.ofile.map (fun _ => 0) })) pi ki h := by
    apply setProc_setKt_comm
    intro q kts; rfl
  rw [e1]
  have e2 : ∀ kk : Kernel, setProc (setKt kk pi ki h) pi (fun p => { p with cwd := 0 })
      = setKt (setProc kk pi (fun p => { p with cwd := 0 })) pi ki h := by
    intro kk
    apply setProc_setKt_comm
    intro q kts; rfl
  rw [e2]
  have e3 : ∀ kk : Kernel, reparent (setKt kk pi ki h) (some (pi, ki)) pi
      = setKt (reparent kk (some (pi, ki)) pi) pi ki h := by
    intro kk
    unfold reparent
    rw [length_setKt]
    exact reparent_loop_setKt_comm pi ki h pi _ 0 kk
  rw [e3]
  have e4 : ∀ kk : Kernel, (procAt (setKt kk pi ki h) pi).parent = (procAt kk pi).parent := by
    intro kk
    rw [procAt_setKt]
  rw [e4, wakeup_setKt_comm]
  have e5 : ∀ kk : Kernel, setProc (setKt kk pi ki h) pi (fun p => { p with xstate := s })
      = setKt (setProc kk pi (fun p => { p with xstate := s })) pi ki h := by
    intro kk
    apply setProc_setKt_comm
    intro q kts; rfl
  rw [e5]
  apply setProc_setKt_comm
  intro q kts; rfl

theorem exit_threads_modifyAt_comm (ki : Nat) (s : Int) (lo hi : Nat) (h : kthread → kthread)
    (kts : List kthread) :
    exit_threads ki s lo hi (modifyAt h kts ki) = modifyAt h (exit_threads ki s lo hi kts) ki := by
  unfold exit_threads
  apply List.ext_getElem?
  intro l
  simp only [getElem?_mapIdxFrom, getElem?_modifyAt, Nat.zero_add]
  by_cases hl : ki = l
  · subst hl
    simp only [if_true]
    cases kts[ki]? with
    | none => rfl
    | some kt =>
      simp only [Option.map_some', Option.some.injEq]
      have e : ∀ x : kthread, exit_kt ki s ki x = x := fun x => exit_kt_neg ki s ki x (by simp)
      simp only [e, ite_self]
  · simp [hl]

theorem countP_eq_one_of_unique {α : Type} (p : α → Bool) (xs : List α) (i : Nat)
    (hi : i < xs.length)
    (h : ∀ j x, xs[j]? = some x → (p x = true ↔ j = i)) : xs.countP p = 1 := by
  induction xs generalizing i with
  | nil => simp at hi
  | cons y ys ih =>
    cases i with
    | zero =>
      have hy : p y = true := (h 0 y (by simp)).2 rfl
      have hz : ys.countP p = 0 := by
        rw [List.countP_eq_zero]
        intro a ha
        obtain ⟨j, hj, rfl⟩ := List.getElem_of_mem ha
        intro hp
        have := (h (j + 1) ys[j] (by simp [List.getElem?_eq_getElem hj])).1 hp
        omega
      simp [List.countP_cons, hy, hz]
    | succ i =>
      have hy : ¬ p y = true := by
        intro hp
        have := (h 0 y (by simp)).1 hp
        omega
      have hrec : ys.countP p = 1 := by
        apply ih i (by simpa using hi)
        intro j x hx
        have := h (j + 1) x (by simpa using hx)
        rw [this]
        omega
      simp [List.countP_cons, hy, hrec]

theorem tids_wf_setKt_caller (k : Kernel) (pi ki : Nat) (h : kthread → kthread)
    (hpi : pi < k.proc.length)
    (htid : ∀ kt, (h kt).tid = kt.tid)
    (hst : (ktAt k pi ki).state ≠ .UNUSED) (hst2 : ∀ kt, (h kt).state ≠ .UNUSED)
    (hwf : tids_wf k pi) : tids_wf (setKt k pi ki h) pi := by
  have hlen := length_kthread_setKt k pi ki h pi
  have hkt : ∀ a, a < (procAt k pi).kthread.length →
      ktAt (setKt k pi ki h) pi a = if a = ki then h (ktAt k pi a) else ktAt k pi a := by
    intro a ha
    by_cases hak : a = ki
    · subst hak
      rw [ktAt_setKt_eq _ _ hpi ha]; simp
    · rw [ktAt_setKt_ne _ _ (Or.inr (Ne.symm hak))]; simp [hak]
  have htid2 : ∀ a, a < (procAt k pi).kthread.length →
      (ktAt (setKt k pi ki h) pi a).tid = (ktAt k pi a).tid := by
    intro a ha
    rw [hkt a ha]
    split
    · exact htid _
    · rfl
  have hun : ∀ a, a < (procAt k pi).kthread.length →
      ((ktAt (setKt k pi ki h) pi a).state = .UNUSED ↔ (ktAt k pi a).state = .UNUSED) := by
    intro a ha
    rw [hkt a ha]
    by_cases hak : a = ki
    · subst hak
      simp only [if_true]
      constructor
      · intro hh; exact absurd hh (hst2 _)
      · intro hh; exact absurd hh hst
    · simp [hak]
  intro j hj
  rw [hlen] at hj
  obtain ⟨w1, w2⟩ := hwf j hj
  constructor
  · intro hu
    rw [htid2 j hj]
    exact w1 ((hun j hj).1 hu)
  · intro hne
    have hne1 : (ktAt k pi j).state ≠ .UNUSED := fun hh => hne ((hun j hj).2 hh)
    obtain ⟨hz, hu⟩ := w2 hne1
    refine ⟨by rw [htid2 j hj]; exact hz, ?_⟩
    intro l hl hla
    rw [hlen] at hl
    rw [htid2 l hl, htid2 j hj]
    exact hu l hl ⟨hla.1, fun hh => hla.2 ((hun l hl).2 hh)⟩

/-- With the slot of the caller already marked ZOMBIE with the exit status, `exit`
reaches the same table. -/
theorem exit_setKt_caller (k : Kernel) (pi ki : Nat) (s : Int)
    (hinit : k.initproc ≠ some pi) (hpi : pi < k.proc.length)
    (hlive : (ktAt k pi ki).state ≠ .UNUSED) (hwf : tids_wf k pi) :
    exit (setKt (setKt k pi ki (fun kt => { kt with xstate := s })) pi ki
        (fun kt => { kt with state := .ZOMBIE })) pi ki s
      = exit k pi ki s := by
  rw [setKt_setKt]
  obtain ⟨h, hh⟩ : ∃ h : kthread → kthread,
      h = fun kt => { { kt with xstate := s } with state := .ZOMBIE } := ⟨_, rfl⟩
  rw [← hh]
  have hwf2 : tids_wf (setKt k pi ki h) pi := by
    apply tids_wf_setKt_caller k pi ki h hpi _ hlive _ hwf
    · intro kt; rw [hh]
    · intro kt; rw [hh]; simp
  rw [exit_closed k pi ki s hinit hpi hwf,
    exit_closed (setKt k pi ki h) pi ki s hinit (by rw [length_setKt]; exact hpi) hwf2,
    exit_pre_setKt_comm, length_kthread_setKt]
  congr 1
  rw [setKt_eq_setProc (exit_pre k pi ki s) pi ki h, setProc_setProc, setKt_setKt,
    setKt_setKt, setKt_eq_setProc, setKt_eq_setProc, setProc_setProc, setProc_setProc]
  apply setProc_congr
  simp only
  rw [exit_threads_modifyAt_comm, modifyAt_modifyAt]
  congr 1
  rw [hh]

theorem live_ne_unused (kt : kthread) (h : live kt = true) : kt.state ≠ .UNUSED := by
  intro hu
  simp [live, hu] at h

/-- C7. Let thread `ki` of a process `pi` in use, other than `initproc`, call
`kthread_exit(status)`, thread identifiers obeying the data model.  If the
calling thread is the only thread slot of the process whose state is RUNNABLE,
RUNNING, SLEEPING or USED, the outcome of `kthread_exit(status)` is the
outcome of `exit(status)` from the same state, table included: the call enters
`sched` with the process ZOMBIE and `xstate = status`, the calling thread
ZOMBIE with `xstate = status`, the children of the process reparented to
`initproc`, and the threads of other processes that slept on the parent of the
process RUNNABLE.  If at least two thread slots are in those states,
`kthread_exit(status)` enters `sched` with the process state still USED. -/
theorem kthread_exit_of_last_thread_is_exit (k : Kernel) (pi ki : Nat) (status : Int)
    (hinit : k.initproc ≠ some pi) (hpi : pi < k.proc.length)
    (hki : ki < (procAt k pi).kthread.length) (hwf : tids_wf k pi)
    (hused : (procAt k pi).state = .USED) :
    ((∀ j, j < (procAt k pi).kthread.length → (live (ktAt k pi j) = true ↔ j = ki)) →
      kthread_exit k pi ki status = exit k pi ki status ∧
      exit k pi ki status = .sched (exit k pi ki status).kernel ∧
      (procAt (exit k pi ki status).kernel pi).state = .ZOMBIE ∧
      (procAt (exit k pi ki status).kernel pi).xstate = status ∧
      (ktAt (exit k pi ki status).kernel pi ki).state = .ZOMBIE ∧
      (ktAt (exit k pi ki status).kernel pi ki).xstate = status ∧
      (∀ i, i < k.proc.length →
        (procAt (exit k pi ki status).kernel i).parent
          = if (procAt k i).parent = some pi then k.initproc else (procAt k i).parent) ∧
      (∀ i j, i < k.proc.length → i ≠ pi → j < (procAt k i).kthread.length →
        (ktAt k i j).state = .SLEEPING →
        (ktAt k i j).chan = procChan (procAt (exit k pi ki status).kernel pi).parent →
          (ktAt (exit k pi ki status).kernel i j).state = .RUNNABLE)) ∧
    (2 ≤ (procAt k pi).kthread.countP live →
      kthread_exit k pi ki status = .sched (kthread_exit k pi ki status).kernel ∧
      (procAt (kthread_exit k pi ki status).kernel pi).state = .USED) := by
  constructor
  · intro honly
    have hlive : (ktAt k pi ki).state ≠ .UNUSED := live_ne_unused _ ((honly ki hki).2 rfl)
    have hcount : (procAt k pi).kthread.countP live = 1 := by
      apply countP_eq_one_of_unique live _ ki hki
      intro j x hx
      have hj : j < (procAt k pi).kthread.length := (List.getElem?_eq_some.1 hx).1
      have hxx : ktAt k pi j = x := by simp [ktAt, hx]
      rw [← hxx]
      exact honly j hj
    have hke : kthread_exit k pi ki status = exit k pi ki status := by
      unfold kthread_exit
      simp only [hcount, if_true]
      exact exit_setKt_caller k pi ki status hinit hpi hlive hwf
    obtain ⟨h1, _, _, h4, h5, hme, _, hprocs⟩ :=
      exit_result k pi ki status hinit hpi hki hwf
    have hf := exit_frame k pi ki status hinit
    refine ⟨hke, h1, h4, h5, by rw [hme], by rw [hme], ?_, ?_⟩
    · intro i hi
      rw [(hf.2.2.2.2 i).1]
      exact exit_pre_parent k pi ki status i hi
    · intro i j hi hip hj hs hc
      have hpar : (procAt (exit k pi ki status).kernel pi).parent
          = (procAt (exit_pre k pi ki status) pi).parent := by
        rw [(hf.2.2.2.2 pi).1]
      rw [hpar] at hc
      have hkt : ktAt (exit k pi ki status).kernel i j = ktAt (exit_pre k pi ki status) i j := by
        unfold ktAt
        rw [hprocs i hip]
      obtain ⟨k3, hw3, hk3⟩ := exit_pre_kt k pi ki status
      rw [hkt, hk3 i j hi hj]
      have hne : some (pi, ki) ≠ some (i, j) := by
        intro hcon
        exact hip (Prod.mk.inj (Option.some.inj hcon)).1.symm
      have hfields := ((hw3.2.2.2.2 i).2 j).1
      have hchan : (ktAt k3 i j).chan = (ktAt k i j).chan := by rw [hfields]
      rcases ((hw3.2.2.2.2 i).2 j).2 with hst | hst
      · have hs3 : (ktAt k3 i j).state = .SLEEPING := by rw [hst]; exact hs
        simp [wakeup_kt, hne, hs3, hchan, hc]
      · have hs3 := hst.2
        simp [wakeup_kt, hne, hs3]
  · intro hmany
    have hcount : (procAt k pi).kthread.countP live ≠ 1 := by omega
    have hke : kthread_exit k pi ki status = .sched (wakeup
        (setKt (setKt k pi ki (fun kt => { kt with xstate := status })) pi ki
          (fun kt => { kt with state := .ZOMBIE }))
        (some (pi, ki)) (Chan.kthread pi ki)) := by
      simp [kthread_exit, hcount]
    rw [hke]
    simp only [Outcome.kernel]
    refine ⟨trivial, ?_⟩
    rw [procAt_wakeup _ _ _ (by rw [length_setKt, length_setKt]; exact hpi)]
    show (procAt (setKt (setKt k pi ki _) pi ki _) pi).state = .USED
    rw [procAt_setKt, procAt_setKt]
    exact hused

/-- C7 on the example tables: in the table where the second thread of process 1
has been reaped, its remaining thread calls `kthread_exit(5)`, which acts as
`exit(5)`; in the example table, where process 1 has two live threads, the
process stays USED. -/
theorem kthread_exit_of_last_thread_is_exit_witness :
    kthread_exit (setKt ex_table 1 1 free_kthread) 1 0 5
      = exit (setKt ex_table 1 1 free_kthread) 1 0 5 ∧
    (procAt (kthread_exit (setKt ex_table 1 1 free_kthread) 1 0 5).kernel 1).state = .ZOMBIE ∧
    (procAt (kthread_exit ex_table 1 0 5).kernel 1).state = .USED := by
  have h1 := (kthread_exit_of_last_thread_is_exit (setKt ex_table 1 1 free_kthread) 1 0 5
    (by decide) (by decide) (by decide) (by decide) (by decide)).1 (by decide)
  have h2 := (kthread_exit_of_last_thread_is_exit ex_table 1 0 5
    (by decide) (by decide) (by decide) (by decide) (by decide)).2 (by decide)
  refine ⟨h1.1, ?_, h2.2⟩
  rw [h1.1]
  exact h1.2.2.1

/-! ## Thread creation: `kthread_create` -/

/-- With no UNUSED thread slot `alloc_kthread` returns the null pointer and
leaves the process as it was. -/
theorem alloc_kthread_none (p : proc)
    (hfull : ∀ j, j < p.kthread.length → (p.kthread.getD j default).state ≠ .UNUSED) :
    alloc_kthread p = (none, p) := by
  have hnone : firstIdx (fun kt => decide (kt.state = .UNUSED)) p.kthread = none := by
    apply firstIdx_kt_none_of_ktAt
    intro j hj
    simpa using hfull j hj
  unfold alloc_kthread
  rw [hnone]

/-- With slot `j` the first UNUSED thread slot, `alloc_kthread` returns it,
USED, with the tid `nexttid`. -/
theorem alloc_kthread_some (p : proc) (j : Nat) (hj : j < p.kthread.length)
    (hfree : (p.kthread.getD j default).state = .UNUSED)
    (hfirst : ∀ l, l < j → (p.kthread.getD l default).state ≠ .UNUSED) :
    alloc_kthread p = (some j, { p with
      nexttid := int32 (p.nexttid + 1),
      kthread := modifyAt (fun kt => { kt with tid := p.nexttid, state := .USED }) p.kthread j }) := by
  have hsome : firstIdx (fun kt => decide (kt.state = .UNUSED)) p.kthread = some j := by
    apply firstIdx_kt_of_ktAt _ _ _ hj
    · simpa using hfree
    · intro l hl
      simpa using hfirst l hl
  unfold alloc_kthread
  rw [hsome]

/-- The success path of `kthread_create`: when slot `j` is the first UNUSED
thread slot of the caller's process, the call returns the tid issued to that
slot (the process's `nexttid`), the slot is RUNNABLE with that tid, its
trapframe has `epc = start_func` and `sp = (stack + stack_size) mod 2^64`, the
process's `nexttid` has advanced, and nothing else has changed. -/
theorem kthread_create_free_slot (k : Kernel) (pi j start_func stack stack_size : Nat)
    (hpi : pi < k.proc.length) (hj : j < (procAt k pi).kthread.length)
    (hfree : (ktAt k pi j).state = .UNUSED)
    (hfirst : ∀ l, l < j → (ktAt k pi l).state ≠ .UNUSED) :
    ∃ k2, kthread_create k pi start_func stack stack_size = .ret (procAt k pi).nexttid k2 ∧
      (ktAt k2 pi j).tid = (procAt k pi).nexttid ∧
      (ktAt k2 pi j).state = .RUNNABLE ∧
      (ktAt k2 pi j).trapframe.epc = start_func ∧
      (ktAt k2 pi j).trapframe.sp = (stack + stack_size) % 18446744073709551616 ∧
      (ktAt k2 pi j).trapframe.a0 = (ktAt k pi j).trapframe.a0 ∧
      (ktAt k2 pi j).trapframe.regs = (ktAt k pi j).trapframe.regs ∧
      (ktAt k2 pi j).chan = (ktAt k pi j).chan ∧
      (ktAt k2 pi j).killed = (ktAt k pi j).killed ∧
      (ktAt k2 pi j).xstate = (ktAt k pi j).xstate ∧
      (∀ l, l ≠ j → ktAt k2 pi l = ktAt k pi l) ∧
      (∀ i, i ≠ pi → procAt k2 i = procAt k i) ∧
      procAt k2 pi = { procAt k pi with
        nexttid := int32 ((procAt k pi).nexttid + 1), kthread := (procAt k2 pi).kthread } ∧
      (procAt k2 pi).kthread.length = (procAt k pi).kthread.length ∧
      k2.proc.length = k.proc.length ∧ k2.initproc = k.initproc ∧
      k2.nextpid = k.nextpid ∧ k2.umem = k.umem := by
  have ha := alloc_kthread_some (procAt k pi) j hj hfree hfirst
  obtain ⟨g, hg⟩ : ∃ g : kthread → kthread, g = (fun kt =>
      { state := .RUNNABLE, chan := kt.chan, killed := kt.killed, xstate := kt.xstate,
        tid := (procAt k pi).nexttid,
        trapframe := { epc := start_func, sp := (stack + stack_size) % 18446744073709551616,
                       a0 := kt.trapframe.a0, regs := kt.trapframe.regs } }) := ⟨_, rfl⟩
  have hk : kthread_create k pi start_func stack stack_size
      = .ret (procAt k pi).nexttid (setProc k pi (fun p =>
          { p with nexttid := int32 ((procAt k pi).nexttid + 1),
                   kthread := modifyAt g (procAt k pi).kthread j })) := by
    unfold kthread_create
    simp only [ha]
    rw [setKt_setKt, setKt_setKt, setKt_eq_setProc, setProc_setProc]
    have hs : setProc k pi (fun p =>
          { (alloc_kthread p).2 with kthread := modifyAt (fun kt =>
              { ({ ({ kt with trapframe := { kt.trapframe with epc := start_func } } : kthread) with
                    trapframe := { ({ kt with trapframe := { kt.trapframe with epc := start_func } } : kthread).trapframe with
                      sp := (stack + stack_size) % 18446744073709551616 } } : kthread) with
                state := .RUNNABLE }) (alloc_kthread p).2.kthread j })
        = setProc k pi (fun p =>
          { p with nexttid := int32 ((procAt k pi).nexttid + 1),
                   kthread := modifyAt g (procAt k pi).kthread j }) := by
      apply setProc_congr
      simp only [ha, modifyAt_modifyAt, hg]
    rw [hs]
    congr 1
    unfold ktAt
    rw [procAt_setProc_eq k _ hpi]
    simp only [List.getD_eq_getElem?_getD, getElem?_modifyAt, if_true, getElem?_ktAt hj,
      Option.map_some', Option.getD_some, hg]
  have hP : procAt (setProc k pi (fun p =>
          { p with nexttid := int32 ((procAt k pi).nexttid + 1),
                   kthread := modifyAt g (procAt k pi).kthread j })) pi
      = { procAt k pi with nexttid := int32 ((procAt k pi).nexttid + 1),
                           kthread := modifyAt g (procAt k pi).kthread j } := by
    rw [procAt_setProc_eq k _ hpi]
  have hKj : ∀ l, ktAt (setProc k pi (fun p =>
          { p with nexttid := int32 ((procAt k pi).nexttid + 1),
                   kthread := modifyAt g (procAt k pi).kthread j })) pi l
      = if j = l then g (ktAt k pi l) else ktAt k pi l := by
    intro l
    unfold ktAt
    rw [hP]
    simp only [List.getD_eq_getElem?_getD, getElem?_modifyAt]
    by_cases hjl : j = l
    · subst hjl
      simp only [if_true, getElem?_ktAt hj, Option.map_some', Option.getD_some]
    · simp only [hjl, if_false]
  refine ⟨_, hk, ?_, ?_, ?_, ?_, ?_, ?_, ?_, ?_, ?_, ?_, ?_, ?_, ?_, ?_, rfl, rfl, rfl⟩
  · rw [hKj, if_pos rfl, hg]
  · rw [hKj, if_pos rfl, hg]
  · rw [hKj, if_pos rfl, hg]
  · rw [hKj, if_pos rfl, hg]
  · rw [hKj, if_pos rfl, hg]
  · rw [hKj, if_pos rfl, hg]
  · rw [hKj, if_pos rfl, hg]
  · rw [hKj, if_pos rfl, hg]
  · rw [hKj, if_pos rfl, hg]
  · intro l hl
    rw [hKj, if_neg (fun h => hl h.symm)]
  · intro i hi
    exact procAt_setProc_ne k _ (fun h => hi h.symm)
  · rw [hP]
  · rw [hP]
    exact length_modifyAt _ _ _
  · exact length_setProc _ _ _

/-- C11, the code on a process without a free thread slot. When every thread slot
of the caller's process is in a state other than UNUSED, `alloc_kthread` hands
back the null pointer and `kthread_create` reads `kt->trapframe` through it: the
call does not return `-1` (it does not return at all), the table being as it
was before the call. -/
theorem kthread_create_without_free_slot_faults (k : Kernel)
    (pi start_func stack stack_size : Nat)
    (hfull : ∀ j, j < (procAt k pi).kthread.length → (ktAt k pi j).state ≠ .UNUSED) :
    kthread_create k pi start_func stack stack_size = .fault k ∧
    ∀ v k2, kthread_create k pi start_func stack stack_size ≠ .ret v k2 := by
  have ha := alloc_kthread_none (procAt k pi) hfull
  have hk : kthread_create k pi start_func stack stack_size = .fault k := by
    unfold kthread_create
    simp only [ha]
    congr 1
    apply setProc_self
    rw [ha]
  refine ⟨hk, ?_⟩
  intro v k2 h
  rw [hk] at h
  cases h

/-- C11, at the failing input: both thread slots of process 1 of the example
table are in use, and `kthread_create(64, 8192, 4096)` called by that process
reads through the null pointer instead of returning -1. -/
theorem kthread_create_without_free_slot_faults_witness :
    (∀ j, j < (procAt ex_table 1).kthread.length → (ktAt ex_table 1 j).state ≠ .UNUSED) ∧
    kthread_create ex_table 1 64 8192 4096 = .fault ex_table ∧
    kthread_create ex_table 1 64 8192 4096 ≠ .ret (-1) ex_table :=
  ⟨by decide,
   (kthread_create_without_free_slot_faults ex_table 1 64 8192 4096 (by decide)).1,
   (kthread_create_without_free_slot_faults ex_table 1 64 8192 4096 (by decide)).2 (-1) ex_table⟩

/-- The success path on the example table: process 0 has its second thread
slot free and `nexttid = 2`. -/
theorem kthread_create_free_slot_example :
    ∃ k2, kthread_create ex_table 0 64 8192 4096 = .ret 2 k2 ∧
      (ktAt k2 0 1).tid = 2 ∧ (ktAt k2 0 1).state = .RUNNABLE ∧
      (ktAt k2 0 1).trapframe.epc = 64 ∧ (ktAt k2 0 1).trapframe.sp = 12288 := by
  obtain ⟨k2, h1, h2, h3, h4, h5, _⟩ :=
    kthread_create_free_slot ex_table 0 1 64 8192 4096 (by decide) (by decide) (by decide)
      (by decide)
  exact ⟨k2, h1, h2, h3, h4, h5⟩

/-! ## Killing one thread: `kthread_kill` -/

/-- The value of `ret` after the loop of `kthread_kill`: 0 as soon as one slot
holds the tid, the initial value otherwise. -/
theorem kthread_kill_loop_ret (ktid : Int) (kts : List kthread) (ret : Int) :
    (kthread_kill_loop ktid kts ret).1
      = if kts.any (fun kt => decide (kt.tid = ktid)) then 0 else ret := by
  induction kts generalizing ret with
  | nil => rfl
  | cons kt kts ih =>
    unfold kthread_kill_loop
    by_cases h : kt.tid = ktid
    · simp only [h, if_true, ih, List.any_cons, decide_True, Bool.true_or, ite_self]
    · simp only [h, if_false, ih, List.any_cons, decide_False, Bool.false_or]

theorem any_tid_iff (k : Kernel) (pi : Nat) (ktid : Int) :
    (procAt k pi).kthread.any (fun kt => decide (kt.tid = ktid)) = true ↔
      ∃ j, j < (procAt k pi).kthread.length ∧ (ktAt k pi j).tid = ktid := by
  rw [List.any_eq_true]
  constructor
  · rintro ⟨kt, hkt, htid⟩
    obtain ⟨j, hj, rfl⟩ := List.getElem_of_mem hkt
    refine ⟨j, hj, ?_⟩
    have h := getElem?_ktAt (k := k) (i := pi) hj
    rw [List.getElem?_eq_getElem hj] at h
    rw [← Option.some.inj h]
    simpa using htid
  · rintro ⟨j, hj, htid⟩
    refine ⟨ktAt k pi j, ?_, by simpa using htid⟩
    exact List.mem_iff_getElem?.mpr ⟨j, getElem?_ktAt hj⟩

/-- The caller's process slot after `kthread_kill`: only its thread slots may
differ, each the image of the loop body. -/
theorem procAt_kthread_kill (k : Kernel) (pi : Nat) (ktid : Int) :
    procAt (kthread_kill k pi ktid).2 pi
      = { procAt k pi with kthread := (procAt k pi).kthread.map (kthread_kill_kt ktid) } := by
  unfold kthread_kill
  simp only [kthread_kill_loop_spec]
  by_cases hpi : pi < k.proc.length
  · rw [procAt_setProc_eq k _ hpi]
  · have hle : k.proc.length ≤ pi := Nat.le_of_not_lt hpi
    rw [procAt_default_of_le _ (by rw [length_setProc]; exact hle), procAt_default_of_le k hle]
    rfl

theorem ktAt_kthread_kill (k : Kernel) (pi : Nat) (ktid : Int) (j : Nat)
    (hj : j < (procAt k pi).kthread.length) :
    ktAt (kthread_kill k pi ktid).2 pi j = kthread_kill_kt ktid (ktAt k pi j) := by
  unfold ktAt
  rw [procAt_kthread_kill]
  simp only [List.getD_eq_getElem?_getD, List.getElem?_map, getElem?_ktAt hj,
    Option.map_some', Option.getD_some]
/-- C12, counterexample. In a table whose process 0 has a running thread
(tid 1) and two free thread slots (state UNUSED, tid 0), as the data model
prescribes, `kthread_kill(0)` called by that process returns 0 and sets the
killed flag of both free slots: two slots are modified, both in state
UNUSED. -/
theorem kthread_kill_zero_marks_free_slots :
    tids_wf ex_wide 0 ∧
    (kthread_kill ex_wide 0 0).1 = 0 ∧
    (ktAt ex_wide 0 1).state = .UNUSED ∧ (ktAt ex_wide 0 2).state = .UNUSED ∧
    (ktAt ex_wide 0 1).killed = 0 ∧ (ktAt (kthread_kill ex_wide 0 0).2 0 1).killed = 1 ∧
    (ktAt ex_wide 0 2).killed = 0 ∧ (ktAt (kthread_kill ex_wide 0 0).2 0 2).killed = 1 := by
  decide

/-- C12, amended. `kthread_kill(ktid)` called by a thread of process `pi` acts
on the thread slots of that process that hold `ktid`, whatever their state.  It
returns 0 exactly when some thread slot of the process has that tid, and
otherwise returns -1 and leaves the table as it was.  Every slot with that tid
gets `killed = 1` and, if it was SLEEPING, state RUNNABLE; every other slot,
the process's other fields (its own killed flag among them), the other
processes and the globals are unchanged.  When the tids of the process follow
the data model and `ktid` is not 0, the slot with that tid is not UNUSED, no
other slot is modified, and no UNUSED slot is modified; for `ktid = 0` every
UNUSED slot gets `killed = 1`. -/
theorem kthread_kill_acts_on_slots_with_tid (k : Kernel) (pi : Nat) (ktid : Int) :
    ((kthread_kill k pi ktid).1 = 0 ↔
      ∃ j, j < (procAt k pi).kthread.length ∧ (ktAt k pi j).tid = ktid) ∧
    ((kthread_kill k pi ktid).1 ≠ 0 →
      (kthread_kill k pi ktid).1 = -1 ∧ (kthread_kill k pi ktid).2 = k) ∧
    (kthread_kill k pi ktid).2.initproc = k.initproc ∧
    (kthread_kill k pi ktid).2.nextpid = k.nextpid ∧
    (kthread_kill k pi ktid).2.umem = k.umem ∧
    (kthread_kill k pi ktid).2.proc.length = k.proc.length ∧
    (∀ i, i ≠ pi → procAt (kthread_kill k pi ktid).2 i = procAt k i) ∧
    procAt (kthread_kill k pi ktid).2 pi
      = { procAt k pi with kthread := (procAt (kthread_kill k pi ktid).2 pi).kthread } ∧
    (procAt (kthread_kill k pi ktid).2 pi).kthread.length = (procAt k pi).kthread.length ∧
    (∀ j, j < (procAt k pi).kthread.length →
      ktAt (kthread_kill k pi ktid).2 pi j =
        if (ktAt k pi j).tid = ktid then
          { ktAt k pi j with
            killed := 1,
            state := if (ktAt k pi j).state = .SLEEPING then .RUNNABLE else (ktAt k pi j).state }
        else ktAt k pi j) ∧
    (tids_wf k pi → ktid ≠ 0 →
      (∀ j, j < (procAt k pi).kthread.length → (ktAt k pi j).tid = ktid →
        (ktAt k pi j).state ≠ .UNUSED ∧
        ∀ l, l < (procAt k pi).kthread.length → l ≠ j →
          ktAt (kthread_kill k pi ktid).2 pi l = ktAt k pi l) ∧
      (∀ l, l < (procAt k pi).kthread.length → (ktAt k pi l).state = .UNUSED →
        ktAt (kthread_kill k pi ktid).2 pi l = ktAt k pi l)) ∧
    (tids_wf k pi → ktid = 0 →
      ∀ l, l < (procAt k pi).kthread.length → (ktAt k pi l).state = .UNUSED →
        (ktAt (kthread_kill k pi ktid).2 pi l).killed = 1) := by
  have hret : (kthread_kill k pi ktid).1
      = if (procAt k pi).kthread.any (fun kt => decide (kt.tid = ktid)) then 0 else -1 := by
    unfold kthread_kill
    exact kthread_kill_loop_ret ktid _ (-1)
  have hslot : ∀ j, j < (procAt k pi).kthread.length →
      ktAt (kthread_kill k pi ktid).2 pi j =
        if (ktAt k pi j).tid = ktid then kill_kt (ktAt k pi j) else ktAt k pi j := by
    intro j hj
    rw [ktAt_kthread_kill k pi ktid j hj]
    rfl
  have hunch : ∀ l, l < (procAt k pi).kthread.length → (ktAt k pi l).tid ≠ ktid →
      ktAt (kthread_kill k pi ktid).2 pi l = ktAt k pi l := by
    intro l hl hne
    rw [hslot l hl, if_neg hne]
  refine ⟨?_, ?_, rfl, rfl, rfl, ?_, ?_, ?_, ?_, ?_, ?_, ?_⟩
  · rw [hret, ← any_tid_iff]
    by_cases h : (procAt k pi).kthread.any (fun kt => decide (kt.tid = ktid)) = true
    · simp only [h, if_true]
    · simp only [h, if_false]
      constructor
      · intro h0
        exact absurd h0 (by decide)
      · intro h0
        exact absurd h0 (by simp)
  · intro hne
    have hany : ¬ (procAt k pi).kthread.any (fun kt => decide (kt.tid = ktid)) = true := by
      intro h
      apply hne
      rw [hret, if_pos h]
    refine ⟨by rw [hret, if_neg hany], ?_⟩
    unfold kthread_kill
    simp only [kthread_kill_loop_spec]
    apply setProc_self
    have hmap : (procAt k pi).kthread.map (kthread_kill_kt ktid) = (procAt k pi).kthread := by
      have hid : ∀ kt, kt ∈ (procAt k pi).kthread → kthread_kill_kt ktid kt = id kt := by
        intro kt hkt
        unfold kthread_kill_kt
        rw [if_neg]
        · rfl
        · intro ht
          exact hany (List.any_eq_true.mpr ⟨kt, hkt, by simpa using ht⟩)
      rw [List.map_congr_left hid, List.map_id]
    rw [hmap]
  · unfold kthread_kill
    exact length_setProc _ _ _
  · intro i hi
    unfold kthread_kill
    exact procAt_setProc_ne k _ (fun h => hi h.symm)
  · rw [procAt_kthread_kill]
  · rw [procAt_kthread_kill]
    exact List.length_map _ _
  · exact hslot
  · intro hwf hne0
    constructor
    · intro j hj htid
      have hst : (ktAt k pi j).state ≠ .UNUSED := by
        intro hu
        exact hne0 (htid ▸ (hwf j hj).1 hu)
      refine ⟨hst, ?_⟩
      intro l hl hlj
      apply hunch l hl
      intro htl
      have hstl : (ktAt k pi l).state ≠ .UNUSED := by
        intro hu
        exact hne0 (htl ▸ (hwf l hl).1 hu)
      exact ((hwf j hj).2 hst).2 l hl ⟨hlj, hstl⟩ (htl.trans htid.symm)
    · intro l hl hu
      apply hunch l hl
      intro htl
      exact hne0 (htl ▸ (hwf l hl).1 hu)
  · intro hwf h0 l hl hu
    rw [hslot l hl, if_pos (((hwf l hl).1 hu).trans h0.symm)]
    rfl

/-- C12, amended, on the example table with a joining thread: in process 1,
whose tids follow the data model, `kthread_kill(1)` returns 0, wakes the
sleeping thread with tid 1 and leaves the other thread as it was. -/
theorem kthread_kill_acts_on_slots_with_tid_witness :
    tids_wf ex_join 1 ∧
    (kthread_kill ex_join 1 1).1 = 0 ∧
    (ktAt (kthread_kill ex_join 1 1).2 1 0).killed = 1 ∧
    (ktAt (kthread_kill ex_join 1 1).2 1 0).state = .RUNNABLE ∧
    ktAt (kthread_kill ex_join 1 1).2 1 1 = ktAt ex_join 1 1 := by
  obtain ⟨h1, _, _, _, _, _, _, _, _, h10, h11, _⟩ :=
    kthread_kill_acts_on_slots_with_tid ex_join 1 1
  refine ⟨by decide, h1.2 ⟨0, by decide, by decide⟩, ?_, ?_, ?_⟩
  · rw [h10 0 (by decide)]
    decide
  · rw [h10 0 (by decide)]
    decide
  · exact ((h11 (by decide) (by decide)).1 0 (by decide) (by decide)).2 1 (by decide)
      (by decide)

end Proc
